import Mathlib

/-!
# gofika/weightsystem: a model of the weight system, in exact and in float64 arithmetic

The Go package keeps a `map[T]float64` of item weights together with two
bounds and two cached aggregates (total and average weight).

Modelling choices:

* `float64` values are modelled by rationals (`ℚ`).  The definitions at the
  top level of the namespace `WeightSystem` compute in exact arithmetic: the
  literals `1.1` and `0.9` are `11/10` and `9/10`, and the Go builtins
  `min`/`max` are the lattice operations of `ℚ`.  The definitions of the
  namespace `WeightSystem.Rounded` are the same methods with a rounding
  function applied to the result of every `+`, `-`, `*`, `/` and to the two
  literals; with `round64`, rounding to the nearest float64 with ties to
  even, they compute what the Go code computes as long as no result
  overflows.  NaN and infinities are outside both models.
* `map[T]float64` is modelled by Mathlib's association lists with unique
  keys, `AList (fun _ : T => ℚ)`.  `m[k]` is `AList.lookup`, `m[k] = v` is
  `AList.insert`, `delete(m, k)` is `AList.erase` and `len(m)` is the length
  of the entry list.
* pointer receivers become explicit state passing: a method
  `func (ws *WeightSystem[T]) F(args)` is a function
  `F : WeightSystem T → args → WeightSystem T`.
* functional options (`func(*NewOptions)`) are functions on the options
  record, applied left to right.
-/

/-- The options record of `New` (options.go, `NewOptions`). -/
structure NewOptions where
  minWeight : ℚ
  maxWeight : ℚ
deriving DecidableEq

/-- A constructor option: `type NewOption func(*NewOptions)`. -/
abbrev NewOption := NewOptions → NewOptions

/-- The option `WithMinWeight` of options.go: overwrite `minWeight`. -/
def WithMinWeight (minWeight : ℚ) : NewOption :=
  fun options => { options with minWeight := minWeight }

/-- The option `WithMaxWeight` of options.go: overwrite `maxWeight`. -/
def WithMaxWeight (maxWeight : ℚ) : NewOption :=
  fun options => { options with maxWeight := maxWeight }

/-- The options record of `AddItem` (options.go, `AddItemOptions`). -/
structure AddItemOptions where
  weight : ℚ
deriving DecidableEq

/-- An add option: `type AddItemOption func(*AddItemOptions)`. -/
abbrev AddItemOption := AddItemOptions → AddItemOptions

/-- The option `WithWeight` of options.go: overwrite `weight`. -/
def WithWeight (weight : ℚ) : AddItemOption :=
  fun options => { options with weight := weight }

/-- The state of a weight system (weightsystem.go, `WeightSystem[T]`). -/
structure WeightSystem (T : Type) [DecidableEq T] where
  weights : AList (fun _ : T => ℚ)
  minWeight : ℚ
  maxWeight : ℚ
  totalWeight : ℚ
  avgWeight : ℚ

set_option linter.unusedSectionVars false

namespace WeightSystem

variable {T : Type} [DecidableEq T]

/-- The number of items: `len(ws.weights)`. -/
def count (ws : WeightSystem T) : ℕ := ws.weights.entries.length

/-- The weight read by `ws.weights[item]`: the stored value, or the zero
value `0` of `float64` for a missing key. -/
def weightOf (ws : WeightSystem T) (item : T) : ℚ :=
  (ws.weights.lookup item).getD 0

/-- The sum of all values of a weight map. -/
def sumWeights (m : AList (fun _ : T => ℚ)) : ℚ :=
  (m.entries.map (fun e => e.2)).sum

/-- The method `updateAvgWeight`: recompute the cached average. -/
def updateAvgWeight (ws : WeightSystem T) : WeightSystem T :=
  if ws.weights.entries.length > 0 then
    { ws with avgWeight := ws.totalWeight / (ws.weights.entries.length : ℚ) }
  else
    { ws with avgWeight := (ws.minWeight + ws.maxWeight) / 2 }

/-- The constructor `New`: defaults 1 and 1000, the options applied in
order, the bounds normalised, the map empty and the aggregates zero before
`updateAvgWeight` runs. -/
def New (opts : List NewOption) : WeightSystem T :=
  let options : NewOptions := opts.foldl (fun o opt => opt o) ⟨1, 1000⟩
  let options : NewOptions := { options with minWeight := max 1 options.minWeight }
  let options : NewOptions :=
    { options with maxWeight := max options.minWeight options.maxWeight }
  updateAvgWeight
    { weights := ∅
      minWeight := options.minWeight
      maxWeight := options.maxWeight
      totalWeight := 0
      avgWeight := 0 }

/-- The accessor `MinWeight`. -/
def MinWeight (ws : WeightSystem T) : ℚ := ws.minWeight

/-- The accessor `MaxWeight`. -/
def MaxWeight (ws : WeightSystem T) : ℚ := ws.maxWeight

/-- The method `AdjustWeight`: read the old weight (zero for a missing key),
store the scaled and one-sidedly clamped weight, move the total by the
difference of the stored and the old weight, recompute the average. -/
def AdjustWeight (ws : WeightSystem T) (item : T) (success : Bool) : WeightSystem T :=
  let oldWeight := (ws.weights.lookup item).getD 0
  let weights :=
    if success then
      ws.weights.insert item (min (oldWeight * (11 / 10)) ws.maxWeight)
    else
      ws.weights.insert item (max (oldWeight * (9 / 10)) ws.minWeight)
  updateAvgWeight
    { ws with
      weights := weights
      totalWeight := ws.totalWeight + ((weights.lookup item).getD 0 - oldWeight) }

/-- The method `AddItem`: nothing for a key that exists; otherwise the
chosen weight (the current average unless an option overrides it) is clamped
into the bounds and stored, the total grows by the stored weight and the
average is recomputed. -/
def AddItem (ws : WeightSystem T) (item : T) (opts : List AddItemOption) : WeightSystem T :=
  if (ws.weights.lookup item).isSome then ws
  else
    let options : AddItemOptions := opts.foldl (fun o opt => opt o) ⟨ws.avgWeight⟩
    let weights := ws.weights.insert item (max (min options.weight ws.maxWeight) ws.minWeight)
    updateAvgWeight
      { ws with
        weights := weights
        totalWeight := ws.totalWeight + (weights.lookup item).getD 0 }

/-- The weight `AddItem` chooses before clamping: the field `weight` of the
options record, which starts at the current average and is then passed
through the options in order. -/
def chosenWeight (ws : WeightSystem T) (opts : List AddItemOption) : ℚ :=
  (opts.foldl (fun o opt => opt o) (⟨ws.avgWeight⟩ : AddItemOptions)).weight

/-- The method `AddItems`: `AddItem` for each item in order, same options. -/
def AddItems (ws : WeightSystem T) (items : List T) (opts : List AddItemOption) :
    WeightSystem T :=
  items.foldl (fun w item => AddItem w item opts) ws

/-- The method `RemoveItem`: nothing for a missing key; otherwise the key is
deleted, the total drops by its weight and the average is recomputed. -/
def RemoveItem (ws : WeightSystem T) (item : T) : WeightSystem T :=
  match ws.weights.lookup item with
  | none => ws
  | some weight =>
    updateAvgWeight
      { ws with
        weights := ws.weights.erase item
        totalWeight := ws.totalWeight - weight }

/-- One call of a mutating method of the public surface. -/
inductive Call (T : Type) where
  | addItem (item : T) (opts : List AddItemOption)
  | addItems (items : List T) (opts : List AddItemOption)
  | removeItem (item : T)
  | adjustWeight (item : T) (success : Bool)

/-- Perform one call on a state. -/
def step (ws : WeightSystem T) : Call T → WeightSystem T
  | .addItem item opts => AddItem ws item opts
  | .addItems items opts => AddItems ws items opts
  | .removeItem item => RemoveItem ws item
  | .adjustWeight item success => AdjustWeight ws item success

/-- Perform a finite sequence of calls, first to last. -/
def run (ws : WeightSystem T) (calls : List (Call T)) : WeightSystem T :=
  calls.foldl step ws

/-- The states reachable from `New`: those obtained from `New opts` by a
finite sequence of calls. -/
def reach (opts : List NewOption) (calls : List (Call T)) : WeightSystem T :=
  run (New opts) calls

/-! ## Selection, listing and copying

Go iterates a map in an order that is not fixed, and a fresh one for every
`range` statement.  A method that ranges over the weight map therefore takes
the order of that iteration as an argument: a list `order` of entries, meant
to be a permutation of `ws.weights.entries`.  The uniform draw
`rand.Float64()` of `GetItem` is an argument `u` as well, with `0 ≤ u < 1`. -/

/-- The first loop of `GetItem`: subtract each weight from `r` in iteration
order and return the first item at which `r ≤ 0`; `none` when the loop runs
to its end without returning. -/
def scan (r : ℚ) : List (Sigma fun _ : T => ℚ) → Option T
  | [] => none
  | e :: rest => if r - e.2 ≤ 0 then some e.1 else scan (r - e.2) rest

/-- The method `GetItem`: the weighted scan over `order` with
`r = u * totalWeight`; when the scan does not return, the first item of a
second iteration `order2`, or the zero value of `T` for an empty map. -/
def GetItem [Inhabited T] (ws : WeightSystem T) (order order2 : List (Sigma fun _ : T => ℚ))
    (u : ℚ) : T :=
  match scan (u * ws.totalWeight) order with
  | some item => item
  | none =>
    match order2 with
    | [] => default
    | e :: _ => e.1

/-- The sum of the first `i` weights of an iteration order. -/
def prefixSum (order : List (Sigma fun _ : T => ℚ)) (i : ℕ) : ℚ :=
  ((order.take i).map (fun e => e.2)).sum

/-- The method `Weights` on values: a new map filled with every entry of the
iteration. -/
def Weights (order : List (Sigma fun _ : T => ℚ)) : AList (fun _ : T => ℚ) :=
  order.foldl (fun clone e => clone.insert e.1 e.2) ∅

/-- An element of the sorted listing (weightsystem.go, `WeightedItem[T]`). -/
structure WeightedItem (T : Type) where
  Item : T
  Weight : ℚ
deriving DecidableEq

/-- One insertion step of the sort: `x` is put in front of the first
element it is less than. -/
def insertLess {α : Type} (less : α → α → Bool) (x : α) : List α → List α
  | [] => [x]
  | y :: ys => if less x y then x :: y :: ys else y :: insertLess less x ys

/-- The library call `sort.Slice(items, less)`, modelled by insertion sort
(the algorithm the Go library runs on short slices) driven by the caller's
`less`. -/
def sortSlice {α : Type} (less : α → α → Bool) (items : List α) : List α :=
  items.foldl (fun sorted x => insertLess less x sorted) []

/-- The method `SortedWeights`: the entries in iteration order, as
`WeightedItem`s, sorted by `Weight >`. -/
def SortedWeights (order : List (Sigma fun _ : T => ℚ)) : List (WeightedItem T) :=
  sortSlice (fun a b => decide (a.Weight > b.Weight))
    (order.map (fun e => (⟨e.1, e.2⟩ : WeightedItem T)))

/-- The call `AdjustWeight(item, success)` made `n` times in a row. -/
def repeatAdjust (ws : WeightSystem T) (item : T) (success : Bool) : ℕ → WeightSystem T
  | 0 => ws
  | n + 1 => AdjustWeight (repeatAdjust ws item success n) item success

/-- The spec's reading of `AddItems`: "applies AddItem to each item in the
given ordered sequence, same options for all". -/
def addEach (ws : WeightSystem T) (opts : List AddItemOption) : List T → WeightSystem T
  | [] => ws
  | x :: xs => addEach (AddItem ws x opts) opts xs

/-- A list without the items of `seen` and without later repetitions: each
item is kept at its first occurrence, unless it is in `seen`. -/
def dropSeen (seen : List T) : List T → List T
  | [] => []
  | x :: xs => if x ∈ seen then dropSeen seen xs else x :: dropSeen (x :: seen) xs

/-! ## Maps as references

A Go map is a reference: two variables may name the same map object.  To
state that `Weights` hands out a copy, map objects live in a heap and a map
value is an index into it. -/

/-- A heap of map objects. -/
abbrev Heap (T : Type) [DecidableEq T] := List (AList (fun _ : T => ℚ))

/-- The map object behind a reference (the empty map for a dangling one). -/
def deref (h : Heap T) (p : ℕ) : AList (fun _ : T => ℚ) := h.getD p ∅

/-- The allocation `make(map[T]float64, n)`: a new empty object at a new
reference. -/
def makeMap (h : Heap T) : Heap T × ℕ := (h ++ [∅], h.length)

/-- The assignment `m[k] = v` through the reference `p`. -/
def assignAt (h : Heap T) (p : ℕ) (k : T) (v : ℚ) : Heap T :=
  h.set p ((deref h p).insert k v)

/-- The call `delete(m, k)` through the reference `p`. -/
def deleteAt (h : Heap T) (p : ℕ) (k : T) : Heap T :=
  h.set p ((deref h p).erase k)

/-- A weight system whose field `weights` is a map reference. -/
structure WeightSystemRef where
  weights : ℕ
  minWeight : ℚ
  maxWeight : ℚ
  totalWeight : ℚ
  avgWeight : ℚ

/-- The state that the methods of a system observe in a heap. -/
def view (h : Heap T) (s : WeightSystemRef) : WeightSystem T :=
  { weights := deref h s.weights
    minWeight := s.minWeight
    maxWeight := s.maxWeight
    totalWeight := s.totalWeight
    avgWeight := s.avgWeight }

/-- The method `Weights` on a heap: allocate `clone`, assign every entry of
the iteration to it, return the reference `clone`. -/
def WeightsRef (h : Heap T) (order : List (Sigma fun _ : T => ℚ)) : Heap T × ℕ :=
  let hc := makeMap h
  (order.foldl (fun heap e => assignAt heap hc.2 e.1 e.2) hc.1, hc.2)

/-- What a caller can do to a map it holds. -/
inductive MapWrite (T : Type) where
  | assign (k : T) (v : ℚ)
  | delete (k : T)

/-- Perform a sequence of writes through the reference `p`. -/
def applyWrites (h : Heap T) (p : ℕ) (writes : List (MapWrite T)) : Heap T :=
  writes.foldl
    (fun heap w =>
      match w with
      | .assign k v => assignAt heap p k v
      | .delete k => deleteAt heap p k)
    h

/-! ## Rounded arithmetic

A float64 operation returns the exact result rounded to the nearest float64,
a tie going to the neighbour with an even significand.  A finite float64 is
a rational, so rounding is a function on `ℚ`. -/

/-- Round a rational to the nearest integer, a tie to the even neighbour. -/
def roundHalfEven (q : ℚ) : ℤ :=
  if q - ⌊q⌋ < 1 / 2 then ⌊q⌋
  else if 1 / 2 < q - ⌊q⌋ then ⌊q⌋ + 1
  else if ⌊q⌋ % 2 = 0 then ⌊q⌋ else ⌊q⌋ + 1

/-- The binary exponent of `x` as a float64: the `e` with `2^e ≤ |x| < 2^(e+1)`,
and -1022 for anything smaller (the subnormal range). -/
def exponent64 (x : ℚ) : ℤ := max (Int.log 2 |x|) (-1022)

/-- Rounding to float64: the nearest multiple of `2^(e-52)`, where `e` is
the binary exponent of `x`, a tie to the even multiple.  Overflow to an
infinity (a result of `2^1024` or more) is not modelled. -/
def round64 (x : ℚ) : ℚ :=
  (roundHalfEven (x / 2 ^ (exponent64 x - 52)) : ℚ) * 2 ^ (exponent64 x - 52)

namespace Rounded

/-- The method `updateAvgWeight` with rounded arithmetic. -/
def updateAvgWeight (rnd : ℚ → ℚ) (ws : WeightSystem T) : WeightSystem T :=
  if ws.weights.entries.length > 0 then
    { ws with avgWeight := rnd (ws.totalWeight / (ws.weights.entries.length : ℚ)) }
  else
    { ws with avgWeight := rnd (rnd (ws.minWeight + ws.maxWeight) / 2) }

/-- The constructor `New` with rounded arithmetic (`max` does not round). -/
def New (rnd : ℚ → ℚ) (opts : List NewOption) : WeightSystem T :=
  let options : NewOptions := opts.foldl (fun o opt => opt o) ⟨1, 1000⟩
  let options : NewOptions := { options with minWeight := max 1 options.minWeight }
  let options : NewOptions :=
    { options with maxWeight := max options.minWeight options.maxWeight }
  updateAvgWeight rnd
    { weights := ∅
      minWeight := options.minWeight
      maxWeight := options.maxWeight
      totalWeight := 0
      avgWeight := 0 }

/-- The method `AdjustWeight` with rounded arithmetic: the literals `1.1` and
`0.9` are rounded, and so are the product, the difference of the new and the
old weight, and the sum that updates the total. -/
def AdjustWeight (rnd : ℚ → ℚ) (ws : WeightSystem T) (item : T) (success : Bool) :
    WeightSystem T :=
  let oldWeight := (ws.weights.lookup item).getD 0
  let weights :=
    if success then
      ws.weights.insert item (min (rnd (oldWeight * rnd (11 / 10))) ws.maxWeight)
    else
      ws.weights.insert item (max (rnd (oldWeight * rnd (9 / 10))) ws.minWeight)
  updateAvgWeight rnd
    { ws with
      weights := weights
      totalWeight :=
        rnd (ws.totalWeight + rnd ((weights.lookup item).getD 0 - oldWeight)) }

/-- The method `AddItem` with rounded arithmetic. -/
def AddItem (rnd : ℚ → ℚ) (ws : WeightSystem T) (item : T) (opts : List AddItemOption) :
    WeightSystem T :=
  if (ws.weights.lookup item).isSome then ws
  else
    let options : AddItemOptions := opts.foldl (fun o opt => opt o) ⟨ws.avgWeight⟩
    let weights := ws.weights.insert item (max (min options.weight ws.maxWeight) ws.minWeight)
    updateAvgWeight rnd
      { ws with
        weights := weights
        totalWeight := rnd (ws.totalWeight + (weights.lookup item).getD 0) }

/-- The method `AddItems` with rounded arithmetic. -/
def AddItems (rnd : ℚ → ℚ) (ws : WeightSystem T) (items : List T)
    (opts : List AddItemOption) : WeightSystem T :=
  items.foldl (fun w item => AddItem rnd w item opts) ws

/-- The method `RemoveItem` with rounded arithmetic. -/
def RemoveItem (rnd : ℚ → ℚ) (ws : WeightSystem T) (item : T) : WeightSystem T :=
  match ws.weights.lookup item with
  | none => ws
  | some weight =>
    updateAvgWeight rnd
      { ws with
        weights := ws.weights.erase item
        totalWeight := rnd (ws.totalWeight - weight) }

/-- Perform one call on a state, with rounded arithmetic. -/
def step (rnd : ℚ → ℚ) (ws : WeightSystem T) : Call T → WeightSystem T
  | .addItem item opts => AddItem rnd ws item opts
  | .addItems items opts => AddItems rnd ws items opts
  | .removeItem item => RemoveItem rnd ws item
  | .adjustWeight item success => AdjustWeight rnd ws item success

/-- Perform a finite sequence of calls, with rounded arithmetic. -/
def run (rnd : ℚ → ℚ) (ws : WeightSystem T) (calls : List (Call T)) : WeightSystem T :=
  calls.foldl (step rnd) ws

/-- The states reachable from `New`, with rounded arithmetic. -/
def reach (rnd : ℚ → ℚ) (opts : List NewOption) (calls : List (Call T)) : WeightSystem T :=
  run rnd (New rnd opts) calls

/-- The first loop of `GetItem` with rounded arithmetic: `r -= weight`
rounds. -/
def scan (rnd : ℚ → ℚ) (r : ℚ) : List (Sigma fun _ : T => ℚ) → Option T
  | [] => none
  | e :: rest => if rnd (r - e.2) ≤ 0 then some e.1 else scan rnd (rnd (r - e.2)) rest

/-- The method `GetItem` with rounded arithmetic: the product
`u * totalWeight` rounds. -/
def GetItem [Inhabited T] (rnd : ℚ → ℚ) (ws : WeightSystem T)
    (order order2 : List (Sigma fun _ : T => ℚ)) (u : ℚ) : T :=
  match scan rnd (rnd (u * ws.totalWeight)) order with
  | some item => item
  | none =>
    match order2 with
    | [] => default
    | e :: _ => e.1

end Rounded

/-- The four fields of a state other than the cached average. -/
def Snapshot (ws : WeightSystem T) (m : AList (fun _ : T => ℚ)) (mn mx t : ℚ) : Prop :=
  ws.weights = m ∧ ws.minWeight = mn ∧ ws.maxWeight = mx ∧ ws.totalWeight = t

/-! ## Systems in float64 used as examples -/

/-- The default system in float64 after adding `"a"` at 1000 and `"b"` at the
float64 `1.3` and removing both. -/
def addedAndRemoved : WeightSystem String :=
  Rounded.reach round64 []
    [Call.addItem "a" [WithWeight 1000],
      Call.addItem "b" [WithWeight (5854679515581645 / 2 ^ 52)],
      Call.removeItem "a", Call.removeItem "b"]

/-- The default system in float64 after adding `"a"` at the float64 `1.1`,
adding `"d"` at 1000 and removing `"d"`. -/
def oneItemDrifted : WeightSystem String :=
  Rounded.reach round64 []
    [Call.addItem "a" [WithWeight (2476979795053773 / 2 ^ 51)],
      Call.addItem "d" [WithWeight 1000], Call.removeItem "d"]

/-- The default system in float64 after adding five items whose float64 total
is the exact sum of their weights. -/
def fiveItems : WeightSystem String :=
  Rounded.reach round64 []
    [Call.addItem "a" [WithWeight (3273369261191463 / 2 ^ 42)],
      Call.addItem "b" [WithWeight (2288413550890189 / 2 ^ 42)],
      Call.addItem "c" [WithWeight (8686449722686177 / 2 ^ 43)],
      Call.addItem "d" [WithWeight (5302822320356253 / 2 ^ 43)],
      Call.addItem "e" [WithWeight (2830402241669901 / 2 ^ 42)]]

/-- The default system in float64 after adding `"a"` at 1 and `"b"` at 2. -/
def oneAndTwo : WeightSystem String :=
  Rounded.reach round64 []
    [Call.addItem "a" [WithWeight (1)],
      Call.addItem "b" [WithWeight (2)]]

/-- The default system in float64 after adding `"a"`, `"b"`, `"c"` at the
float64 values `1.7`, `2.2`, `1.3`. -/
def threeItems : WeightSystem String :=
  Rounded.reach round64 []
    [Call.addItem "a" [WithWeight (7656119366529843 / 2 ^ 52)],
      Call.addItem "b" [WithWeight (2476979795053773 / 2 ^ 50)],
      Call.addItem "c" [WithWeight (5854679515581645 / 2 ^ 52)]]

/-- The system built in float64 with the upper bound `1.7` after `AddItems` of
four items without a weight option. -/
def fourAtAverage : WeightSystem String :=
  Rounded.AddItems round64 (Rounded.New round64 [WithMaxWeight (7656119366529843 / 2 ^ 52)])
    ["a", "b", "c", "d"] []

/-! ## Two small systems used as examples -/

/-- The default system after `AddItems` of `"a"` and `"b"`: two items of
equal weight 500.5. -/
def twoItems : WeightSystem String := AddItems (New []) ["a", "b"] []

/-- The default system after a successful `AdjustWeight` on the absent item
`"x"`: one item of weight 0, total weight 0. -/
def zeroItem : WeightSystem String := AdjustWeight (New []) "x" true

/-! ## The two aggregate invariants -/

/-- The total weight is the sum of the stored weights. -/
def TotalOk (ws : WeightSystem T) : Prop :=
  ws.totalWeight = sumWeights ws.weights

/-- The relation between the cached average and the other fields that
`updateAvgWeight` establishes. -/
def AvgOk (ws : WeightSystem T) : Prop :=
  ws.avgWeight =
    if 0 < ws.count then ws.totalWeight / (ws.count : ℚ)
    else (ws.minWeight + ws.maxWeight) / 2

/-- The normalisation of the bounds that `New` establishes. -/
def BoundsOk (ws : WeightSystem T) : Prop :=
  1 ≤ ws.minWeight ∧ ws.minWeight ≤ ws.maxWeight

/-- No stored weight is negative. -/
def NonnegOk (ws : WeightSystem T) : Prop :=
  ∀ e ∈ ws.weights.entries, 0 ≤ e.2

/-! ## Lemmas on the weight map -/

/-- Erasing a key from an entry list lowers the sum of the values by the
value found under that key (by nothing when the key is missing). -/
theorem sum_kerase (a : T) (l : List (Sigma fun _ : T => ℚ)) :
    ((l.kerase a).map (fun e => e.2)).sum
      = (l.map (fun e => e.2)).sum - (l.dlookup a).getD 0 := by
  induction l with
  | nil => simp
  | cons e l ih =>
    obtain ⟨k, v⟩ := e
    by_cases h : a = k
    · subst h
      simp
    · have h2 : k ≠ a := fun e => h e.symm
      rw [List.kerase_cons_ne h, List.dlookup_cons_ne _ _ h]
      simp only [List.map_cons, List.sum_cons, ih]
      ring

/-- Storing a value under a key moves the sum of the map by the difference
of the stored value and the value read before. -/
theorem sumWeights_insert (m : AList (fun _ : T => ℚ)) (a : T) (b : ℚ) :
    sumWeights (m.insert a b) = sumWeights m + (b - (m.lookup a).getD 0) := by
  unfold sumWeights
  rw [AList.insert_entries, List.map_cons, List.sum_cons, sum_kerase]
  simp only [AList.lookup]
  ring

/-- Deleting a key lowers the sum of the map by the value read before. -/
theorem sumWeights_erase (m : AList (fun _ : T => ℚ)) (a : T) :
    sumWeights (m.erase a) = sumWeights m - (m.lookup a).getD 0 := by
  unfold sumWeights
  show (((m.entries.kerase a)).map (fun e => e.2)).sum = _
  rw [sum_kerase]
  rfl

/-- Reading the only key of a one-entry map. -/
theorem lookup_singleton (a : T) (b : ℚ) :
    AList.lookup a (AList.singleton a b : AList (fun _ : T => ℚ)) = some b := by
  rw [← AList.insert_empty]
  exact AList.lookup_insert _

/-- A key that is missing stays missing when another key is stored. -/
theorem lookup_insert_none (m : AList (fun _ : T => ℚ)) (a b : T) (v : ℚ) (hne : a ≠ b)
    (h : m.lookup a = none) : (m.insert b v).lookup a = none :=
  (AList.lookup_insert_ne hne).trans h

/-- The entries after storing under a missing key. -/
theorem entries_insert_of_lookup_none (m : AList (fun _ : T => ℚ)) (a : T) (v : ℚ)
    (h : m.lookup a = none) : (m.insert a v).entries = ⟨a, v⟩ :: m.entries :=
  AList.insert_entries_of_neg (AList.lookup_eq_none.mp h)

/-- The number of entries after storing under a missing key. -/
theorem length_insert_of_not_mem (m : AList (fun _ : T => ℚ)) (a : T) (b : ℚ)
    (h : m.lookup a = none) : (m.insert a b).entries.length = m.entries.length + 1 := by
  have h2 : a ∉ m := AList.lookup_eq_none.mp h
  rw [AList.insert_entries_of_neg h2]
  simp

/-- Erasing a key that occurs shortens an entry list by one. -/
theorem length_kerase_add_one (a : T) (l : List (Sigma fun _ : T => ℚ)) (h : a ∈ l.keys) :
    (l.kerase a).length + 1 = l.length := by
  have h1 : (l.kerase a).keys.length + 1 = l.keys.length := by
    rw [List.keys_kerase, List.length_erase_of_mem h]
    have : 0 < l.keys.length := List.length_pos_of_mem h
    omega
  simpa [List.keys] using h1

/-- The number of entries after storing under a key that exists. -/
theorem length_insert_of_mem (m : AList (fun _ : T => ℚ)) (a : T) (b w : ℚ)
    (h : m.lookup a = some w) : (m.insert a b).entries.length = m.entries.length := by
  have h2 : a ∈ m := AList.lookup_isSome.mp (by simp [h])
  rw [AList.insert_entries, List.length_cons]
  exact length_kerase_add_one a m.entries h2

/-- The number of entries after deleting a key that exists. -/
theorem length_erase_of_mem (m : AList (fun _ : T => ℚ)) (a : T) (w : ℚ)
    (h : m.lookup a = some w) : (m.erase a).entries.length + 1 = m.entries.length := by
  have h2 : a ∈ m := AList.lookup_isSome.mp (by simp [h])
  exact length_kerase_add_one a m.entries h2

/-! ## Lemmas on the cached aggregates -/

@[simp] theorem updateAvgWeight_weights (ws : WeightSystem T) :
    (updateAvgWeight ws).weights = ws.weights := by
  unfold updateAvgWeight; split <;> rfl

@[simp] theorem updateAvgWeight_totalWeight (ws : WeightSystem T) :
    (updateAvgWeight ws).totalWeight = ws.totalWeight := by
  unfold updateAvgWeight; split <;> rfl

@[simp] theorem updateAvgWeight_minWeight (ws : WeightSystem T) :
    (updateAvgWeight ws).minWeight = ws.minWeight := by
  unfold updateAvgWeight; split <;> rfl

@[simp] theorem updateAvgWeight_maxWeight (ws : WeightSystem T) :
    (updateAvgWeight ws).maxWeight = ws.maxWeight := by
  unfold updateAvgWeight; split <;> rfl

theorem avgOk_updateAvgWeight (ws : WeightSystem T) : AvgOk (updateAvgWeight ws) := by
  unfold AvgOk count updateAvgWeight
  split <;> rename_i h
  · simp only [gt_iff_lt] at h
    simp [h]
  · simp only [gt_iff_lt] at h
    simp [h]

theorem totalOk_New (opts : List NewOption) : TotalOk (New opts : WeightSystem T) := by
  simp [TotalOk, New, sumWeights]

theorem totalOk_AdjustWeight (ws : WeightSystem T) (item : T) (success : Bool)
    (h : TotalOk ws) : TotalOk (AdjustWeight ws item success) := by
  unfold TotalOk at *
  unfold AdjustWeight
  cases success <;>
    simp only [updateAvgWeight_totalWeight, updateAvgWeight_weights, if_true, if_false,
      Bool.false_eq_true, AList.lookup_insert, Option.getD_some, sumWeights_insert, h]

theorem totalOk_AddItem (ws : WeightSystem T) (item : T) (opts : List AddItemOption)
    (h : TotalOk ws) : TotalOk (AddItem ws item opts) := by
  unfold TotalOk at *
  unfold AddItem
  split
  · exact h
  · rename_i hn
    have hl : ws.weights.lookup item = none := by
      cases hx : ws.weights.lookup item with
      | none => rfl
      | some _ => simp [hx] at hn
    simp only [updateAvgWeight_totalWeight, updateAvgWeight_weights, AList.lookup_insert,
      Option.getD_some, sumWeights_insert, h, hl, Option.getD_none, sub_zero]

theorem totalOk_AddItems (items : List T) (opts : List AddItemOption) :
    ∀ ws : WeightSystem T, TotalOk ws → TotalOk (AddItems ws items opts) := by
  induction items with
  | nil => intro ws h; exact h
  | cons x xs ih =>
    intro ws h
    exact ih _ (totalOk_AddItem ws x opts h)

theorem totalOk_RemoveItem (ws : WeightSystem T) (item : T)
    (h : TotalOk ws) : TotalOk (RemoveItem ws item) := by
  unfold TotalOk at *
  unfold RemoveItem
  split
  · exact h
  · rename_i w hw
    simp only [updateAvgWeight_totalWeight, updateAvgWeight_weights, sumWeights_erase, h, hw,
      Option.getD_some]

theorem totalOk_step (ws : WeightSystem T) (c : Call T) (h : TotalOk ws) :
    TotalOk (step ws c) := by
  cases c with
  | addItem item opts => exact totalOk_AddItem ws item opts h
  | addItems items opts => exact totalOk_AddItems items opts ws h
  | removeItem item => exact totalOk_RemoveItem ws item h
  | adjustWeight item success => exact totalOk_AdjustWeight ws item success h

theorem totalOk_run (calls : List (Call T)) :
    ∀ ws : WeightSystem T, TotalOk ws → TotalOk (run ws calls) := by
  induction calls with
  | nil => intro ws h; exact h
  | cons c cs ih => intro ws h; exact ih _ (totalOk_step ws c h)

theorem avgOk_AdjustWeight (ws : WeightSystem T) (item : T) (success : Bool) :
    AvgOk (AdjustWeight ws item success) :=
  avgOk_updateAvgWeight _

theorem avgOk_AddItem (ws : WeightSystem T) (item : T) (opts : List AddItemOption)
    (h : AvgOk ws) : AvgOk (AddItem ws item opts) := by
  unfold AddItem
  split
  · exact h
  · exact avgOk_updateAvgWeight _

theorem avgOk_AddItems (items : List T) (opts : List AddItemOption) :
    ∀ ws : WeightSystem T, AvgOk ws → AvgOk (AddItems ws items opts) := by
  induction items with
  | nil => intro ws h; exact h
  | cons x xs ih =>
    intro ws h
    exact ih _ (avgOk_AddItem ws x opts h)

theorem avgOk_RemoveItem (ws : WeightSystem T) (item : T)
    (h : AvgOk ws) : AvgOk (RemoveItem ws item) := by
  unfold RemoveItem
  split
  · exact h
  · exact avgOk_updateAvgWeight _

theorem avgOk_step (ws : WeightSystem T) (c : Call T) (h : AvgOk ws) :
    AvgOk (step ws c) := by
  cases c with
  | addItem item opts => exact avgOk_AddItem ws item opts h
  | addItems items opts => exact avgOk_AddItems items opts ws h
  | removeItem item => exact avgOk_RemoveItem ws item h
  | adjustWeight item success => exact avgOk_AdjustWeight ws item success

theorem avgOk_run (calls : List (Call T)) :
    ∀ ws : WeightSystem T, AvgOk ws → AvgOk (run ws calls) := by
  induction calls with
  | nil => intro ws h; exact h
  | cons c cs ih => intro ws h; exact ih _ (avgOk_step ws c h)

/-! ## The effect of each method on the fields -/

/-- The weight that `AdjustWeight` stores for an item read at `oldWeight`. -/
theorem AdjustWeight_weights (ws : WeightSystem T) (item : T) (success : Bool) :
    (AdjustWeight ws item success).weights
      = ws.weights.insert item
          (if success then min ((ws.weights.lookup item).getD 0 * (11 / 10)) ws.maxWeight
           else max ((ws.weights.lookup item).getD 0 * (9 / 10)) ws.minWeight) := by
  unfold AdjustWeight
  cases success <;> simp

theorem AdjustWeight_totalWeight (ws : WeightSystem T) (item : T) (success : Bool) :
    (AdjustWeight ws item success).totalWeight
      = ws.totalWeight +
          ((if success then min ((ws.weights.lookup item).getD 0 * (11 / 10)) ws.maxWeight
            else max ((ws.weights.lookup item).getD 0 * (9 / 10)) ws.minWeight)
            - (ws.weights.lookup item).getD 0) := by
  unfold AdjustWeight
  cases success <;> simp

theorem AddItem_of_absent (ws : WeightSystem T) (item : T) (opts : List AddItemOption)
    (h : ws.weights.lookup item = none) :
    AddItem ws item opts
      = updateAvgWeight
          { ws with
            weights := ws.weights.insert item
              (max (min (chosenWeight ws opts) ws.maxWeight) ws.minWeight)
            totalWeight := ws.totalWeight +
              max (min (chosenWeight ws opts) ws.maxWeight) ws.minWeight } := by
  unfold AddItem chosenWeight
  simp [h]

theorem AddItem_of_present (ws : WeightSystem T) (item : T) (opts : List AddItemOption)
    (w : ℚ) (h : ws.weights.lookup item = some w) : AddItem ws item opts = ws := by
  unfold AddItem
  simp [h]

theorem RemoveItem_of_present (ws : WeightSystem T) (item : T) (w : ℚ)
    (h : ws.weights.lookup item = some w) :
    RemoveItem ws item
      = updateAvgWeight
          { ws with weights := ws.weights.erase item, totalWeight := ws.totalWeight - w } := by
  unfold RemoveItem
  simp [h]

theorem RemoveItem_of_absent (ws : WeightSystem T) (item : T)
    (h : ws.weights.lookup item = none) : RemoveItem ws item = ws := by
  unfold RemoveItem
  simp [h]

/-- The average that `updateAvgWeight` caches. -/
theorem updateAvgWeight_avgWeight (ws : WeightSystem T) :
    (updateAvgWeight ws).avgWeight
      = if 0 < ws.count then ws.totalWeight / (ws.count : ℚ)
        else (ws.minWeight + ws.maxWeight) / 2 := by
  unfold updateAvgWeight count
  split <;> rename_i h
  · simp only [gt_iff_lt] at h
    simp [h]
  · simp only [gt_iff_lt] at h
    simp [h]

/-! ## The bounds and the sign of the weights along a run -/

theorem AdjustWeight_minWeight (ws : WeightSystem T) (item : T) (success : Bool) :
    (AdjustWeight ws item success).minWeight = ws.minWeight := by
  unfold AdjustWeight; simp

theorem AdjustWeight_maxWeight (ws : WeightSystem T) (item : T) (success : Bool) :
    (AdjustWeight ws item success).maxWeight = ws.maxWeight := by
  unfold AdjustWeight; simp

theorem AddItem_minWeight (ws : WeightSystem T) (item : T) (opts : List AddItemOption) :
    (AddItem ws item opts).minWeight = ws.minWeight := by
  unfold AddItem; split <;> simp

theorem AddItem_maxWeight (ws : WeightSystem T) (item : T) (opts : List AddItemOption) :
    (AddItem ws item opts).maxWeight = ws.maxWeight := by
  unfold AddItem; split <;> simp

theorem RemoveItem_minWeight (ws : WeightSystem T) (item : T) :
    (RemoveItem ws item).minWeight = ws.minWeight := by
  unfold RemoveItem; split <;> simp

theorem RemoveItem_maxWeight (ws : WeightSystem T) (item : T) :
    (RemoveItem ws item).maxWeight = ws.maxWeight := by
  unfold RemoveItem; split <;> simp

theorem AddItems_bounds (items : List T) (opts : List AddItemOption) :
    ∀ ws : WeightSystem T, (AddItems ws items opts).minWeight = ws.minWeight
      ∧ (AddItems ws items opts).maxWeight = ws.maxWeight := by
  induction items with
  | nil => intro ws; exact ⟨rfl, rfl⟩
  | cons x xs ih =>
    intro ws
    have h := ih (AddItem ws x opts)
    rw [AddItem_minWeight, AddItem_maxWeight] at h
    exact h

theorem step_bounds (ws : WeightSystem T) (c : Call T) :
    (step ws c).minWeight = ws.minWeight ∧ (step ws c).maxWeight = ws.maxWeight := by
  cases c with
  | addItem item opts => exact ⟨AddItem_minWeight _ _ _, AddItem_maxWeight _ _ _⟩
  | addItems items opts => exact AddItems_bounds items opts ws
  | removeItem item => exact ⟨RemoveItem_minWeight _ _, RemoveItem_maxWeight _ _⟩
  | adjustWeight item success =>
    exact ⟨AdjustWeight_minWeight _ _ _, AdjustWeight_maxWeight _ _ _⟩

theorem run_bounds (calls : List (Call T)) :
    ∀ ws : WeightSystem T, (run ws calls).minWeight = ws.minWeight
      ∧ (run ws calls).maxWeight = ws.maxWeight := by
  induction calls with
  | nil => intro ws; exact ⟨rfl, rfl⟩
  | cons c cs ih =>
    intro ws
    have h := ih (step ws c)
    rw [(step_bounds ws c).1, (step_bounds ws c).2] at h
    exact h

theorem boundsOk_New (opts : List NewOption) : BoundsOk (New opts : WeightSystem T) := by
  unfold BoundsOk New
  simp

theorem boundsOk_reach (opts : List NewOption) (calls : List (Call T)) :
    BoundsOk (reach opts calls : WeightSystem T) := by
  unfold BoundsOk reach
  rw [(run_bounds calls _).1, (run_bounds calls _).2]
  exact boundsOk_New opts

theorem mem_entries_insert (m : AList (fun _ : T => ℚ)) (a : T) (b : ℚ)
    (e : Sigma fun _ : T => ℚ) (h : e ∈ (m.insert a b).entries) :
    e = ⟨a, b⟩ ∨ e ∈ m.entries := by
  rw [AList.insert_entries, List.mem_cons] at h
  rcases h with h | h
  · exact Or.inl h
  · exact Or.inr ((List.kerase_sublist a m.entries).subset h)

theorem mem_entries_erase (m : AList (fun _ : T => ℚ)) (a : T)
    (e : Sigma fun _ : T => ℚ) (h : e ∈ (m.erase a).entries) : e ∈ m.entries :=
  (List.kerase_sublist a m.entries).subset h

theorem weight_nonneg_of_nonnegOk (ws : WeightSystem T) (item : T) (h : NonnegOk ws) :
    0 ≤ (ws.weights.lookup item).getD 0 := by
  cases hl : ws.weights.lookup item with
  | none => simp
  | some w =>
    have hm : (⟨item, w⟩ : Sigma fun _ : T => ℚ) ∈ ws.weights.entries :=
      AList.mem_lookup_iff.mp hl
    simpa using h _ hm

theorem nonnegOk_AdjustWeight (ws : WeightSystem T) (item : T) (success : Bool)
    (hb : BoundsOk ws) (h : NonnegOk ws) : NonnegOk (AdjustWeight ws item success) := by
  intro e he
  rw [AdjustWeight_weights] at he
  rcases mem_entries_insert _ _ _ _ he with rfl | he
  · have h0 := weight_nonneg_of_nonnegOk ws item h
    have h1 : (0 : ℚ) ≤ ws.minWeight := le_trans zero_le_one hb.1
    have h2 : (0 : ℚ) ≤ ws.maxWeight := le_trans h1 hb.2
    cases success
    · simp only [Bool.false_eq_true, if_false]
      exact le_trans h1 (le_max_right _ _)
    · simp only [if_true]
      exact le_min (mul_nonneg h0 (by norm_num)) h2
  · exact h e he

theorem nonnegOk_AddItem (ws : WeightSystem T) (item : T) (opts : List AddItemOption)
    (hb : BoundsOk ws) (h : NonnegOk ws) : NonnegOk (AddItem ws item opts) := by
  cases hl : ws.weights.lookup item with
  | some w => rw [AddItem_of_present ws item opts w hl]; exact h
  | none =>
    intro e he
    rw [AddItem_of_absent ws item opts hl, updateAvgWeight_weights] at he
    rcases mem_entries_insert _ _ _ _ he with rfl | he
    · exact le_trans (le_trans zero_le_one hb.1) (le_max_right _ _)
    · exact h e he

theorem nonnegOk_RemoveItem (ws : WeightSystem T) (item : T)
    (h : NonnegOk ws) : NonnegOk (RemoveItem ws item) := by
  cases hl : ws.weights.lookup item with
  | none => rw [RemoveItem_of_absent ws item hl]; exact h
  | some w =>
    intro e he
    rw [RemoveItem_of_present ws item w hl, updateAvgWeight_weights] at he
    exact h e (mem_entries_erase _ _ _ he)

theorem nonnegOk_AddItems (items : List T) (opts : List AddItemOption) :
    ∀ ws : WeightSystem T, BoundsOk ws → NonnegOk ws → NonnegOk (AddItems ws items opts) := by
  induction items with
  | nil => intro ws _ h; exact h
  | cons x xs ih =>
    intro ws hb h
    refine ih (AddItem ws x opts) ?_ (nonnegOk_AddItem ws x opts hb h)
    unfold BoundsOk
    rw [AddItem_minWeight, AddItem_maxWeight]
    exact hb

theorem nonnegOk_step (ws : WeightSystem T) (c : Call T) (hb : BoundsOk ws)
    (h : NonnegOk ws) : NonnegOk (step ws c) := by
  cases c with
  | addItem item opts => exact nonnegOk_AddItem ws item opts hb h
  | addItems items opts => exact nonnegOk_AddItems items opts ws hb h
  | removeItem item => exact nonnegOk_RemoveItem ws item h
  | adjustWeight item success => exact nonnegOk_AdjustWeight ws item success hb h

theorem nonnegOk_run (calls : List (Call T)) :
    ∀ ws : WeightSystem T, BoundsOk ws → NonnegOk ws → NonnegOk (run ws calls) := by
  induction calls with
  | nil => intro ws _ h; exact h
  | cons c cs ih =>
    intro ws hb h
    refine ih (step ws c) ?_ (nonnegOk_step ws c hb h)
    unfold BoundsOk
    rw [(step_bounds ws c).1, (step_bounds ws c).2]
    exact hb

theorem nonnegOk_reach (opts : List NewOption) (calls : List (Call T)) :
    NonnegOk (reach opts calls : WeightSystem T) := by
  refine nonnegOk_run calls _ (boundsOk_New opts) ?_
  intro e he
  simp [New] at he

theorem totalOk_reach (opts : List NewOption) (calls : List (Call T)) :
    TotalOk (reach opts calls : WeightSystem T) :=
  totalOk_run calls _ (totalOk_New opts)

theorem avgOk_reach (opts : List NewOption) (calls : List (Call T)) :
    AvgOk (reach opts calls : WeightSystem T) :=
  avgOk_run calls _ (avgOk_updateAvgWeight _)

/-! ## The claims -/

/-- C1 (fails on the code): from the default system, `AdjustWeight` with
`success = true` on the absent item `"x"` stores the weight `0` for it, while
the lower bound of that system is `1`; the reachable state holds a weight
below `minWeight`. -/
theorem C1_adjustWeight_absent_success_stores_zero :
    (reach [] [Call.adjustWeight "x" true] : WeightSystem String).weights.lookup "x" = some 0
      ∧ (reach [] [Call.adjustWeight "x" true] : WeightSystem String).minWeight = 1
      ∧ ¬ ∀ (opts : List NewOption) (calls : List (Call String)) (item : String) (w : ℚ),
          (reach opts calls).weights.lookup item = some w →
            (reach opts calls).minWeight ≤ w ∧ w ≤ (reach opts calls).maxWeight := by
  have h1 : (reach [] [Call.adjustWeight "x" true] : WeightSystem String).weights.lookup "x"
      = some 0 := by
    simp [reach, run, step, AdjustWeight, New, -AList.insert_empty]
  have h2 : (reach [] [Call.adjustWeight "x" true] : WeightSystem String).minWeight = 1 := by
    simp [reach, run, step, AdjustWeight, New]
  refine ⟨h1, h2, fun hall => ?_⟩
  have h3 := (hall [] [Call.adjustWeight "x" true] "x" 0 h1).1
  rw [h2] at h3
  norm_num at h3

/-- C2: in every state reachable from `New opts` by a finite sequence of
`AddItem`, `AddItems`, `RemoveItem` and `AdjustWeight` calls, `totalWeight`
is the sum of the values of the weight map; in particular after one more
`AdjustWeight` on any item, absent ones included. -/
theorem C2_totalWeight_eq_sum (opts : List NewOption) (calls : List (Call T)) :
    (reach opts calls : WeightSystem T).totalWeight = sumWeights (reach opts calls).weights
      ∧ ∀ (item : T) (success : Bool),
          (AdjustWeight (reach opts calls) item success).totalWeight
            = sumWeights (AdjustWeight (reach opts calls) item success).weights := by
  have h : TotalOk (reach opts calls : WeightSystem T) := totalOk_run calls _ (totalOk_New opts)
  exact ⟨h, fun item success => totalOk_AdjustWeight _ item success h⟩

/-- C3: in every state reachable from `New opts` by a finite sequence of
calls, `avgWeight` is `totalWeight / count` when the map holds `count > 0`
items and `(minWeight + maxWeight) / 2` when the map is empty; the latter is
the case right after `New`. -/
theorem C3_avgWeight_of_reachable (opts : List NewOption) (calls : List (Call T)) :
    (0 < (reach opts calls : WeightSystem T).count →
        (reach opts calls : WeightSystem T).avgWeight
          = (reach opts calls).totalWeight / ((reach opts calls).count : ℚ))
      ∧ ((reach opts calls : WeightSystem T).count = 0 →
        (reach opts calls : WeightSystem T).avgWeight
          = ((reach opts calls).minWeight + (reach opts calls).maxWeight) / 2)
      ∧ (New opts : WeightSystem T).count = 0
      ∧ (New opts : WeightSystem T).avgWeight
          = ((New opts : WeightSystem T).minWeight + (New opts : WeightSystem T).maxWeight) / 2 := by
  have h : AvgOk (reach opts calls : WeightSystem T) :=
    avgOk_run calls _ (avgOk_updateAvgWeight _)
  have h0 : (New opts : WeightSystem T).count = 0 := by
    simp [New, count]
  have hN : AvgOk (New opts : WeightSystem T) := avgOk_updateAvgWeight _
  refine ⟨fun hpos => ?_, fun hz => ?_, h0, ?_⟩
  · rw [h, if_pos hpos]
  · rw [h, if_neg (by omega)]
  · rw [hN, if_neg (by omega)]

/-- C4: for all requested bounds `lo` and `hi` (negative, zero and inverted
ones included), `New (WithMinWeight lo, WithMaxWeight hi)` has
`MinWeight = max 1 lo` and `MaxWeight = max MinWeight hi`, hence
`1 ≤ MinWeight ≤ MaxWeight`; without options the bounds are 1 and 1000. -/
theorem C4_New_bounds (lo hi : ℚ) :
    (New [WithMinWeight lo, WithMaxWeight hi] : WeightSystem T).MinWeight = max 1 lo
      ∧ (New [WithMinWeight lo, WithMaxWeight hi] : WeightSystem T).MaxWeight
          = max (New [WithMinWeight lo, WithMaxWeight hi] : WeightSystem T).MinWeight hi
      ∧ 1 ≤ (New [WithMinWeight lo, WithMaxWeight hi] : WeightSystem T).MinWeight
      ∧ (New [WithMinWeight lo, WithMaxWeight hi] : WeightSystem T).MinWeight
          ≤ (New [WithMinWeight lo, WithMaxWeight hi] : WeightSystem T).MaxWeight
      ∧ (New [] : WeightSystem T).MinWeight = 1
      ∧ (New [] : WeightSystem T).MaxWeight = 1000 := by
  simp [New, MinWeight, MaxWeight, WithMinWeight, WithMaxWeight]

/-- C5: for an item absent from the map, `AdjustWeight` reads the old weight
as 0 and stores `min (0 * 1.1) maxWeight` on success and
`max (0 * 0.9) minWeight` on failure; afterwards the item is present, the
count has grown by one, `totalWeight` has grown by exactly the stored weight
and every other item reads as before. -/
theorem C5_AdjustWeight_absent (ws : WeightSystem T) (item : T) (success : Bool)
    (h : ws.weights.lookup item = none) :
    (AdjustWeight ws item success).weights.lookup item
        = some (if success then min (0 * (11 / 10)) ws.maxWeight
                else max (0 * (9 / 10)) ws.minWeight)
      ∧ item ∈ (AdjustWeight ws item success).weights
      ∧ (AdjustWeight ws item success).count = ws.count + 1
      ∧ (AdjustWeight ws item success).totalWeight
          = ws.totalWeight + (if success then min (0 * (11 / 10)) ws.maxWeight
                              else max (0 * (9 / 10)) ws.minWeight)
      ∧ ∀ other : T, other ≠ item →
          (AdjustWeight ws item success).weights.lookup other = ws.weights.lookup other := by
  refine ⟨?_, ?_, ?_, ?_, ?_⟩
  · rw [AdjustWeight_weights, AList.lookup_insert, h]
    rfl
  · rw [AdjustWeight_weights]
    exact (AList.mem_insert _).mpr (Or.inl rfl)
  · unfold count
    rw [AdjustWeight_weights]
    exact length_insert_of_not_mem _ _ _ h
  · rw [AdjustWeight_totalWeight, h]
    simp
  · intro other hne
    rw [AdjustWeight_weights]
    exact AList.lookup_insert_ne hne

/-- C5 at a concrete input: the failing adjustment of the absent item `"x"`
in the default system. -/
theorem C5_AdjustWeight_absent_witness :
    (New [] : WeightSystem String).weights.lookup "x" = none
      ∧ (AdjustWeight (New [] : WeightSystem String) "x" false).weights.lookup "x" = some 1
      ∧ (AdjustWeight (New [] : WeightSystem String) "x" false).count = 1
      ∧ (AdjustWeight (New [] : WeightSystem String) "x" false).totalWeight = 1 := by
  have h : (New [] : WeightSystem String).weights.lookup "x" = none := by simp [New]
  have t := C5_AdjustWeight_absent (New [] : WeightSystem String) "x" false h
  refine ⟨h, ?_, ?_, ?_⟩
  · rw [t.1]; simp [New]
  · rw [t.2.2.1]; simp [New, count]
  · rw [t.2.2.2.1]; simp [New]

/-- C6 (fails on the code): in the default system the failing adjustment of
the absent item `"x"` is not a no-op; the map, the total and the average do
not all keep their values (the total goes from 0 to 1). -/
theorem C6_AdjustWeight_absent_not_noop :
    ¬ ((New [] : WeightSystem String).weights.lookup "x" = none →
        (AdjustWeight (New [] : WeightSystem String) "x" false).weights
            = (New [] : WeightSystem String).weights
          ∧ (AdjustWeight (New [] : WeightSystem String) "x" false).totalWeight
            = (New [] : WeightSystem String).totalWeight
          ∧ (AdjustWeight (New [] : WeightSystem String) "x" false).avgWeight
            = (New [] : WeightSystem String).avgWeight) := by
  intro hc
  have h := (hc (by simp [New])).2.1
  rw [AdjustWeight_totalWeight] at h
  simp [New] at h

/-- C6 (amended): for an item absent from the map, `AdjustWeight` is not a
no-op but an insertion: afterwards the item is present, so the map differs
from the one before, the count has grown by one, `totalWeight` has grown by
exactly the weight now stored for the item, `avgWeight` is the new total over
the new count, and on failure the stored weight is `max 0 minWeight`. -/
theorem C6_AdjustWeight_absent_inserts (ws : WeightSystem T) (item : T) (success : Bool)
    (h : ws.weights.lookup item = none) :
    item ∈ (AdjustWeight ws item success).weights
      ∧ (AdjustWeight ws item success).weights ≠ ws.weights
      ∧ (AdjustWeight ws item success).count = ws.count + 1
      ∧ (AdjustWeight ws item success).totalWeight
          = ws.totalWeight + (AdjustWeight ws item success).weightOf item
      ∧ (AdjustWeight ws item success).avgWeight
          = (AdjustWeight ws item success).totalWeight / ((ws.count + 1 : ℕ) : ℚ)
      ∧ (success = false → (AdjustWeight ws item success).weightOf item = max 0 ws.minWeight) := by
  have hmem : item ∈ (AdjustWeight ws item success).weights := by
    rw [AdjustWeight_weights]
    exact (AList.mem_insert _).mpr (Or.inl rfl)
  have hcount : (AdjustWeight ws item success).count = ws.count + 1 := by
    unfold count
    rw [AdjustWeight_weights]
    exact length_insert_of_not_mem _ _ _ h
  refine ⟨hmem, ?_, hcount, ?_, ?_, ?_⟩
  · intro heq
    rw [heq] at hmem
    exact (AList.lookup_eq_none.mp h) hmem
  · unfold weightOf
    rw [AdjustWeight_totalWeight, AdjustWeight_weights, AList.lookup_insert, h]
    simp
  · have hA : AvgOk (AdjustWeight ws item success) := avgOk_AdjustWeight ws item success
    unfold AvgOk at hA
    rw [hA, hcount, if_pos (by omega)]
  · intro hs
    subst hs
    unfold weightOf
    rw [AdjustWeight_weights, AList.lookup_insert, h]
    simp

/-- C6 (amended) at a concrete input: the failing adjustment of the absent
item `"x"` in the default system. -/
theorem C6_AdjustWeight_absent_inserts_witness :
    (New [] : WeightSystem String).weights.lookup "x" = none
      ∧ "x" ∈ (AdjustWeight (New [] : WeightSystem String) "x" false).weights
      ∧ (AdjustWeight (New [] : WeightSystem String) "x" false).count = 1 := by
  have h : (New [] : WeightSystem String).weights.lookup "x" = none := by simp [New]
  have t := C6_AdjustWeight_absent_inserts (New [] : WeightSystem String) "x" false h
  refine ⟨h, t.1, ?_⟩
  rw [t.2.2.1]; simp [New, count]

/-- C7: for an item present with weight `w`, `AdjustWeight item true` sets
its weight to `min (w * 1.1) maxWeight` and `AdjustWeight item false` sets it
to `max (w * 0.9) minWeight`; either way every other item reads as before,
the set of keys and the count are unchanged, and `totalWeight` moves by
exactly the new weight minus `w`. -/
theorem C7_AdjustWeight_present (ws : WeightSystem T) (item : T) (w : ℚ)
    (h : ws.weights.lookup item = some w) :
    (AdjustWeight ws item true).weights.lookup item = some (min (w * (11 / 10)) ws.maxWeight)
      ∧ (AdjustWeight ws item false).weights.lookup item
          = some (max (w * (9 / 10)) ws.minWeight)
      ∧ ∀ success : Bool,
          (∀ other : T, other ≠ item →
              (AdjustWeight ws item success).weights.lookup other = ws.weights.lookup other)
          ∧ (∀ k : T, k ∈ (AdjustWeight ws item success).weights ↔ k ∈ ws.weights)
          ∧ (AdjustWeight ws item success).count = ws.count
          ∧ (AdjustWeight ws item success).totalWeight
              = ws.totalWeight + ((AdjustWeight ws item success).weightOf item - w) := by
  have hmem : item ∈ ws.weights := AList.lookup_isSome.mp (by simp [h])
  refine ⟨?_, ?_, fun success => ⟨?_, ?_, ?_, ?_⟩⟩
  · rw [AdjustWeight_weights, AList.lookup_insert, h]
    rfl
  · rw [AdjustWeight_weights, AList.lookup_insert, h]
    rfl
  · intro other hne
    rw [AdjustWeight_weights]
    exact AList.lookup_insert_ne hne
  · intro k
    rw [AdjustWeight_weights, AList.mem_insert]
    constructor
    · rintro (rfl | hk)
      · exact hmem
      · exact hk
    · exact Or.inr
  · unfold count
    rw [AdjustWeight_weights]
    exact length_insert_of_mem _ _ _ w h
  · unfold weightOf
    rw [AdjustWeight_totalWeight, AdjustWeight_weights, AList.lookup_insert, h]
    rfl

/-- C7 at a concrete input: item `"a"` added to the default system at the
average 500.5, then adjusted once with success: its weight is 550.55. -/
theorem C7_AdjustWeight_present_witness :
    (AddItem (New [] : WeightSystem String) "a" []).weights.lookup "a" = some (1001 / 2)
      ∧ (AdjustWeight (AddItem (New [] : WeightSystem String) "a" []) "a" true).weights.lookup "a"
          = some (11011 / 20) := by
  have h : (AddItem (New [] : WeightSystem String) "a" []).weights.lookup "a"
      = some (1001 / 2) := by
    rw [AddItem_of_absent _ _ _ (by simp [New])]
    simp [New, chosenWeight, updateAvgWeight_avgWeight, count, lookup_singleton]
    norm_num
  have t := C7_AdjustWeight_present (AddItem (New [] : WeightSystem String) "a" []) "a" _ h
  refine ⟨h, ?_⟩
  rw [t.1, AddItem_of_absent _ _ _ (by simp [New])]
  simp [New]
  norm_num

/-- C8: `AddItem` on an item that is already present, with any option list,
returns the state unchanged (map, total and average alike); hence for every
state, adding the same item a second time, with any options, gives the state
reached by adding it once. -/
theorem C8_AddItem_present_noop (ws : WeightSystem T) (item : T)
    (opts opts2 : List AddItemOption) :
    (item ∈ ws.weights → AddItem ws item opts = ws)
      ∧ AddItem (AddItem ws item opts) item opts2 = AddItem ws item opts := by
  have hp : ∀ (s : WeightSystem T) (o : List AddItemOption), item ∈ s.weights →
      AddItem s item o = s := by
    intro s o hm
    have hs : (s.weights.lookup item).isSome := AList.lookup_isSome.mpr hm
    unfold AddItem
    rw [if_pos hs]
  refine ⟨hp ws opts, ?_⟩
  by_cases hm : item ∈ ws.weights
  · rw [hp ws opts hm, hp ws opts2 hm]
  · apply hp
    rw [AddItem_of_absent ws item opts (AList.lookup_eq_none.mpr hm), updateAvgWeight_weights]
    exact (AList.mem_insert _).mpr (Or.inl rfl)

/-- C8 at a concrete input: item `"a"` is present after being added to the
default system; adding it again with the weight option 7 changes nothing. -/
theorem C8_AddItem_present_noop_witness :
    "a" ∈ (AddItem (New [] : WeightSystem String) "a" []).weights
      ∧ AddItem (AddItem (New [] : WeightSystem String) "a" []) "a" [WithWeight 7]
          = AddItem (New [] : WeightSystem String) "a" [] := by
  have hm : "a" ∈ (AddItem (New [] : WeightSystem String) "a" []).weights := by
    rw [AddItem_of_absent _ _ _ (by simp [New]), updateAvgWeight_weights]
    exact (AList.mem_insert _).mpr (Or.inl rfl)
  exact ⟨hm, (C8_AddItem_present_noop (AddItem (New [] : WeightSystem String) "a" []) "a"
    [WithWeight 7] []).1 hm⟩

/-- C9: for an item absent from the map, `AddItem` stores for it the weight
`max (min c maxWeight) minWeight`, where `c` is the weight of the (last)
`WithWeight` option if one is supplied and the average before the call
otherwise; every other item reads as before, the count grows by one,
`totalWeight` grows by exactly the stored weight and `avgWeight` becomes the
new total divided by the new count. -/
theorem C9_AddItem_absent (ws : WeightSystem T) (item : T) (opts : List AddItemOption)
    (h : ws.weights.lookup item = none) :
    (AddItem ws item opts).weights.lookup item
        = some (max (min (chosenWeight ws opts) ws.maxWeight) ws.minWeight)
      ∧ chosenWeight ws [] = ws.avgWeight
      ∧ (∀ (c : ℚ) (pre : List AddItemOption), chosenWeight ws (pre ++ [WithWeight c]) = c)
      ∧ (∀ other : T, other ≠ item →
          (AddItem ws item opts).weights.lookup other = ws.weights.lookup other)
      ∧ (AddItem ws item opts).count = ws.count + 1
      ∧ (AddItem ws item opts).totalWeight
          = ws.totalWeight + max (min (chosenWeight ws opts) ws.maxWeight) ws.minWeight
      ∧ (AddItem ws item opts).avgWeight
          = (AddItem ws item opts).totalWeight / ((AddItem ws item opts).count : ℚ) := by
  have hcount : (AddItem ws item opts).count = ws.count + 1 := by
    unfold count
    rw [AddItem_of_absent ws item opts h, updateAvgWeight_weights]
    exact length_insert_of_not_mem _ _ _ h
  refine ⟨?_, rfl, ?_, ?_, hcount, ?_, ?_⟩
  · rw [AddItem_of_absent ws item opts h, updateAvgWeight_weights]
    exact AList.lookup_insert _
  · intro c pre
    simp [chosenWeight, WithWeight]
  · intro other hne
    rw [AddItem_of_absent ws item opts h, updateAvgWeight_weights]
    exact AList.lookup_insert_ne hne
  · rw [AddItem_of_absent ws item opts h, updateAvgWeight_totalWeight]
  · have hA : (AddItem ws item opts).avgWeight
        = if 0 < (AddItem ws item opts).count
            then (AddItem ws item opts).totalWeight / ((AddItem ws item opts).count : ℚ)
            else ((AddItem ws item opts).minWeight + (AddItem ws item opts).maxWeight) / 2 := by
      rw [AddItem_of_absent ws item opts h]
      exact avgOk_updateAvgWeight _
    rw [hA, if_pos (by omega)]

/-- C9 at a concrete input: item `"d"` added with the weight option 2000 to
the default system, where it is absent, is stored at the upper bound 1000;
the total is then 1000 and the average 1000. -/
theorem C9_AddItem_absent_witness :
    (New [] : WeightSystem String).weights.lookup "d" = none
      ∧ (AddItem (New [] : WeightSystem String) "d" [WithWeight 2000]).weights.lookup "d"
          = some 1000
      ∧ (AddItem (New [] : WeightSystem String) "d" [WithWeight 2000]).totalWeight = 1000
      ∧ (AddItem (New [] : WeightSystem String) "d" [WithWeight 2000]).avgWeight = 1000 := by
  have h : (New [] : WeightSystem String).weights.lookup "d" = none := by simp [New]
  have t := C9_AddItem_absent (New [] : WeightSystem String) "d" [WithWeight 2000] h
  have hc : chosenWeight (New [] : WeightSystem String) [WithWeight 2000] = 2000 :=
    t.2.2.1 2000 []
  have ht : (AddItem (New [] : WeightSystem String) "d" [WithWeight 2000]).totalWeight
      = 1000 := by
    rw [t.2.2.2.2.2.1, hc]
    simp [New]
    norm_num
  refine ⟨h, ?_, ht, ?_⟩
  · rw [t.1, hc]
    simp [New]
    norm_num
  · rw [t.2.2.2.2.2.2, ht, t.2.2.2.2.1]
    simp [New, count]

/-- C10: `RemoveItem` on an absent item returns the state unchanged; on an
item present with weight `w` it removes exactly that key (every other item
reads as before, the count drops by one), sets `totalWeight` to the old total
minus `w`, and sets `avgWeight` to the new total over the new count, or to
`(minWeight + maxWeight) / 2` when the map has become empty. -/
theorem C10_RemoveItem (ws : WeightSystem T) (item : T) :
    (ws.weights.lookup item = none → RemoveItem ws item = ws)
      ∧ ∀ w : ℚ, ws.weights.lookup item = some w →
          (RemoveItem ws item).weights.lookup item = none
          ∧ (∀ other : T, other ≠ item →
              (RemoveItem ws item).weights.lookup other = ws.weights.lookup other)
          ∧ (RemoveItem ws item).count + 1 = ws.count
          ∧ (RemoveItem ws item).totalWeight = ws.totalWeight - w
          ∧ (RemoveItem ws item).minWeight = ws.minWeight
          ∧ (RemoveItem ws item).maxWeight = ws.maxWeight
          ∧ (0 < (RemoveItem ws item).count →
              (RemoveItem ws item).avgWeight
                = (RemoveItem ws item).totalWeight / ((RemoveItem ws item).count : ℚ))
          ∧ ((RemoveItem ws item).count = 0 →
              (RemoveItem ws item).avgWeight = (ws.minWeight + ws.maxWeight) / 2) := by
  refine ⟨RemoveItem_of_absent ws item, fun w h => ?_⟩
  have hA : AvgOk (RemoveItem ws item) := by
    rw [RemoveItem_of_present ws item w h]
    exact avgOk_updateAvgWeight _
  unfold AvgOk at hA
  have hmin : (RemoveItem ws item).minWeight = ws.minWeight := by
    rw [RemoveItem_of_present ws item w h, updateAvgWeight_minWeight]
  have hmax : (RemoveItem ws item).maxWeight = ws.maxWeight := by
    rw [RemoveItem_of_present ws item w h, updateAvgWeight_maxWeight]
  refine ⟨?_, ?_, ?_, ?_, hmin, hmax, fun hpos => ?_, fun hz => ?_⟩
  · rw [RemoveItem_of_present ws item w h, updateAvgWeight_weights]
    exact AList.lookup_erase _ _
  · intro other hne
    rw [RemoveItem_of_present ws item w h, updateAvgWeight_weights]
    exact AList.lookup_erase_ne hne
  · unfold count
    rw [RemoveItem_of_present ws item w h, updateAvgWeight_weights]
    exact length_erase_of_mem _ _ w h
  · rw [RemoveItem_of_present ws item w h, updateAvgWeight_totalWeight]
  · rw [hA, if_pos hpos]
  · rw [hA, if_neg (by omega), hmin, hmax]

/-- C10 at concrete inputs: removing the absent item `"x"` from the default
system changes nothing; removing the only item `"a"`, present at 500.5,
empties the map, brings the total to 0 and the average to 500.5. -/
theorem C10_RemoveItem_witness :
    RemoveItem (New [] : WeightSystem String) "x" = New []
      ∧ (AddItem (New [] : WeightSystem String) "a" []).weights.lookup "a" = some (1001 / 2)
      ∧ (RemoveItem (AddItem (New [] : WeightSystem String) "a" []) "a").count = 0
      ∧ (RemoveItem (AddItem (New [] : WeightSystem String) "a" []) "a").totalWeight = 0
      ∧ (RemoveItem (AddItem (New [] : WeightSystem String) "a" []) "a").avgWeight
          = 1001 / 2 := by
  have h : (AddItem (New [] : WeightSystem String) "a" []).weights.lookup "a"
      = some (1001 / 2) := by
    rw [AddItem_of_absent _ _ _ (by simp [New])]
    simp [New, chosenWeight, updateAvgWeight_avgWeight, count, lookup_singleton]
    norm_num
  have t := (C10_RemoveItem (AddItem (New [] : WeightSystem String) "a" []) "a").2 _ h
  have hcnt : (AddItem (New [] : WeightSystem String) "a" []).count = 1 := by
    unfold count
    rw [AddItem_of_absent _ _ _ (by simp [New]), updateAvgWeight_weights]
    simp [New]
  have hz : (RemoveItem (AddItem (New [] : WeightSystem String) "a" []) "a").count = 0 := by
    have := t.2.2.1
    omega
  refine ⟨(C10_RemoveItem (New [] : WeightSystem String) "x").1 (by simp [New]), h, hz, ?_, ?_⟩
  · rw [t.2.2.2.1, AddItem_of_absent _ _ _ (by simp [New]), updateAvgWeight_totalWeight]
    simp [New, chosenWeight, updateAvgWeight_avgWeight, count]
    norm_num
  · rw [t.2.2.2.2.2.2.2 hz, AddItem_of_absent _ _ _ (by simp [New])]
    simp [New]
    norm_num

/-! ## Adding and removing again -/

/-- Deleting a key right after storing it under a map that did not have it
gives the map back. -/
theorem erase_insert_of_not_mem (m : AList (fun _ : T => ℚ)) (a : T) (b : ℚ)
    (h : a ∉ m) : (m.insert a b).erase a = m := by
  apply AList.ext
  show List.kerase a (m.insert a b).entries = m.entries
  rw [AList.insert_entries_of_neg h]
  exact List.kerase_cons_eq rfl

/-- Recomputing the average of a state that agrees with `ws` on the other
four fields gives `ws`, when the average of `ws` is the recomputed one. -/
theorem updateAvgWeight_eq_of_fields (y ws : WeightSystem T)
    (hw : y.weights = ws.weights) (hmin : y.minWeight = ws.minWeight)
    (hmax : y.maxWeight = ws.maxWeight) (ht : y.totalWeight = ws.totalWeight)
    (hA : AvgOk ws) : updateAvgWeight y = ws := by
  obtain ⟨yw, ymin, ymax, yt, ya⟩ := y
  obtain ⟨w, mn, mx, t, a⟩ := ws
  simp only at hw hmin hmax ht
  subst hw hmin hmax ht
  unfold AvgOk count at hA
  simp only at hA
  unfold updateAvgWeight
  simp only [gt_iff_lt]
  split <;> rename_i hc
  · rw [if_pos hc] at hA
    rw [hA]
  · rw [if_neg hc] at hA
    rw [hA]

/-- C11: in a state whose cached average is the recomputed one (as in every
reachable state), for an item absent from the map and any option list,
`AddItem` followed by `RemoveItem` of the same item gives back the state
exactly: map, total weight, average and bounds. -/
theorem C11_AddItem_then_RemoveItem (ws : WeightSystem T) (item : T)
    (opts : List AddItemOption) (hA : AvgOk ws) (h : ws.weights.lookup item = none) :
    RemoveItem (AddItem ws item opts) item = ws := by
  have hmem : item ∉ ws.weights := AList.lookup_eq_none.mp h
  rw [AddItem_of_absent ws item opts h]
  rw [RemoveItem_of_present _ item (max (min (chosenWeight ws opts) ws.maxWeight) ws.minWeight)
    (by rw [updateAvgWeight_weights]; exact AList.lookup_insert _)]
  apply updateAvgWeight_eq_of_fields _ ws _ _ _ _ hA
  · simp only [updateAvgWeight_weights]
    exact erase_insert_of_not_mem _ _ _ hmem
  · simp
  · simp
  · simp

/-- C11 at a concrete input: item `"d"` added with the weight option 1000
to the default system and removed again. -/
theorem C11_AddItem_then_RemoveItem_witness :
    AvgOk (New [] : WeightSystem String)
      ∧ (New [] : WeightSystem String).weights.lookup "d" = none
      ∧ RemoveItem (AddItem (New [] : WeightSystem String) "d" [WithWeight 1000]) "d"
          = New [] :=
  ⟨avgOk_updateAvgWeight _, by simp [New],
    C11_AddItem_then_RemoveItem (New [] : WeightSystem String) "d" [WithWeight 1000]
      (avgOk_updateAvgWeight _) (by simp [New])⟩

/-! ## The weighted scan -/

/-- An item returned by the scan is a key of the iteration. -/
theorem scan_mem_keys (l : List (Sigma fun _ : T => ℚ)) :
    ∀ (r : ℚ) (x : T), scan r l = some x → x ∈ l.keys := by
  induction l with
  | nil => intro r x h; simp [scan] at h
  | cons e rest ih =>
    intro r x h
    unfold scan at h
    by_cases hr : r - e.2 ≤ 0
    · rw [if_pos hr] at h
      have hx : e.1 = x := Option.some.inj h
      simp [List.keys, hx]
    · rw [if_neg hr] at h
      have := ih _ _ h
      simp only [List.keys, List.map_cons, List.mem_cons]
      exact Or.inr this

/-- The scan returns when `r` does not exceed the sum of the weights of a
non-empty iteration. -/
theorem scan_isSome_of_le (l : List (Sigma fun _ : T => ℚ)) :
    ∀ r : ℚ, l ≠ [] → r ≤ (l.map (fun e => e.2)).sum → ∃ x, scan r l = some x := by
  induction l with
  | nil => intro r hne; exact absurd rfl hne
  | cons e rest ih =>
    intro r _ hle
    unfold scan
    by_cases hr : r - e.2 ≤ 0
    · exact ⟨e.1, by rw [if_pos hr]⟩
    · rw [if_neg hr]
      have hrest : rest ≠ [] := by
        rintro rfl
        simp only [List.map_cons, List.map_nil, List.sum_cons, List.sum_nil, add_zero] at hle
        exact hr (by linarith)
      refine ih (r - e.2) hrest ?_
      simp only [List.map_cons, List.sum_cons] at hle
      linarith

/-- Prefix sums of non-negative weights are non-negative. -/
theorem prefixSum_nonneg (l : List (Sigma fun _ : T => ℚ)) (hnn : ∀ e ∈ l, 0 ≤ e.2)
    (i : ℕ) : 0 ≤ prefixSum l i := by
  unfold prefixSum
  apply List.sum_nonneg
  intro x hx
  obtain ⟨e, he, rfl⟩ := List.mem_map.mp hx
  exact hnn e (List.mem_of_mem_take he)

theorem prefixSum_zero (l : List (Sigma fun _ : T => ℚ)) : prefixSum l 0 = 0 := by
  simp [prefixSum]

theorem prefixSum_cons_succ (e : Sigma fun _ : T => ℚ) (l : List (Sigma fun _ : T => ℚ))
    (i : ℕ) : prefixSum (e :: l) (i + 1) = e.2 + prefixSum l i := by
  simp [prefixSum]

/-- Consecutive prefix sums differ by the weight in between. -/
theorem prefixSum_succ (l : List (Sigma fun _ : T => ℚ)) :
    ∀ (i : ℕ) (hi : i < l.length), prefixSum l (i + 1) = prefixSum l i + (l.get ⟨i, hi⟩).2 := by
  induction l with
  | nil => intro i hi; simp at hi
  | cons e rest ih =>
    intro i hi
    cases i with
    | zero => simp [prefixSum]
    | succ j =>
      have hj : j < rest.length := by simpa using hi
      rw [prefixSum_cons_succ, prefixSum_cons_succ, ih j hj]
      simp only [List.get_cons_succ]
      ring

/-- The prefix sum over the whole iteration is the sum of its weights. -/
theorem prefixSum_length (l : List (Sigma fun _ : T => ℚ)) :
    prefixSum l l.length = (l.map (fun e => e.2)).sum := by
  simp [prefixSum]

/-- The scan over distinct keys with non-negative weights returns the item
at position `i` exactly when `r` lies above the prefix sum before it (no
condition for the first item) and not above the prefix sum including it. -/
theorem scan_eq_get_iff (l : List (Sigma fun _ : T => ℚ)) :
    l.NodupKeys → (∀ e ∈ l, 0 ≤ e.2) →
    ∀ (r : ℚ) (i : ℕ) (hi : i < l.length),
      scan r l = some (l.get ⟨i, hi⟩).1
        ↔ (i = 0 ∨ prefixSum l i < r) ∧ r ≤ prefixSum l (i + 1) := by
  induction l with
  | nil => intro _ _ r i hi; simp at hi
  | cons e rest ih =>
    intro hnd hnn r i hi
    have hnd2 := List.nodupKeys_cons.mp hnd
    have hnnr : ∀ x ∈ rest, 0 ≤ x.2 := fun x hx => hnn x (List.mem_cons_of_mem _ hx)
    have hkey : ∀ (j : ℕ) (hj : j < rest.length), e.1 ≠ (rest.get ⟨j, hj⟩).1 := by
      intro j hj heq
      apply hnd2.1
      rw [heq]
      exact List.mem_keys_of_mem (List.get_mem rest j hj)
    unfold scan
    cases i with
    | zero =>
      simp only [List.get_cons_zero, true_or, true_and, prefixSum_cons_succ, prefixSum_zero,
        add_zero, List.length_cons, Fin.zero_eta]
      by_cases hr : r - e.2 ≤ 0
      · rw [if_pos hr]
        constructor
        · intro _; linarith
        · intro _; rfl
      · rw [if_neg hr]
        constructor
        · intro h
          exact absurd (scan_mem_keys rest _ _ h) hnd2.1
        · intro h
          exact absurd (by linarith) hr
    | succ j =>
      have hj : j < rest.length := by simpa using hi
      have hP := prefixSum_nonneg rest hnnr j
      simp only [List.get_cons_succ, prefixSum_cons_succ, Nat.succ_ne_zero, false_or,
        Nat.add_eq_zero, one_ne_zero, and_false]
      by_cases hr : r - e.2 ≤ 0
      · rw [if_pos hr]
        constructor
        · intro h
          exact absurd (Option.some.inj h) (hkey j hj)
        · intro h
          exact absurd hr (by linarith [h.1])
      · rw [if_neg hr, ih hnd2.2 hnnr (r - e.2) j hj]
        constructor
        · rintro ⟨h1, h2⟩
          refine ⟨?_, by linarith⟩
          rcases h1 with rfl | h1
          · rw [prefixSum_zero]; linarith [not_le.mp hr]
          · linarith
        · rintro ⟨h1, h2⟩
          exact ⟨Or.inr (by linarith), by linarith⟩

/-- What an iteration order shares with the map it ranges over: distinct
keys, the sum of the weights, the keys and the length. -/
theorem order_facts (ws : WeightSystem T) (order : List (Sigma fun _ : T => ℚ))
    (hperm : order.Perm ws.weights.entries) :
    order.NodupKeys
      ∧ (order.map (fun e => e.2)).sum = sumWeights ws.weights
      ∧ (∀ x : T, x ∈ order.keys → x ∈ ws.weights)
      ∧ order.length = ws.count := by
  refine ⟨(List.perm_nodupKeys hperm).mpr ws.weights.nodupKeys, ?_, ?_, hperm.length_eq⟩
  · unfold sumWeights
    exact (hperm.map _).sum_eq
  · intro x hx
    have : x ∈ ws.weights.entries.keys := (hperm.map Sigma.fst).subset hx
    exact this

/-- The value `GetItem` returns when its first loop returns. -/
theorem GetItem_of_scan [Inhabited T] (ws : WeightSystem T)
    (order order2 : List (Sigma fun _ : T => ℚ)) (u : ℚ) (x : T)
    (h : scan (u * ws.totalWeight) order = some x) : GetItem ws order order2 u = x := by
  unfold GetItem
  rw [h]

/-- With a non-negative total that is the sum of a non-empty iteration, and
a draw in `[0, 1)`, the first loop of `GetItem` returns. -/
theorem scan_returns (ws : WeightSystem T) (order : List (Sigma fun _ : T => ℚ)) (u : ℚ)
    (hsum : (order.map (fun e => e.2)).sum = ws.totalWeight) (h0 : 0 ≤ ws.totalWeight)
    (hne : order ≠ []) (hu1 : u < 1) :
    ∃ x, scan (u * ws.totalWeight) order = some x := by
  apply scan_isSome_of_le order _ hne
  rw [hsum]
  exact mul_le_of_le_one_left h0 (le_of_lt hu1)

/-- C12 (amended): over exact arithmetic (the product `u * totalWeight` and
every subtraction `r -= weight` without rounding), for a system with positive
weights whose total is their sum, an iteration order of its map and a draw
`u` in `[0, 1)`, `GetItem` returns the
item at position `i` of the order exactly when `r = u * totalWeight` lies
above the sum of the weights before it (for the first item: `0 ≤ r`) and not
above the sum including it.  The two ends of this range differ by the weight
of the item, the last end is `totalWeight`, so in terms of `u` the range has
length `weight / totalWeight`, whatever the order; with two items of equal
weight the first is returned exactly for `u ≤ 1/2` and the second exactly for
`1/2 < u`. -/
theorem C12_GetItem_selects_by_interval [Inhabited T] (ws : WeightSystem T)
    (order order2 : List (Sigma fun _ : T => ℚ)) (u : ℚ) (i : ℕ) (hi : i < order.length)
    (hperm : order.Perm ws.weights.entries) (hpos : ∀ e ∈ ws.weights.entries, 0 < e.2)
    (htot : TotalOk ws) (hu0 : 0 ≤ u) (hu1 : u < 1) :
    (GetItem ws order order2 u = (order.get ⟨i, hi⟩).1
        ↔ (if i = 0 then 0 ≤ u * ws.totalWeight else prefixSum order i < u * ws.totalWeight)
          ∧ u * ws.totalWeight ≤ prefixSum order (i + 1))
      ∧ prefixSum order (i + 1) - prefixSum order i = (order.get ⟨i, hi⟩).2
      ∧ prefixSum order order.length = ws.totalWeight
      ∧ prefixSum order (i + 1) / ws.totalWeight - prefixSum order i / ws.totalWeight
          = (order.get ⟨i, hi⟩).2 / ws.totalWeight
      ∧ ∀ h2 : order.length = 2,
          (order.get ⟨0, by omega⟩).2 = (order.get ⟨1, by omega⟩).2 →
            (GetItem ws order order2 u = (order.get ⟨0, by omega⟩).1 ↔ u ≤ 1 / 2)
            ∧ (GetItem ws order order2 u = (order.get ⟨1, by omega⟩).1 ↔ 1 / 2 < u) := by
  obtain ⟨hnd, hsum0, _, _⟩ := order_facts ws order hperm
  have hsum : (order.map (fun e => e.2)).sum = ws.totalWeight := by rw [hsum0]; exact htot.symm
  have hposo : ∀ e ∈ order, 0 < e.2 := fun e he => hpos e (hperm.subset he)
  have hnn : ∀ e ∈ order, 0 ≤ e.2 := fun e he => le_of_lt (hposo e he)
  have ht0 : 0 ≤ ws.totalWeight := by
    rw [← hsum]
    apply List.sum_nonneg
    intro x hx
    obtain ⟨e, he, rfl⟩ := List.mem_map.mp hx
    exact hnn e he
  have hr0 : 0 ≤ u * ws.totalWeight := mul_nonneg hu0 ht0
  have hne : order ≠ [] := by
    rintro rfl
    simp at hi
  obtain ⟨x, hx⟩ := scan_returns ws order u hsum ht0 hne hu1
  have hG : GetItem ws order order2 u = x := GetItem_of_scan ws order order2 u x hx
  have key : ∀ (j : ℕ) (hj : j < order.length),
      GetItem ws order order2 u = (order.get ⟨j, hj⟩).1
        ↔ (if j = 0 then 0 ≤ u * ws.totalWeight else prefixSum order j < u * ws.totalWeight)
          ∧ u * ws.totalWeight ≤ prefixSum order (j + 1) := by
    intro j hj
    have h1 := scan_eq_get_iff order hnd hnn (u * ws.totalWeight) j hj
    rw [hx] at h1
    rw [hG]
    constructor
    · intro h
      have h2 := h1.mp (by rw [h])
      refine ⟨?_, h2.2⟩
      by_cases hj0 : j = 0
      · rw [if_pos hj0]; exact hr0
      · rw [if_neg hj0]
        rcases h2.1 with h3 | h3
        · exact absurd h3 hj0
        · exact h3
    · rintro ⟨h2, h3⟩
      have h4 : (j = 0 ∨ prefixSum order j < u * ws.totalWeight) := by
        by_cases hj0 : j = 0
        · exact Or.inl hj0
        · rw [if_neg hj0] at h2
          exact Or.inr h2
      exact Option.some.inj (h1.mpr ⟨h4, h3⟩)
  have hlen : prefixSum order order.length = ws.totalWeight := by
    rw [prefixSum_length, hsum]
  refine ⟨key i hi, ?_, hlen, ?_, ?_⟩
  · rw [prefixSum_succ order i hi]; ring
  · rw [prefixSum_succ order i hi]; ring
  · intro h2 heq
    have hw0 : 0 < (order.get ⟨0, by omega⟩).2 := hposo _ (List.get_mem order 0 (by omega))
    have hp1 : prefixSum order 1 = (order.get ⟨0, by omega⟩).2 := by
      rw [prefixSum_succ order 0 (by omega), prefixSum_zero]; ring
    have hp2 : prefixSum order 2 = 2 * (order.get ⟨0, by omega⟩).2 := by
      rw [prefixSum_succ order 1 (by omega), hp1, ← heq]; ring
    have htw : ws.totalWeight = 2 * (order.get ⟨0, by omega⟩).2 := by
      rw [← hlen, congrArg (prefixSum order) h2, hp2]
    constructor
    · rw [key 0 (by omega), if_pos rfl, hp1, htw]
      constructor
      · rintro ⟨_, h⟩
        nlinarith
      · intro h
        exact ⟨by nlinarith, by nlinarith⟩
    · rw [key 1 (by omega), if_neg (by norm_num), hp1, hp2, htw]
      constructor
      · rintro ⟨h, _⟩
        nlinarith
      · intro h
        exact ⟨by nlinarith, by nlinarith⟩

/-! ## The example systems, evaluated -/

theorem twoItems_entries :
    twoItems.weights.entries = [⟨"b", 1001 / 2⟩, ⟨"a", 1001 / 2⟩] := by
  simp [twoItems, AddItems, AddItem, New, updateAvgWeight, AList.insert_entries,
    AList.singleton, AList.lookup]
  norm_num

theorem twoItems_totalWeight : twoItems.totalWeight = 1001 := by
  simp [twoItems, AddItems, AddItem, New, updateAvgWeight, AList.insert_entries,
    AList.singleton, AList.lookup]
  norm_num

theorem twoItems_eq_reach : twoItems = reach [] [Call.addItems ["a", "b"] []] := rfl

theorem zeroItem_entries : zeroItem.weights.entries = [⟨"x", 0⟩] := by
  simp [zeroItem, AdjustWeight, New, AList.insert_entries, AList.singleton, AList.lookup]

theorem zeroItem_totalWeight : zeroItem.totalWeight = 0 := by
  simp [zeroItem, AdjustWeight, New, AList.insert_entries, AList.singleton, AList.lookup]

theorem zeroItem_eq_reach : zeroItem = reach [] [Call.adjustWeight "x" true] := rfl

/-- C12 (amended) at a concrete input: the system with `"a"` and `"b"` at 500.5 each,
iterated as `"b"`, `"a"`; the draw 1/4 returns `"b"` and the draw 3/4
returns `"a"`. -/
theorem C12_GetItem_selects_by_interval_witness :
    TotalOk twoItems
      ∧ List.Perm [⟨"b", 1001 / 2⟩, ⟨"a", 1001 / 2⟩] twoItems.weights.entries
      ∧ GetItem twoItems [⟨"b", 1001 / 2⟩, ⟨"a", 1001 / 2⟩] [] (1 / 4) = "b"
      ∧ GetItem twoItems [⟨"b", 1001 / 2⟩, ⟨"a", 1001 / 2⟩] [] (3 / 4) = "a" := by
  have htot : TotalOk twoItems := by
    rw [twoItems_eq_reach]; exact totalOk_reach _ _
  have hperm : List.Perm [⟨"b", 1001 / 2⟩, ⟨"a", 1001 / 2⟩] twoItems.weights.entries := by
    rw [twoItems_entries]
  have hpos : ∀ e ∈ twoItems.weights.entries, 0 < e.2 := by
    rw [twoItems_entries]
    intro e he
    simp only [List.mem_cons, List.mem_singleton, List.not_mem_nil, or_false] at he
    rcases he with rfl | rfl <;> norm_num
  have t1 := (C12_GetItem_selects_by_interval twoItems [⟨"b", 1001 / 2⟩, ⟨"a", 1001 / 2⟩] []
    (1 / 4) 0 (by simp) hperm hpos htot (by norm_num) (by norm_num)).2.2.2.2 rfl rfl
  have t2 := (C12_GetItem_selects_by_interval twoItems [⟨"b", 1001 / 2⟩, ⟨"a", 1001 / 2⟩] []
    (3 / 4) 0 (by simp) hperm hpos htot (by norm_num) (by norm_num)).2.2.2.2 rfl rfl
  exact ⟨htot, hperm, t1.1.mpr (by norm_num), t2.2.mpr (by norm_num)⟩

/-! ## Sorting -/

/-- An insertion step rearranges `x :: l`. -/
theorem insertLess_perm {α : Type} (less : α → α → Bool) (x : α) (l : List α) :
    (insertLess less x l).Perm (x :: l) := by
  induction l with
  | nil => exact List.Perm.refl _
  | cons y ys ih =>
    unfold insertLess
    split
    · exact List.Perm.refl _
    · exact ((List.Perm.cons y ih).trans (List.Perm.swap x y ys))

/-- The fold of insertion steps rearranges the accumulator and the input. -/
theorem foldl_insertLess_perm {α : Type} (less : α → α → Bool) (l : List α) :
    ∀ acc : List α, (l.foldl (fun sorted x => insertLess less x sorted) acc).Perm (acc ++ l) := by
  induction l with
  | nil => intro acc; simp
  | cons x xs ih =>
    intro acc
    simp only [List.foldl_cons]
    refine (ih _).trans ?_
    refine ((insertLess_perm less x acc).append_right xs).trans ?_
    have hmid : (acc ++ x :: xs).Perm (x :: (acc ++ xs)) := List.perm_middle
    simpa using hmid.symm

/-- The sort rearranges its input. -/
theorem sortSlice_perm {α : Type} (less : α → α → Bool) (l : List α) :
    (sortSlice less l).Perm l := by
  simpa [sortSlice] using foldl_insertLess_perm less l []

/-- An insertion step by `Weight >` keeps a list in non-increasing order of
weight. -/
theorem insertLess_sorted (x : WeightedItem T) (l : List (WeightedItem T))
    (h : l.Pairwise (fun a b => a.Weight ≥ b.Weight)) :
    (insertLess (fun a b => decide (a.Weight > b.Weight)) x l).Pairwise
      (fun a b => a.Weight ≥ b.Weight) := by
  induction l with
  | nil => simp [insertLess]
  | cons y ys ih =>
    have hy := List.pairwise_cons.mp h
    unfold insertLess
    by_cases hxy : x.Weight > y.Weight
    · rw [if_pos (by simpa using hxy)]
      refine List.pairwise_cons.mpr ⟨?_, h⟩
      intro z hz
      rcases List.mem_cons.mp hz with rfl | hz
      · exact le_of_lt hxy
      · exact le_trans (hy.1 z hz) (le_of_lt hxy)
    · rw [if_neg (by simpa using hxy)]
      refine List.pairwise_cons.mpr ⟨?_, ih hy.2⟩
      intro z hz
      rcases List.mem_cons.mp ((insertLess_perm _ x ys).subset hz) with rfl | hz
      · exact not_lt.mp hxy
      · exact hy.1 z hz

/-- The fold of insertion steps by `Weight >` keeps the accumulator in
non-increasing order of weight. -/
theorem foldl_insertLess_sorted (l : List (WeightedItem T)) :
    ∀ acc : List (WeightedItem T), acc.Pairwise (fun a b => a.Weight ≥ b.Weight) →
      (l.foldl (fun sorted x => insertLess (fun a b => decide (a.Weight > b.Weight)) x sorted)
        acc).Pairwise (fun a b => a.Weight ≥ b.Weight) := by
  induction l with
  | nil => intro acc h; exact h
  | cons x xs ih =>
    intro acc h
    exact ih _ (insertLess_sorted x acc h)

/-- C14: for an iteration order of the map, `SortedWeights` returns a list
that is in non-increasing order of `Weight` (every element weighs at least as
much as every later one, the next one in particular) and is a rearrangement
of the entries of the map: its length is the item count, it has no
repetition, each entry of the map occurs in it exactly once and nothing else
occurs; equal weights are allowed. -/
theorem C14_SortedWeights_sorted_perm (ws : WeightSystem T)
    (order : List (Sigma fun _ : T => ℚ)) (hperm : order.Perm ws.weights.entries) :
    (SortedWeights order).Pairwise (fun a b => a.Weight ≥ b.Weight)
      ∧ (SortedWeights order).Perm
          (ws.weights.entries.map (fun e => (⟨e.1, e.2⟩ : WeightedItem T)))
      ∧ (SortedWeights order).length = ws.count
      ∧ (SortedWeights order).Nodup
      ∧ (∀ wi : WeightedItem T,
          wi ∈ SortedWeights order ↔ ws.weights.lookup wi.Item = some wi.Weight)
      ∧ (∀ wi : WeightedItem T, ws.weights.lookup wi.Item = some wi.Weight →
          (SortedWeights order).count wi = 1) := by
  have hP : (SortedWeights order).Perm
      (ws.weights.entries.map (fun e => (⟨e.1, e.2⟩ : WeightedItem T))) :=
    (sortSlice_perm _ _).trans (hperm.map _)
  have hinj : Function.Injective
      (fun e : (Sigma fun _ : T => ℚ) => (⟨e.1, e.2⟩ : WeightedItem T)) := by
    rintro ⟨a, b⟩ ⟨c, d⟩ h
    simp only [WeightedItem.mk.injEq] at h
    obtain ⟨rfl, rfl⟩ := h
    rfl
  have hnd : (SortedWeights order).Nodup :=
    hP.nodup_iff.mpr (ws.weights.nodupKeys.nodup.map hinj)
  have hmem : ∀ wi : WeightedItem T,
      wi ∈ SortedWeights order ↔ ws.weights.lookup wi.Item = some wi.Weight := by
    intro wi
    rw [hP.mem_iff, List.mem_map]
    constructor
    · rintro ⟨⟨a, b⟩, he, rfl⟩
      exact AList.mem_lookup_iff.mpr he
    · intro h
      exact ⟨⟨wi.Item, wi.Weight⟩, AList.mem_lookup_iff.mp h, rfl⟩
  refine ⟨?_, hP, ?_, hnd, hmem, ?_⟩
  · exact foldl_insertLess_sorted _ [] List.Pairwise.nil
  · rw [hP.length_eq, List.length_map]
    rfl
  · intro wi h
    exact List.count_eq_one_of_mem hnd ((hmem wi).mpr h)

/-- C14 at a concrete input: the system with `"a"` and `"b"` at the same
weight 500.5, iterated as `"b"`, `"a"`. -/
theorem C14_SortedWeights_sorted_perm_witness :
    List.Perm [⟨"b", 1001 / 2⟩, ⟨"a", 1001 / 2⟩] twoItems.weights.entries
      ∧ (SortedWeights ([⟨"b", 1001 / 2⟩, ⟨"a", 1001 / 2⟩] :
          List (Sigma fun _ : String => ℚ))).length = twoItems.count
      ∧ (SortedWeights ([⟨"b", 1001 / 2⟩, ⟨"a", 1001 / 2⟩] :
          List (Sigma fun _ : String => ℚ))).Pairwise (fun a b => a.Weight ≥ b.Weight) := by
  have hperm : List.Perm [⟨"b", 1001 / 2⟩, ⟨"a", 1001 / 2⟩] twoItems.weights.entries := by
    rw [twoItems_entries]
  have t := C14_SortedWeights_sorted_perm twoItems [⟨"b", 1001 / 2⟩, ⟨"a", 1001 / 2⟩] hperm
  exact ⟨hperm, t.2.2.1, t.1⟩

/-! ## Adding to a system in which every weight is the average -/

/-- `AddItem` does not change what any other item reads. -/
theorem AddItem_lookup_of_ne (ws : WeightSystem T) (item other : T)
    (opts : List AddItemOption) (hne : other ≠ item) :
    (AddItem ws item opts).weights.lookup other = ws.weights.lookup other := by
  cases hl : ws.weights.lookup item with
  | some w => rw [AddItem_of_present ws item opts w hl]
  | none =>
    rw [AddItem_of_absent ws item opts hl, updateAvgWeight_weights]
    exact AList.lookup_insert_ne hne

/-- `AddItem` does not change what an item that is present reads. -/
theorem AddItem_lookup_of_present (ws : WeightSystem T) (item x : T)
    (opts : List AddItemOption) (w : ℚ) (hx : ws.weights.lookup x = some w) :
    (AddItem ws item opts).weights.lookup x = some w := by
  by_cases hne : x = item
  · subst hne
    rw [AddItem_of_present ws x opts w hx, hx]
  · rw [AddItem_lookup_of_ne ws item x opts hne, hx]

/-- One `AddItem` without options on a system whose average `m` lies within
the bounds and whose total is `count * m`: the item is stored at `m` and the
average and the form of the total are kept. -/
theorem AddItem_uniform (ws : WeightSystem T) (item : T) (m : ℚ)
    (hmin : ws.minWeight ≤ m) (hmax : m ≤ ws.maxWeight) (havg : ws.avgWeight = m)
    (htot : ws.totalWeight = (ws.count : ℚ) * m) (habs : ws.weights.lookup item = none) :
    (AddItem ws item []).weights.lookup item = some m
      ∧ (AddItem ws item []).avgWeight = m
      ∧ (AddItem ws item []).count = ws.count + 1
      ∧ (AddItem ws item []).totalWeight = ((ws.count + 1 : ℕ) : ℚ) * m := by
  have hc : chosenWeight ws [] = m := havg
  have hclamp : max (min m ws.maxWeight) ws.minWeight = m := by
    rw [min_eq_left hmax, max_eq_left hmin]
  have hcount : (AddItem ws item []).count = ws.count + 1 := by
    unfold count
    rw [AddItem_of_absent ws item [] habs, updateAvgWeight_weights]
    exact length_insert_of_not_mem _ _ _ habs
  have htot2 : (AddItem ws item []).totalWeight = ((ws.count + 1 : ℕ) : ℚ) * m := by
    rw [AddItem_of_absent ws item [] habs, updateAvgWeight_totalWeight]
    simp only [hc, hclamp, htot]
    push_cast
    ring
  refine ⟨?_, ?_, hcount, htot2⟩
  · rw [AddItem_of_absent ws item [] habs, updateAvgWeight_weights, hc, hclamp]
    exact AList.lookup_insert _
  · have hA : AvgOk (AddItem ws item []) := by
      rw [AddItem_of_absent ws item [] habs]
      exact avgOk_updateAvgWeight _
    unfold AvgOk at hA
    rw [hA, hcount, if_pos (by omega), htot2]
    have hne : ((ws.count + 1 : ℕ) : ℚ) ≠ 0 :=
      Nat.cast_ne_zero.mpr (Nat.succ_ne_zero ws.count)
    field_simp

/-- `AddItems` without options of distinct absent items on such a system
stores every one of them at `m`, leaves what the other items read, and keeps
the average and the form of the total. -/
theorem AddItems_uniform (m : ℚ) (items : List T) :
    ∀ ws : WeightSystem T, items.Nodup → (∀ x ∈ items, ws.weights.lookup x = none) →
      ws.minWeight ≤ m → m ≤ ws.maxWeight → ws.avgWeight = m →
      ws.totalWeight = (ws.count : ℚ) * m →
      (∀ x ∈ items, (AddItems ws items []).weights.lookup x = some m)
        ∧ (∀ y, y ∉ items → (AddItems ws items []).weights.lookup y = ws.weights.lookup y)
        ∧ (AddItems ws items []).avgWeight = m
        ∧ (AddItems ws items []).count = ws.count + items.length
        ∧ (AddItems ws items []).totalWeight = ((ws.count + items.length : ℕ) : ℚ) * m := by
  induction items with
  | nil =>
    intro ws _ _ _ _ havg htot
    refine ⟨fun x hx => absurd hx (List.not_mem_nil x), fun y _ => rfl, havg, rfl, ?_⟩
    simpa [AddItems] using htot
  | cons x xs ih =>
    intro ws hnd habs hmin hmax havg htot
    have hnd2 := List.nodup_cons.mp hnd
    have hx : ws.weights.lookup x = none := habs x (List.mem_cons_self _ _)
    obtain ⟨h1, h2, h3, h4⟩ := AddItem_uniform ws x m hmin hmax havg htot hx
    have habs2 : ∀ y ∈ xs, (AddItem ws x []).weights.lookup y = none := by
      intro y hy
      have hne : y ≠ x := fun e => hnd2.1 (e ▸ hy)
      rw [AddItem_lookup_of_ne ws x y [] hne]
      exact habs y (List.mem_cons_of_mem _ hy)
    have hmin2 : (AddItem ws x []).minWeight ≤ m := by rw [AddItem_minWeight]; exact hmin
    have hmax2 : m ≤ (AddItem ws x []).maxWeight := by rw [AddItem_maxWeight]; exact hmax
    have htot2 : (AddItem ws x []).totalWeight = ((AddItem ws x []).count : ℚ) * m := by
      rw [h4, h3]
    obtain ⟨i1, i2, i3, i4, i5⟩ := ih (AddItem ws x []) hnd2.2 habs2 hmin2 hmax2 h2 htot2
    have hstep : AddItems ws (x :: xs) [] = AddItems (AddItem ws x []) xs [] := rfl
    rw [hstep]
    refine ⟨?_, ?_, i3, ?_, ?_⟩
    · intro y hy
      rcases List.mem_cons.mp hy with rfl | hy
      · rw [i2 y hnd2.1, h1]
      · exact i1 y hy
    · intro y hy
      have hyx : y ≠ x := fun e => hy (e ▸ List.mem_cons_self _ _)
      have hyxs : y ∉ xs := fun e => hy (List.mem_cons_of_mem _ e)
      rw [i2 y hyxs, AddItem_lookup_of_ne ws x y [] hyx]
    · rw [i4, h3, List.length_cons]; omega
    · rw [i5, h3, List.length_cons]
      congr 2
      omega

/-! ## Adjusting a weight at a bound, and repeatedly -/

/-- An adjustment that stores the weight it read leaves the weight, the
total and, when the cached average is the recomputed one, the average. -/
theorem AdjustWeight_fixed (ws : WeightSystem T) (item : T) (success : Bool) (w : ℚ)
    (h : ws.weights.lookup item = some w) (hA : AvgOk ws)
    (hval : (if success then min (w * (11 / 10)) ws.maxWeight
             else max (w * (9 / 10)) ws.minWeight) = w) :
    (AdjustWeight ws item success).weights.lookup item = some w
      ∧ (AdjustWeight ws item success).totalWeight = ws.totalWeight
      ∧ (AdjustWeight ws item success).avgWeight = ws.avgWeight := by
  have hl : (AdjustWeight ws item success).weights.lookup item = some w := by
    rw [AdjustWeight_weights, AList.lookup_insert, h]
    exact congrArg some hval
  have ht : (AdjustWeight ws item success).totalWeight = ws.totalWeight := by
    rw [AdjustWeight_totalWeight, h]
    simp only [Option.getD_some]
    rw [hval]
    ring
  have hc : (AdjustWeight ws item success).count = ws.count := by
    unfold count
    rw [AdjustWeight_weights]
    exact length_insert_of_mem _ _ _ w h
  refine ⟨hl, ht, ?_⟩
  have hA2 : AvgOk (AdjustWeight ws item success) := avgOk_AdjustWeight ws item success
  unfold AvgOk at hA2 hA
  rw [hA2, hA, hc, ht, AdjustWeight_minWeight, AdjustWeight_maxWeight]

/-- C16: in every system (a state reachable from `New`), an item whose
weight is `maxWeight` still has exactly `maxWeight` after
`AdjustWeight item true`, and an item whose weight is `minWeight` still has
exactly `minWeight` after `AdjustWeight item false`; in both cases
`totalWeight` and `avgWeight` are unchanged. -/
theorem C16_AdjustWeight_at_bound (opts : List NewOption) (calls : List (Call T)) (item : T) :
    ((reach opts calls).weights.lookup item = some (reach opts calls : WeightSystem T).maxWeight →
        (AdjustWeight (reach opts calls) item true).weights.lookup item
            = some (reach opts calls : WeightSystem T).maxWeight
          ∧ (AdjustWeight (reach opts calls) item true).totalWeight
            = (reach opts calls : WeightSystem T).totalWeight
          ∧ (AdjustWeight (reach opts calls) item true).avgWeight
            = (reach opts calls : WeightSystem T).avgWeight)
      ∧ ((reach opts calls).weights.lookup item
            = some (reach opts calls : WeightSystem T).minWeight →
        (AdjustWeight (reach opts calls) item false).weights.lookup item
            = some (reach opts calls : WeightSystem T).minWeight
          ∧ (AdjustWeight (reach opts calls) item false).totalWeight
            = (reach opts calls : WeightSystem T).totalWeight
          ∧ (AdjustWeight (reach opts calls) item false).avgWeight
            = (reach opts calls : WeightSystem T).avgWeight) := by
  have hb : BoundsOk (reach opts calls : WeightSystem T) := boundsOk_reach opts calls
  have hA : AvgOk (reach opts calls : WeightSystem T) := avgOk_reach opts calls
  have h0 : (0 : ℚ) ≤ (reach opts calls : WeightSystem T).minWeight := le_trans zero_le_one hb.1
  have h1 : (0 : ℚ) ≤ (reach opts calls : WeightSystem T).maxWeight := le_trans h0 hb.2
  constructor
  · intro h
    apply AdjustWeight_fixed _ item true _ h hA
    simp only [if_true]
    exact min_eq_right (by linarith)
  · intro h
    apply AdjustWeight_fixed _ item false _ h hA
    simp only [Bool.false_eq_true, if_false]
    exact max_eq_right (by linarith)

/-- C16 at concrete inputs: `"d"` added to the default system at the upper
bound 1000 and adjusted with success, `"e"` added at the lower bound 1 and
adjusted with failure. -/
theorem C16_AdjustWeight_at_bound_witness :
    (reach [] [Call.addItem "d" [WithWeight 1000]] : WeightSystem String).weights.lookup "d"
        = some (reach [] [Call.addItem "d" [WithWeight 1000]] : WeightSystem String).maxWeight
      ∧ (AdjustWeight (reach [] [Call.addItem "d" [WithWeight 1000]] : WeightSystem String)
          "d" true).weights.lookup "d"
        = some (reach [] [Call.addItem "d" [WithWeight 1000]] : WeightSystem String).maxWeight
      ∧ (reach [] [Call.addItem "e" [WithWeight 1]] : WeightSystem String).weights.lookup "e"
        = some (reach [] [Call.addItem "e" [WithWeight 1]] : WeightSystem String).minWeight
      ∧ (AdjustWeight (reach [] [Call.addItem "e" [WithWeight 1]] : WeightSystem String)
          "e" false).weights.lookup "e"
        = some (reach [] [Call.addItem "e" [WithWeight 1]] : WeightSystem String).minWeight := by
  have hd : (reach [] [Call.addItem "d" [WithWeight 1000]] : WeightSystem String).weights.lookup
      "d" = some (reach [] [Call.addItem "d" [WithWeight 1000]] : WeightSystem String).maxWeight := by
    simp [reach, run, step, AddItem, New, updateAvgWeight, WithWeight, lookup_singleton]
  have he : (reach [] [Call.addItem "e" [WithWeight 1]] : WeightSystem String).weights.lookup
      "e" = some (reach [] [Call.addItem "e" [WithWeight 1]] : WeightSystem String).minWeight := by
    simp [reach, run, step, AddItem, New, updateAvgWeight, WithWeight, lookup_singleton]
  exact ⟨hd, ((C16_AdjustWeight_at_bound [] [Call.addItem "d" [WithWeight 1000]] "d").1 hd).1,
    he, ((C16_AdjustWeight_at_bound [] [Call.addItem "e" [WithWeight 1]] "e").2 he).1⟩

/-- One more successful step on a capped weight. -/
theorem min_step (a M : ℚ) (hM : 0 ≤ M) :
    min (min a M * (11 / 10)) M = min (a * (11 / 10)) M := by
  simp only [min_def]
  split_ifs <;> linarith

/-- One more failing step on a floored weight. -/
theorem max_step (a m : ℚ) (hm : 0 ≤ m) :
    max (max a m * (9 / 10)) m = max (a * (9 / 10)) m := by
  simp only [max_def]
  split_ifs <;> linarith

theorem repeatAdjust_bounds (ws : WeightSystem T) (item : T) (success : Bool) (n : ℕ) :
    (repeatAdjust ws item success n).minWeight = ws.minWeight
      ∧ (repeatAdjust ws item success n).maxWeight = ws.maxWeight := by
  induction n with
  | zero => exact ⟨rfl, rfl⟩
  | succ k ih =>
    unfold repeatAdjust
    rw [AdjustWeight_minWeight, AdjustWeight_maxWeight]
    exact ih

/-- The weight after `n` successful adjustments in a row. -/
theorem repeatAdjust_success (ws : WeightSystem T) (item : T) (w : ℚ)
    (h : ws.weights.lookup item = some w) (hhi : w ≤ ws.maxWeight) (hM : 0 ≤ ws.maxWeight)
    (n : ℕ) :
    (repeatAdjust ws item true n).weights.lookup item
      = some (min (w * (11 / 10) ^ n) ws.maxWeight) := by
  induction n with
  | zero =>
    simp only [repeatAdjust, pow_zero, mul_one]
    rw [h, min_eq_left hhi]
  | succ k ih =>
    unfold repeatAdjust
    rw [AdjustWeight_weights, AList.lookup_insert, ih, (repeatAdjust_bounds ws item true k).2]
    simp only [if_true, Option.getD_some]
    rw [min_step _ _ hM, pow_succ, mul_assoc]

/-- The weight after `n` failing adjustments in a row. -/
theorem repeatAdjust_failure (ws : WeightSystem T) (item : T) (w : ℚ)
    (h : ws.weights.lookup item = some w) (hlo : ws.minWeight ≤ w) (hm : 0 ≤ ws.minWeight)
    (n : ℕ) :
    (repeatAdjust ws item false n).weights.lookup item
      = some (max (w * (9 / 10) ^ n) ws.minWeight) := by
  induction n with
  | zero =>
    simp only [repeatAdjust, pow_zero, mul_one]
    rw [h, max_eq_left hlo]
  | succ k ih =>
    unfold repeatAdjust
    rw [AdjustWeight_weights, AList.lookup_insert, ih, (repeatAdjust_bounds ws item false k).1]
    simp only [Bool.false_eq_true, if_false, Option.getD_some]
    rw [max_step _ _ hm, pow_succ, mul_assoc]

/-- C20: in every system (a state reachable from `New`), for a present item
whose weight `w` lies within the bounds and every `n`: after `n` successful
adjustments in a row its weight is `min (w * (11/10)^n) maxWeight`, after `n`
failing ones it is `max (w * (9/10)^n) minWeight`; the former is never below
`w` and never decreases with `n`, the latter is never above `w` and never
increases with `n`; and an item whose weight is 0 keeps the weight 0 under
any number of successful adjustments. -/
theorem C20_repeated_AdjustWeight (opts : List NewOption) (calls : List (Call T))
    (item : T) (w : ℚ) (n : ℕ)
    (h : (reach opts calls).weights.lookup item = some w)
    (hlo : (reach opts calls : WeightSystem T).minWeight ≤ w)
    (hhi : w ≤ (reach opts calls : WeightSystem T).maxWeight) :
    (repeatAdjust (reach opts calls) item true n).weights.lookup item
        = some (min (w * (11 / 10) ^ n) (reach opts calls : WeightSystem T).maxWeight)
      ∧ (repeatAdjust (reach opts calls) item false n).weights.lookup item
        = some (max (w * (9 / 10) ^ n) (reach opts calls : WeightSystem T).minWeight)
      ∧ w ≤ min (w * (11 / 10) ^ n) (reach opts calls : WeightSystem T).maxWeight
      ∧ max (w * (9 / 10) ^ n) (reach opts calls : WeightSystem T).minWeight ≤ w
      ∧ min (w * (11 / 10) ^ n) (reach opts calls : WeightSystem T).maxWeight
          ≤ min (w * (11 / 10) ^ (n + 1)) (reach opts calls : WeightSystem T).maxWeight
      ∧ max (w * (9 / 10) ^ (n + 1)) (reach opts calls : WeightSystem T).minWeight
          ≤ max (w * (9 / 10) ^ n) (reach opts calls : WeightSystem T).minWeight
      ∧ ∀ x : T, (reach opts calls).weights.lookup x = some 0 →
          (repeatAdjust (reach opts calls) x true n).weights.lookup x = some 0 := by
  have hb : BoundsOk (reach opts calls : WeightSystem T) := boundsOk_reach opts calls
  have hm : (0 : ℚ) ≤ (reach opts calls : WeightSystem T).minWeight := le_trans zero_le_one hb.1
  have hM : (0 : ℚ) ≤ (reach opts calls : WeightSystem T).maxWeight := le_trans hm hb.2
  have hw : (0 : ℚ) ≤ w := le_trans hm hlo
  have hup : (1 : ℚ) ≤ (11 / 10) ^ n := one_le_pow₀ (by norm_num)
  have hdn : ((9 : ℚ) / 10) ^ n ≤ 1 := pow_le_one₀ (by norm_num) (by norm_num)
  have hdn0 : (0 : ℚ) ≤ (9 / 10) ^ n := pow_nonneg (by norm_num) n
  refine ⟨repeatAdjust_success _ item w h hhi hM n, repeatAdjust_failure _ item w h hlo hm n,
    ?_, ?_, ?_, ?_, ?_⟩
  · exact le_min (by nlinarith) hhi
  · exact max_le (by nlinarith) hlo
  · apply min_le_min _ le_rfl
    rw [pow_succ, ← mul_assoc]
    nlinarith [mul_nonneg hw (le_trans zero_le_one hup)]
  · apply max_le_max _ le_rfl
    rw [pow_succ, ← mul_assoc]
    nlinarith [mul_nonneg hw hdn0]
  · intro x hx
    rw [repeatAdjust_success _ x 0 hx hM hM n]
    simp only [zero_mul]
    rw [min_eq_left hM]

/-- C20 at a concrete input: item `"a"`, added to the default system at
500.5, after two successful adjustments in a row. -/
theorem C20_repeated_AdjustWeight_witness :
    (reach [] [Call.addItem "a" []] : WeightSystem String).weights.lookup "a" = some (1001 / 2)
      ∧ (reach [] [Call.addItem "a" []] : WeightSystem String).minWeight ≤ 1001 / 2
      ∧ (1001 : ℚ) / 2 ≤ (reach [] [Call.addItem "a" []] : WeightSystem String).maxWeight
      ∧ (repeatAdjust (reach [] [Call.addItem "a" []] : WeightSystem String) "a" true
          2).weights.lookup "a"
        = some (min (1001 / 2 * (11 / 10) ^ 2)
            (reach [] [Call.addItem "a" []] : WeightSystem String).maxWeight) := by
  have h : (reach [] [Call.addItem "a" []] : WeightSystem String).weights.lookup "a"
      = some (1001 / 2) := by
    simp [reach, run, step, AddItem, New, updateAvgWeight, lookup_singleton]
    norm_num
  have hlo : (reach [] [Call.addItem "a" []] : WeightSystem String).minWeight ≤ 1001 / 2 := by
    simp [reach, run, step, AddItem, New, updateAvgWeight]
    norm_num
  have hhi : (1001 : ℚ) / 2 ≤ (reach [] [Call.addItem "a" []] : WeightSystem String).maxWeight := by
    simp [reach, run, step, AddItem, New, updateAvgWeight]
    norm_num
  exact ⟨h, hlo, hhi, (C20_repeated_AdjustWeight [] [Call.addItem "a" []] "a" (1001 / 2) 2
    h hlo hhi).1⟩

/-! ## `AddItems` as a sequence of `AddItem` calls -/

theorem AddItems_cons (ws : WeightSystem T) (x : T) (xs : List T) (opts : List AddItemOption) :
    AddItems ws (x :: xs) opts = AddItems (AddItem ws x opts) xs opts := rfl

theorem AddItem_of_mem (ws : WeightSystem T) (item : T) (opts : List AddItemOption)
    (h : item ∈ ws.weights) : AddItem ws item opts = ws := by
  unfold AddItem
  rw [if_pos (AList.lookup_isSome.mpr h)]

theorem AddItems_eq_addEach (items : List T) (opts : List AddItemOption) :
    ∀ ws : WeightSystem T, AddItems ws items opts = addEach ws opts items := by
  induction items with
  | nil => intro ws; rfl
  | cons x xs ih =>
    intro ws
    rw [AddItems_cons, ih]
    rfl

theorem AddItems_eq_run (items : List T) (opts : List AddItemOption) :
    ∀ ws : WeightSystem T,
      AddItems ws items opts = run ws (items.map (fun x => Call.addItem x opts)) := by
  induction items with
  | nil => intro ws; rfl
  | cons x xs ih =>
    intro ws
    rw [AddItems_cons, ih]
    rfl

/-- Items that are present or occur earlier in the list can be left out of
`AddItems`. -/
theorem AddItems_dropSeen (items : List T) (opts : List AddItemOption) :
    ∀ (ws : WeightSystem T) (seen : List T), (∀ k, k ∈ seen ↔ k ∈ ws.weights) →
      AddItems ws (dropSeen seen items) opts = AddItems ws items opts := by
  induction items with
  | nil => intro ws seen _; rfl
  | cons x xs ih =>
    intro ws seen hs
    unfold dropSeen
    by_cases hx : x ∈ seen
    · rw [if_pos hx, AddItems_cons, AddItem_of_mem ws x opts ((hs x).mp hx)]
      exact ih ws seen hs
    · rw [if_neg hx, AddItems_cons, AddItems_cons]
      apply ih
      intro k
      have hl : ws.weights.lookup x = none :=
        AList.lookup_eq_none.mpr (fun hm => hx ((hs x).mpr hm))
      rw [AddItem_of_absent ws x opts hl, updateAvgWeight_weights, AList.mem_insert,
        List.mem_cons, hs k]

/-- What `dropSeen` keeps: no repetition, exactly the items of the list that
are not in `seen`, in their order in the list. -/
theorem dropSeen_spec (items : List T) :
    ∀ seen : List T, (dropSeen seen items).Nodup
      ∧ (∀ x, x ∈ dropSeen seen items ↔ x ∈ items ∧ x ∉ seen)
      ∧ (dropSeen seen items).Sublist items := by
  induction items with
  | nil => intro seen; simp [dropSeen]
  | cons x xs ih =>
    intro seen
    unfold dropSeen
    by_cases hx : x ∈ seen
    · rw [if_pos hx]
      obtain ⟨h1, h2, h3⟩ := ih seen
      refine ⟨h1, ?_, h3.trans (List.sublist_cons_self x xs)⟩
      intro y
      rw [h2 y, List.mem_cons]
      constructor
      · rintro ⟨hy, hn⟩
        exact ⟨Or.inr hy, hn⟩
      · rintro ⟨hy | hy, hn⟩
        · exact absurd (hy ▸ hx) hn
        · exact ⟨hy, hn⟩
    · rw [if_neg hx]
      obtain ⟨h1, h2, h3⟩ := ih (x :: seen)
      refine ⟨List.nodup_cons.mpr ⟨?_, h1⟩, ?_, h3.cons₂ x⟩
      · intro hm
        exact ((h2 x).mp hm).2 (List.mem_cons_self _ _)
      · intro y
        rw [List.mem_cons, h2 y, List.mem_cons, List.mem_cons]
        constructor
        · rintro (rfl | ⟨hy, hn⟩)
          · exact ⟨Or.inl rfl, hx⟩
          · exact ⟨Or.inr hy, fun hm => hn (Or.inr hm)⟩
        · rintro ⟨rfl | hy, hn⟩
          · exact Or.inl rfl
          · by_cases hyx : y = x
            · exact Or.inl hyx
            · exact Or.inr ⟨hy, fun hm => hm.elim hyx hn⟩

theorem AddItems_lookup_of_present (items : List T) (opts : List AddItemOption) :
    ∀ (ws : WeightSystem T) (x : T) (w : ℚ), ws.weights.lookup x = some w →
      (AddItems ws items opts).weights.lookup x = some w := by
  induction items with
  | nil => intro ws x w h; exact h
  | cons y ys ih =>
    intro ws x w h
    rw [AddItems_cons]
    exact ih _ x w (AddItem_lookup_of_present ws y x opts w h)

/-- C19: for every state, every list of items (repetitions and items
already present allowed) and every option list, `AddItems` gives the state
obtained by applying `AddItem` with the same options to each item in list
order (as a recursion and as a run of calls), and the state that `AddItems`
gives on the list without its later repetitions and without the items already
present; items already present keep their weight. -/
theorem C19_AddItems_is_AddItem_in_order (ws : WeightSystem T) (items : List T)
    (opts : List AddItemOption) :
    AddItems ws items opts = addEach ws opts items
      ∧ AddItems ws items opts = run ws (items.map (fun x => Call.addItem x opts))
      ∧ AddItems ws (dropSeen ws.weights.keys items) opts = AddItems ws items opts
      ∧ (dropSeen ws.weights.keys items).Nodup
      ∧ (∀ x, x ∈ dropSeen ws.weights.keys items ↔ x ∈ items ∧ x ∉ ws.weights)
      ∧ (dropSeen ws.weights.keys items).Sublist items
      ∧ (∀ (x : T) (w : ℚ), ws.weights.lookup x = some w →
          (AddItems ws items opts).weights.lookup x = some w) := by
  obtain ⟨h1, h2, h3⟩ := dropSeen_spec items ws.weights.keys
  exact ⟨AddItems_eq_addEach items opts ws, AddItems_eq_run items opts ws,
    AddItems_dropSeen items opts ws ws.weights.keys (fun k => AList.mem_keys.symm),
    h1, fun x => by rw [h2 x, AList.mem_keys], h3,
    AddItems_lookup_of_present items opts ws⟩

/-- The pruning at a concrete input: `"a"` is present, `"b"` is repeated. -/
theorem dropSeen_example : dropSeen ["a"] ["b", "a", "b", "c"] = ["b", "c"] := by
  simp [dropSeen]

/-! ## The copy returned by `Weights` -/

theorem deref_set_ne (h : Heap T) (p q : ℕ) (m : AList (fun _ : T => ℚ)) (hne : q ≠ p) :
    deref (h.set p m) q = deref h q := by
  unfold deref
  rw [List.getD_eq_getElem?_getD, List.getD_eq_getElem?_getD,
    List.getElem?_set_ne (fun e => hne e.symm)]

theorem deref_set_self (h : Heap T) (p : ℕ) (m : AList (fun _ : T => ℚ))
    (hp : p < h.length) : deref (h.set p m) p = m := by
  unfold deref
  rw [List.getD_eq_getElem?_getD, List.getElem?_set_self hp]
  rfl

theorem deref_assignAt_ne (h : Heap T) (p q : ℕ) (k : T) (v : ℚ) (hne : q ≠ p) :
    deref (assignAt h p k v) q = deref h q :=
  deref_set_ne h p q _ hne

theorem deref_deleteAt_ne (h : Heap T) (p q : ℕ) (k : T) (hne : q ≠ p) :
    deref (deleteAt h p k) q = deref h q :=
  deref_set_ne h p q _ hne

theorem deref_assignAt_self (h : Heap T) (p : ℕ) (k : T) (v : ℚ) (hp : p < h.length) :
    deref (assignAt h p k v) p = (deref h p).insert k v :=
  deref_set_self h p _ hp

theorem length_assignAt (h : Heap T) (p : ℕ) (k : T) (v : ℚ) :
    (assignAt h p k v).length = h.length := by
  unfold assignAt
  exact List.length_set _ _ _

/-- Every object that existed before `makeMap` is unchanged by it. -/
theorem deref_makeMap_old (h : Heap T) (q : ℕ) (hq : q < h.length) :
    deref (makeMap h).1 q = deref h q := by
  unfold deref makeMap
  rw [List.getD_eq_getElem?_getD, List.getD_eq_getElem?_getD, List.getElem?_append_left hq]

/-- The object that `makeMap` allocates is empty. -/
theorem deref_makeMap_new (h : Heap T) : deref (makeMap h).1 (makeMap h).2 = ∅ := by
  unfold deref makeMap
  simp

/-- Writes through one reference leave the objects behind all others. -/
theorem deref_applyWrites_ne (writes : List (MapWrite T)) (p q : ℕ) (hne : q ≠ p) :
    ∀ h : Heap T, deref (applyWrites h p writes) q = deref h q := by
  induction writes with
  | nil => intro h; rfl
  | cons w ws ih =>
    intro h
    unfold applyWrites
    simp only [List.foldl_cons]
    have := ih (match w with
      | .assign k v => assignAt h p k v
      | .delete k => deleteAt h p k)
    unfold applyWrites at this
    rw [this]
    cases w with
    | assign k v => exact deref_assignAt_ne h p q k v hne
    | delete k => exact deref_deleteAt_ne h p q k hne

/-- The loop of `Weights` on a heap: objects behind other references are
unchanged, and the object behind `c` receives the entries one by one. -/
theorem foldl_assignAt (order : List (Sigma fun _ : T => ℚ)) (c : ℕ) :
    ∀ h : Heap T, c < h.length →
      (∀ q, q ≠ c →
        deref (order.foldl (fun heap e => assignAt heap c e.1 e.2) h) q = deref h q)
      ∧ deref (order.foldl (fun heap e => assignAt heap c e.1 e.2) h) c
          = order.foldl (fun clone e => clone.insert e.1 e.2) (deref h c) := by
  induction order with
  | nil => intro h _; exact ⟨fun q _ => rfl, rfl⟩
  | cons e rest ih =>
    intro h hc
    simp only [List.foldl_cons]
    obtain ⟨h1, h2⟩ := ih (assignAt h c e.1 e.2) (by rw [length_assignAt]; exact hc)
    refine ⟨fun q hq => ?_, ?_⟩
    · rw [h1 q hq, deref_assignAt_ne h c q e.1 e.2 hq]
    · rw [h2, deref_assignAt_self h c e.1 e.2 hc]

/-- Reading a key from a map filled by assignments of entries with distinct
keys: the entry with that key if there is one, the earlier content
otherwise. -/
theorem lookup_foldl_insert (order : List (Sigma fun _ : T => ℚ)) (k : T) :
    order.NodupKeys → ∀ acc : AList (fun _ : T => ℚ),
      (order.foldl (fun clone e => clone.insert e.1 e.2) acc).lookup k
        = (order.dlookup k).or (acc.lookup k) := by
  induction order with
  | nil => intro _ acc; simp
  | cons e rest ih =>
    intro hnd acc
    have hnd2 := List.nodupKeys_cons.mp hnd
    simp only [List.foldl_cons]
    rw [ih hnd2.2]
    obtain ⟨a, b⟩ := e
    by_cases hk : k = a
    · subst hk
      have hn : rest.dlookup k = none := List.dlookup_eq_none.mpr hnd2.1
      rw [hn, List.dlookup_cons_eq, AList.lookup_insert]
      rfl
    · rw [List.dlookup_cons_ne _ _ hk, AList.lookup_insert_ne hk]

/-- The map that `Weights` builds from an iteration of a map reads like it. -/
theorem lookup_Weights (m : AList (fun _ : T => ℚ)) (order : List (Sigma fun _ : T => ℚ))
    (hperm : order.Perm m.entries) (k : T) : (Weights order).lookup k = m.lookup k := by
  have hnd : order.NodupKeys := (List.perm_nodupKeys hperm).mpr m.nodupKeys
  unfold Weights
  rw [lookup_foldl_insert order k hnd ∅]
  have : order.dlookup k = m.lookup k := List.perm_dlookup k hnd m.nodupKeys hperm
  rw [this]
  simp

/-- C18: for a system whose weight map is an allocated object of the heap,
`Weights` returns a reference to a map with exactly the keys and values of
the internal map (it is the map `Weights` builds on values, and its entries
are a rearrangement of the internal ones); the reference is a new one, the
state of the system is unchanged by the call, and after any sequence of
assignments and deletions through the returned reference the system still
has the same state, so that later iterations of its map (as in `Weights` and
`SortedWeights`) and `GetItem` see what they saw before. -/
theorem C18_Weights_returns_copy [Inhabited T] (h : Heap T) (s : WeightSystemRef)
    (order : List (Sigma fun _ : T => ℚ)) (writes : List (MapWrite T))
    (halloc : s.weights < h.length) (hperm : order.Perm (deref h s.weights).entries) :
    (∀ k : T, (deref (WeightsRef h order).1 (WeightsRef h order).2).lookup k
        = (view h s).weights.lookup k)
      ∧ (deref (WeightsRef h order).1 (WeightsRef h order).2).entries.Perm
          (view h s).weights.entries
      ∧ deref (WeightsRef h order).1 (WeightsRef h order).2 = Weights order
      ∧ (WeightsRef h order).2 ≠ s.weights
      ∧ view (WeightsRef h order).1 s = view h s
      ∧ view (applyWrites (WeightsRef h order).1 (WeightsRef h order).2 writes) s = view h s
      ∧ (∀ o : List (Sigma fun _ : T => ℚ),
          o.Perm (view (applyWrites (WeightsRef h order).1 (WeightsRef h order).2 writes)
              s).weights.entries
            ↔ o.Perm (view h s).weights.entries)
      ∧ (∀ (o o2 : List (Sigma fun _ : T => ℚ)) (u : ℚ),
          GetItem (view (applyWrites (WeightsRef h order).1 (WeightsRef h order).2 writes) s)
              o o2 u
            = GetItem (view h s) o o2 u) := by
  have e1 : (WeightsRef h order).1
      = order.foldl (fun heap e => assignAt heap (makeMap h).2 e.1 e.2) (makeMap h).1 := rfl
  have e2 : (WeightsRef h order).2 = (makeMap h).2 := rfl
  have ec : (makeMap h).2 = h.length := rfl
  have hlen : (makeMap h).2 < (makeMap h).1.length := by
    unfold makeMap
    simp
  obtain ⟨f1, f2⟩ := foldl_assignAt order (makeMap h).2 (makeMap h).1 hlen
  have hne : s.weights ≠ (makeMap h).2 := by rw [ec]; omega
  have hcopy : deref (WeightsRef h order).1 (WeightsRef h order).2 = Weights order := by
    rw [e1, e2, f2, deref_makeMap_new]
    rfl
  have hkeep : deref (WeightsRef h order).1 s.weights = deref h s.weights := by
    rw [e1, f1 s.weights hne, deref_makeMap_old h s.weights halloc]
  have hview : view (WeightsRef h order).1 s = view h s := by
    unfold view
    rw [hkeep]
  have hview2 : view (applyWrites (WeightsRef h order).1 (WeightsRef h order).2 writes) s
      = view h s := by
    rw [← hview]
    unfold view
    rw [deref_applyWrites_ne writes _ s.weights (by rw [e2]; exact hne)]
  have hlook : ∀ k : T, (deref (WeightsRef h order).1 (WeightsRef h order).2).lookup k
      = (view h s).weights.lookup k := by
    intro k
    rw [hcopy]
    exact lookup_Weights (deref h s.weights) order hperm k
  refine ⟨hlook, ?_, hcopy, ?_, hview, hview2, ?_, ?_⟩
  · apply List.lookup_ext (AList.nodupKeys _) (AList.nodupKeys _)
    intro x y
    have := hlook x
    unfold AList.lookup at this
    rw [this]
  · rw [e2]
    exact fun e => hne e.symm
  · intro o
    rw [hview2]
  · intro o o2 u
    rw [hview2]

/-- C18 at a concrete input: a heap whose only object is the map of the
system with `"a"` and `"b"`; the caller assigns `"z"` and deletes `"a"` in
the map it got from `Weights`, and the system still has its two items. -/
theorem C18_Weights_returns_copy_witness :
    (0 : ℕ) < ([twoItems.weights] : Heap String).length
      ∧ List.Perm [⟨"b", 1001 / 2⟩, ⟨"a", 1001 / 2⟩]
          (deref ([twoItems.weights] : Heap String) 0).entries
      ∧ view (applyWrites
            (WeightsRef ([twoItems.weights] : Heap String)
              [⟨"b", 1001 / 2⟩, ⟨"a", 1001 / 2⟩]).1
            (WeightsRef ([twoItems.weights] : Heap String)
              [⟨"b", 1001 / 2⟩, ⟨"a", 1001 / 2⟩]).2
            [MapWrite.assign "z" 5, MapWrite.delete "a"])
          ⟨0, 1, 1000, 1001, 1001 / 2⟩
        = view ([twoItems.weights] : Heap String) ⟨0, 1, 1000, 1001, 1001 / 2⟩ := by
  have halloc : (0 : ℕ) < ([twoItems.weights] : Heap String).length := by simp
  have hperm : List.Perm [⟨"b", 1001 / 2⟩, ⟨"a", 1001 / 2⟩]
      (deref ([twoItems.weights] : Heap String) 0).entries := by
    have : deref ([twoItems.weights] : Heap String) 0 = twoItems.weights := rfl
    rw [this, twoItems_entries]
  exact ⟨halloc, hperm,
    (C18_Weights_returns_copy ([twoItems.weights] : Heap String) ⟨0, 1, 1000, 1001, 1001 / 2⟩
      [⟨"b", 1001 / 2⟩, ⟨"a", 1001 / 2⟩] [MapWrite.assign "z" 5, MapWrite.delete "a"]
      halloc hperm).2.2.2.2.2.1⟩

/-! ## Rounding to float64 -/

/-- A rational less than one half away from an integer rounds to it. -/
theorem roundHalfEven_of_abs_lt (q : ℚ) (m : ℤ) (h : |q - m| < 1 / 2) :
    roundHalfEven q = m := by
  rw [abs_lt] at h
  unfold roundHalfEven
  by_cases hq : (m : ℚ) ≤ q
  · have hf : ⌊q⌋ = m := Int.floor_eq_iff.mpr ⟨hq, by linarith [h.2]⟩
    rw [hf, if_pos (by linarith [h.2])]
  · have hq2 : q < m := not_le.mp hq
    have hf : ⌊q⌋ = m - 1 :=
      Int.floor_eq_iff.mpr ⟨by push_cast; linarith [h.1], by push_cast; linarith⟩
    rw [hf]
    push_cast
    rw [if_neg (by linarith [h.1]), if_pos (by linarith [h.1])]
    ring

/-- A rational halfway above an even integer rounds down to it. -/
theorem roundHalfEven_of_tie_even (q : ℚ) (m : ℤ) (h : q = m + 1 / 2) (hm : m % 2 = 0) :
    roundHalfEven q = m := by
  have hf : ⌊q⌋ = m := Int.floor_eq_iff.mpr ⟨by rw [h]; linarith, by rw [h]; linarith⟩
  unfold roundHalfEven
  rw [hf, if_neg (by rw [h]; simp), if_neg (by rw [h]; simp), if_pos hm]

/-- A rational halfway above an odd integer rounds up to the next one. -/
theorem roundHalfEven_of_tie_odd (q : ℚ) (m : ℤ) (h : q = m + 1 / 2) (hm : m % 2 = 1) :
    roundHalfEven q = m + 1 := by
  have hf : ⌊q⌋ = m := Int.floor_eq_iff.mpr ⟨by rw [h]; linarith, by rw [h]; linarith⟩
  unfold roundHalfEven
  rw [hf, if_neg (by rw [h]; simp), if_neg (by rw [h]; simp), if_neg (by omega)]

theorem roundHalfEven_nonneg (q : ℚ) (h : 0 ≤ q) : 0 ≤ roundHalfEven q := by
  have hf : 0 ≤ ⌊q⌋ := Int.floor_nonneg.mpr h
  unfold roundHalfEven
  split_ifs <;> omega

/-- The binary exponent of a rational between two consecutive powers of 2. -/
theorem exponent64_eq (x : ℚ) (e : ℤ) (h1 : (2 : ℚ) ^ e ≤ |x|) (h2 : |x| < 2 ^ (e + 1))
    (he : -1022 ≤ e) : exponent64 x = e := by
  have hpos : 0 < |x| := lt_of_lt_of_le (zpow_pos (by norm_num) e) h1
  have hl : Int.log 2 |x| = e := by
    apply le_antisymm
    · have h3 := (Int.lt_zpow_iff_log_lt (b := 2) (by norm_num) hpos (x := e + 1)).mp
        (by exact_mod_cast h2)
      omega
    · exact (Int.zpow_le_iff_le_log (b := 2) (by norm_num) hpos).mp (by exact_mod_cast h1)
  unfold exponent64
  rw [hl]
  exact max_eq_left he

/-- The float64 nearest to `x`, from its binary exponent `e` and an integer
`m` with `x / 2^(e-52)` less than one half away from `m`. -/
theorem round64_eq (x : ℚ) (e m : ℤ) (h1 : (2 : ℚ) ^ e ≤ |x|) (h2 : |x| < 2 ^ (e + 1))
    (he : -1022 ≤ e) (hm : |x / 2 ^ (e - 52) - m| < 1 / 2) :
    round64 x = m * 2 ^ (e - 52) := by
  unfold round64
  rw [exponent64_eq x e h1 h2 he, roundHalfEven_of_abs_lt _ m hm]

/-- The float64 nearest to `x` in a tie above an even significand. -/
theorem round64_eq_tie_even (x : ℚ) (e m : ℤ) (h1 : (2 : ℚ) ^ e ≤ |x|)
    (h2 : |x| < 2 ^ (e + 1)) (he : -1022 ≤ e) (hm : x / 2 ^ (e - 52) = m + 1 / 2)
    (heven : m % 2 = 0) : round64 x = m * 2 ^ (e - 52) := by
  unfold round64
  rw [exponent64_eq x e h1 h2 he, roundHalfEven_of_tie_even _ m hm heven]

/-- The float64 nearest to `x` in a tie above an odd significand. -/
theorem round64_eq_tie_odd (x : ℚ) (e m : ℤ) (h1 : (2 : ℚ) ^ e ≤ |x|)
    (h2 : |x| < 2 ^ (e + 1)) (he : -1022 ≤ e) (hm : x / 2 ^ (e - 52) = m + 1 / 2)
    (hodd : m % 2 = 1) : round64 x = (m + 1 : ℤ) * 2 ^ (e - 52) := by
  unfold round64
  rw [exponent64_eq x e h1 h2 he, roundHalfEven_of_tie_odd _ m hm hodd]

/-- Rounding keeps the sign of a non-negative number. -/
theorem round64_nonneg (x : ℚ) (h : 0 ≤ x) : 0 ≤ round64 x := by
  unfold round64
  have hp : (0 : ℚ) < 2 ^ (exponent64 x - 52) := zpow_pos (by norm_num) _
  apply mul_nonneg _ (le_of_lt hp)
  exact_mod_cast roundHalfEven_nonneg _ (div_nonneg h (le_of_lt hp))

theorem round64_zero : round64 0 = 0 := by
  unfold round64 roundHalfEven
  simp

/-- Rounding at concrete inputs: 13/10 rounds to the float64 written `1.3`,
and the sum `1000 + 1.3` of float64 values is not a float64. -/
theorem round64_examples :
    round64 (13 / 10) = 5854679515581645 / 2 ^ 52
      ∧ round64 (1000 + 5854679515581645 / 2 ^ 52) = 4403763971568435 / 2 ^ 42
      ∧ (1000 : ℚ) + 5854679515581645 / 2 ^ 52 ≠ 4403763971568435 / 2 ^ 42 := by
  refine ⟨?_, ?_, by norm_num⟩
  · rw [round64_eq _ 0 5854679515581645 (by norm_num [abs_of_pos]) (by norm_num [abs_lt])
      (by norm_num) (by norm_num [abs_lt])]
    norm_num
  · rw [round64_eq _ 9 8807527943136870 (by norm_num [abs_of_pos]) (by norm_num [abs_lt])
      (by norm_num) (by norm_num [abs_lt])]
    norm_num

/-! ## The rounded model: basic facts -/

namespace Rounded

@[simp] theorem updateAvgWeight_weights_rnd (rnd : ℚ → ℚ) (ws : WeightSystem T) :
    (updateAvgWeight rnd ws).weights = ws.weights := by
  unfold updateAvgWeight; split <;> rfl

@[simp] theorem updateAvgWeight_totalWeight_rnd (rnd : ℚ → ℚ) (ws : WeightSystem T) :
    (updateAvgWeight rnd ws).totalWeight = ws.totalWeight := by
  unfold updateAvgWeight; split <;> rfl

@[simp] theorem updateAvgWeight_minWeight_rnd (rnd : ℚ → ℚ) (ws : WeightSystem T) :
    (updateAvgWeight rnd ws).minWeight = ws.minWeight := by
  unfold updateAvgWeight; split <;> rfl

@[simp] theorem updateAvgWeight_maxWeight_rnd (rnd : ℚ → ℚ) (ws : WeightSystem T) :
    (updateAvgWeight rnd ws).maxWeight = ws.maxWeight := by
  unfold updateAvgWeight; split <;> rfl

/-- Without rounding the rounded methods are the exact ones. -/
theorem exact_of_id (ws : WeightSystem T) (item : T) (success : Bool)
    (opts : List AddItemOption) (items : List T) (nopts : List NewOption) :
    updateAvgWeight id ws = WeightSystem.updateAvgWeight ws
      ∧ (New id nopts : WeightSystem T) = WeightSystem.New nopts
      ∧ AdjustWeight id ws item success = WeightSystem.AdjustWeight ws item success
      ∧ AddItem id ws item opts = WeightSystem.AddItem ws item opts
      ∧ AddItems id ws items opts = WeightSystem.AddItems ws items opts
      ∧ RemoveItem id ws item = WeightSystem.RemoveItem ws item := by
  have hu : ∀ s : WeightSystem T, updateAvgWeight id s = WeightSystem.updateAvgWeight s :=
    fun s => rfl
  have ha : ∀ (s : WeightSystem T) (x : T),
      AddItem id s x opts = WeightSystem.AddItem s x opts := fun s x => rfl
  exact ⟨hu ws, rfl, rfl, ha ws item, rfl, rfl⟩

/-- Without rounding the rounded scan and `GetItem` are the exact ones. -/
theorem scan_id (l : List (Sigma fun _ : T => ℚ)) :
    ∀ r : ℚ, scan id r l = WeightSystem.scan r l := by
  induction l with
  | nil => intro r; rfl
  | cons e rest ih =>
    intro r
    unfold scan WeightSystem.scan
    simp only [id]
    rw [ih]

theorem GetItem_id [Inhabited T] (ws : WeightSystem T)
    (order order2 : List (Sigma fun _ : T => ℚ)) (u : ℚ) :
    GetItem id ws order order2 u = WeightSystem.GetItem ws order order2 u := by
  unfold GetItem WeightSystem.GetItem
  simp only [id]
  rw [scan_id]

end Rounded

/-! ## Tracing the rounded model -/

namespace Rounded

theorem snapshot_New (rnd : ℚ → ℚ) :
    Snapshot (New rnd [] : WeightSystem T) ∅ 1 1000 0 := by
  unfold Snapshot New
  simp

/-- The snapshot after `AddItem` with a weight option on an absent item. -/
theorem snapshot_AddItem (rnd : ℚ → ℚ) (ws : WeightSystem T) (m : AList (fun _ : T => ℚ))
    (mn mx t : ℚ) (item : T) (w c : ℚ) (hs : Snapshot ws m mn mx t)
    (habs : m.lookup item = none) (hc : max (min w mx) mn = c) :
    Snapshot (AddItem rnd ws item [WithWeight w]) (m.insert item c) mn mx (rnd (t + c)) := by
  obtain ⟨h1, h2, h3, h4⟩ := hs
  subst h1 h2 h3 h4
  unfold Snapshot AddItem
  simp [habs, WithWeight, hc]

/-- The snapshot after `RemoveItem` of a present item. -/
theorem snapshot_RemoveItem (rnd : ℚ → ℚ) (ws : WeightSystem T)
    (m : AList (fun _ : T => ℚ)) (mn mx t : ℚ) (item : T) (w : ℚ)
    (hs : Snapshot ws m mn mx t) (hpres : m.lookup item = some w) :
    Snapshot (RemoveItem rnd ws item) (m.erase item) mn mx (rnd (t - w)) := by
  obtain ⟨h1, h2, h3, h4⟩ := hs
  subst h1 h2 h3 h4
  unfold Snapshot RemoveItem
  simp [hpres]

end Rounded

/-- The total weight in float64 after adding `"a"` at 1000 and `"b"` at the
float64 `1.3` to the default system and removing both again. -/
theorem total_after_add_remove :
    (Rounded.reach round64 []
      [Call.addItem "a" [WithWeight 1000],
        Call.addItem "b" [WithWeight (5854679515581645 / 2 ^ 52)],
        Call.removeItem "a", Call.removeItem "b"] : WeightSystem String).totalWeight
      = -205 / 2 ^ 52 := by
  have e1 : round64 (0 + 1000) = 1000 := by
    rw [round64_eq _ (9) (8796093022208000) (le_abs.mpr (Or.inl (by norm_num)))
      (abs_lt.mpr ⟨by norm_num, by norm_num⟩) (by norm_num)
      (abs_lt.mpr ⟨by norm_num, by norm_num⟩)]
    norm_num
  have e2 : round64 (1000 + 5854679515581645 / 2 ^ 52) = 4403763971568435 / 2 ^ 42 := by
    rw [round64_eq _ (9) (8807527943136870) (le_abs.mpr (Or.inl (by norm_num)))
      (abs_lt.mpr ⟨by norm_num, by norm_num⟩) (by norm_num)
      (abs_lt.mpr ⟨by norm_num, by norm_num⟩)]
    norm_num
  have e3 : round64 (4403763971568435 / 2 ^ 42 - 1000) = 5717460464435 / 2 ^ 42 := by
    rw [round64_eq _ (0) (5854679515581440) (le_abs.mpr (Or.inl (by norm_num)))
      (abs_lt.mpr ⟨by norm_num, by norm_num⟩) (by norm_num)
      (abs_lt.mpr ⟨by norm_num, by norm_num⟩)]
    norm_num
  have e4 : round64 (5717460464435 / 2 ^ 42 - 5854679515581645 / 2 ^ 52) = -205 / 2 ^ 52 := by
    rw [round64_eq _ (-45) (-7212796278210560) (le_abs.mpr (Or.inr (by norm_num)))
      (abs_lt.mpr ⟨by norm_num, by norm_num⟩) (by norm_num)
      (abs_lt.mpr ⟨by norm_num, by norm_num⟩)]
    norm_num
  have s0 := Rounded.snapshot_New (T := String) round64
  have s1 := Rounded.snapshot_AddItem round64 _ _ _ _ _ "a" 1000 1000 s0 (by simp)
    (by norm_num)
  rw [e1] at s1
  have s2 := Rounded.snapshot_AddItem round64 _ _ _ _ _ "b" (5854679515581645 / 2 ^ 52)
    (5854679515581645 / 2 ^ 52) s1
    ((AList.lookup_insert_ne (by decide)).trans (AList.lookup_empty _)) (by norm_num)
  rw [e2] at s2
  have s3 := Rounded.snapshot_RemoveItem round64 _ _ _ _ _ "a" 1000 s2
    (by rw [AList.lookup_insert_ne (by decide), AList.lookup_insert])
  rw [e3] at s3
  have s4 := Rounded.snapshot_RemoveItem round64 _ _ _ _ _ "b" (5854679515581645 / 2 ^ 52) s3
    (by rw [AList.lookup_erase_ne (by decide), AList.lookup_insert])
  rw [e4] at s4
  exact s4.2.2.2

/-! ## The bounds and the sign of the weights in the rounded model -/

namespace Rounded

theorem AdjustWeight_weights_rnd (rnd : ℚ → ℚ) (ws : WeightSystem T) (item : T)
    (success : Bool) :
    (AdjustWeight rnd ws item success).weights
      = ws.weights.insert item
          (if success then
            min (rnd ((ws.weights.lookup item).getD 0 * rnd (11 / 10))) ws.maxWeight
           else max (rnd ((ws.weights.lookup item).getD 0 * rnd (9 / 10))) ws.minWeight) := by
  unfold AdjustWeight
  cases success <;> simp

theorem AdjustWeight_bounds (rnd : ℚ → ℚ) (ws : WeightSystem T) (item : T)
    (success : Bool) :
    (AdjustWeight rnd ws item success).minWeight = ws.minWeight
      ∧ (AdjustWeight rnd ws item success).maxWeight = ws.maxWeight := by
  unfold AdjustWeight; simp

theorem AddItem_bounds (rnd : ℚ → ℚ) (ws : WeightSystem T) (item : T)
    (opts : List AddItemOption) :
    (AddItem rnd ws item opts).minWeight = ws.minWeight
      ∧ (AddItem rnd ws item opts).maxWeight = ws.maxWeight := by
  unfold AddItem; split <;> simp

theorem RemoveItem_bounds (rnd : ℚ → ℚ) (ws : WeightSystem T) (item : T) :
    (RemoveItem rnd ws item).minWeight = ws.minWeight
      ∧ (RemoveItem rnd ws item).maxWeight = ws.maxWeight := by
  unfold RemoveItem; split <;> simp

theorem AddItems_bounds_rnd (rnd : ℚ → ℚ) (items : List T) (opts : List AddItemOption) :
    ∀ ws : WeightSystem T, (AddItems rnd ws items opts).minWeight = ws.minWeight
      ∧ (AddItems rnd ws items opts).maxWeight = ws.maxWeight := by
  induction items with
  | nil => intro ws; exact ⟨rfl, rfl⟩
  | cons x xs ih =>
    intro ws
    have h := ih (AddItem rnd ws x opts)
    rw [(AddItem_bounds rnd ws x opts).1, (AddItem_bounds rnd ws x opts).2] at h
    exact h

theorem step_bounds_rnd (rnd : ℚ → ℚ) (ws : WeightSystem T) (c : Call T) :
    (step rnd ws c).minWeight = ws.minWeight ∧ (step rnd ws c).maxWeight = ws.maxWeight := by
  cases c with
  | addItem item opts => exact AddItem_bounds rnd ws item opts
  | addItems items opts => exact AddItems_bounds_rnd rnd items opts ws
  | removeItem item => exact RemoveItem_bounds rnd ws item
  | adjustWeight item success => exact AdjustWeight_bounds rnd ws item success

theorem boundsOk_New_rnd (rnd : ℚ → ℚ) (opts : List NewOption) :
    BoundsOk (New rnd opts : WeightSystem T) := by
  unfold BoundsOk New
  simp

theorem boundsOk_step (rnd : ℚ → ℚ) (ws : WeightSystem T) (c : Call T) (hb : BoundsOk ws) :
    BoundsOk (step rnd ws c) := by
  unfold BoundsOk
  rw [(step_bounds_rnd rnd ws c).1, (step_bounds_rnd rnd ws c).2]
  exact hb

theorem nonnegOk_AdjustWeight_rnd (rnd : ℚ → ℚ) (hr : ∀ x, 0 ≤ x → 0 ≤ rnd x)
    (ws : WeightSystem T) (item : T) (success : Bool) (hb : BoundsOk ws)
    (h : NonnegOk ws) : NonnegOk (AdjustWeight rnd ws item success) := by
  intro e he
  rw [AdjustWeight_weights_rnd] at he
  rcases mem_entries_insert _ _ _ _ he with rfl | he
  · have h0 := weight_nonneg_of_nonnegOk ws item h
    have h1 : (0 : ℚ) ≤ ws.minWeight := le_trans zero_le_one hb.1
    have h2 : (0 : ℚ) ≤ ws.maxWeight := le_trans h1 hb.2
    cases success
    · simp only [Bool.false_eq_true, if_false]
      exact le_trans h1 (le_max_right _ _)
    · simp only [if_true]
      exact le_min (hr _ (mul_nonneg h0 (hr _ (by norm_num)))) h2
  · exact h e he

theorem nonnegOk_AddItem_rnd (rnd : ℚ → ℚ) (ws : WeightSystem T) (item : T)
    (opts : List AddItemOption) (hb : BoundsOk ws) (h : NonnegOk ws) :
    NonnegOk (AddItem rnd ws item opts) := by
  unfold AddItem
  split
  · exact h
  · intro e he
    simp only [updateAvgWeight_weights_rnd] at he
    rcases mem_entries_insert _ _ _ _ he with rfl | he
    · exact le_trans (le_trans zero_le_one hb.1) (le_max_right _ _)
    · exact h e he

theorem nonnegOk_RemoveItem_rnd (rnd : ℚ → ℚ) (ws : WeightSystem T) (item : T)
    (h : NonnegOk ws) : NonnegOk (RemoveItem rnd ws item) := by
  unfold RemoveItem
  split
  · exact h
  · intro e he
    simp only [updateAvgWeight_weights_rnd] at he
    exact h e (mem_entries_erase _ _ _ he)

theorem nonnegOk_AddItems_rnd (rnd : ℚ → ℚ) (items : List T) (opts : List AddItemOption) :
    ∀ ws : WeightSystem T, BoundsOk ws → NonnegOk ws →
      NonnegOk (AddItems rnd ws items opts) := by
  induction items with
  | nil => intro ws _ h; exact h
  | cons x xs ih =>
    intro ws hb h
    refine ih (AddItem rnd ws x opts) ?_ (nonnegOk_AddItem_rnd rnd ws x opts hb h)
    unfold BoundsOk
    rw [(AddItem_bounds rnd ws x opts).1, (AddItem_bounds rnd ws x opts).2]
    exact hb

theorem nonnegOk_step_rnd (rnd : ℚ → ℚ) (hr : ∀ x, 0 ≤ x → 0 ≤ rnd x) (ws : WeightSystem T)
    (c : Call T) (hb : BoundsOk ws) (h : NonnegOk ws) : NonnegOk (step rnd ws c) := by
  cases c with
  | addItem item opts => exact nonnegOk_AddItem_rnd rnd ws item opts hb h
  | addItems items opts => exact nonnegOk_AddItems_rnd rnd items opts ws hb h
  | removeItem item => exact nonnegOk_RemoveItem_rnd rnd ws item h
  | adjustWeight item success => exact nonnegOk_AdjustWeight_rnd rnd hr ws item success hb h

theorem nonnegOk_run_rnd (rnd : ℚ → ℚ) (hr : ∀ x, 0 ≤ x → 0 ≤ rnd x) (calls : List (Call T)) :
    ∀ ws : WeightSystem T, BoundsOk ws → NonnegOk ws → NonnegOk (run rnd ws calls) := by
  induction calls with
  | nil => intro ws _ h; exact h
  | cons c cs ih =>
    intro ws hb h
    exact ih (step rnd ws c) (boundsOk_step rnd ws c hb) (nonnegOk_step_rnd rnd hr ws c hb h)

/-- In the rounded model no stored weight of a reachable state is negative,
for every rounding that keeps non-negative numbers non-negative. -/
theorem nonnegOk_reach_rnd (rnd : ℚ → ℚ) (hr : ∀ x, 0 ≤ x → 0 ≤ rnd x) (opts : List NewOption)
    (calls : List (Call T)) : NonnegOk (reach rnd opts calls : WeightSystem T) := by
  refine nonnegOk_run_rnd rnd hr calls _ (boundsOk_New_rnd rnd opts) ?_
  intro e he
  simp [New] at he

end Rounded

/-! ## The scan in the rounded model -/

namespace Rounded

/-- An item returned by the rounded scan is a key of the iteration. -/
theorem scan_mem_keys_rnd (rnd : ℚ → ℚ) (l : List (Sigma fun _ : T => ℚ)) :
    ∀ (r : ℚ) (x : T), scan rnd r l = some x → x ∈ l.keys := by
  induction l with
  | nil => intro r x h; simp [scan] at h
  | cons e rest ih =>
    intro r x h
    unfold scan at h
    by_cases hr : rnd (r - e.2) ≤ 0
    · rw [if_pos hr] at h
      have hx : e.1 = x := Option.some.inj h
      simp [List.keys, hx]
    · rw [if_neg hr] at h
      have := ih _ _ h
      simp only [List.keys, List.map_cons, List.mem_cons]
      exact Or.inr this

/-- With any rounding, `GetItem` on a non-empty map returns one of its keys,
from the first loop or from the code after it. -/
theorem GetItem_mem [Inhabited T] (rnd : ℚ → ℚ) (ws : WeightSystem T)
    (order order2 : List (Sigma fun _ : T => ℚ)) (u : ℚ)
    (hperm : order.Perm ws.weights.entries) (hperm2 : order2.Perm ws.weights.entries)
    (hne : 0 < ws.count) : GetItem rnd ws order order2 u ∈ ws.weights := by
  obtain ⟨_, _, hkeys, _⟩ := order_facts ws order hperm
  obtain ⟨_, _, hkeys2, hlen2⟩ := order_facts ws order2 hperm2
  unfold GetItem
  cases hs : scan rnd (rnd (u * ws.totalWeight)) order with
  | some x => exact hkeys x (scan_mem_keys_rnd rnd order _ _ hs)
  | none =>
    cases order2 with
    | nil =>
      simp at hlen2
      omega
    | cons e rest =>
      exact hkeys2 e.1 (by simp [List.keys])

theorem GetItem_of_scan_rnd [Inhabited T] (rnd : ℚ → ℚ) (ws : WeightSystem T)
    (order order2 : List (Sigma fun _ : T => ℚ)) (u : ℚ) (x : T)
    (h : scan rnd (rnd (u * ws.totalWeight)) order = some x) :
    GetItem rnd ws order order2 u = x := by
  unfold GetItem
  rw [h]

end Rounded

/-- The default system in float64 after adding `"a"` at the float64 `1.1`,
adding `"d"` at 1000 and removing `"d"`: the map holds `"a"` alone, the
total is the float64 1.1000000000000227, and with the largest draw below 1
the first loop of `GetItem` runs to its end. -/
theorem scan_falls_through :
    Snapshot
        (Rounded.reach round64 []
          [Call.addItem "a" [WithWeight (2476979795053773 / 2 ^ 51)],
            Call.addItem "d" [WithWeight 1000], Call.removeItem "d"] : WeightSystem String)
        (AList.insert "a" (2476979795053773 / 2 ^ 51) ∅) 1 1000 (9675702324429 / 2 ^ 43)
      ∧ Rounded.scan round64
          (round64 ((9007199254740991 / 2 ^ 53) * (9675702324429 / 2 ^ 43)))
          ([⟨"a", 2476979795053773 / 2 ^ 51⟩] : List (Sigma fun _ : String => ℚ)) = none := by
  have e1 : round64 (0 + 2476979795053773 / 2 ^ 51) = 2476979795053773 / 2 ^ 51 := by
    rw [round64_eq _ (0) (4953959590107546) (le_abs.mpr (Or.inl (by norm_num)))
      (abs_lt.mpr ⟨by norm_num, by norm_num⟩) (by norm_num)
      (abs_lt.mpr ⟨by norm_num, by norm_num⟩)]
    norm_num
  have e2 : round64 (2476979795053773 / 2 ^ 51 + 1000) = 8805768724532429 / 2 ^ 43 := by
    rw [round64_eq _ (9) (8805768724532429) (le_abs.mpr (Or.inl (by norm_num)))
      (abs_lt.mpr ⟨by norm_num, by norm_num⟩) (by norm_num)
      (abs_lt.mpr ⟨by norm_num, by norm_num⟩)]
    norm_num
  have e3 : round64 (8805768724532429 / 2 ^ 43 - 1000) = 9675702324429 / 2 ^ 43 := by
    rw [round64_eq _ (0) (4953959590107648) (le_abs.mpr (Or.inl (by norm_num)))
      (abs_lt.mpr ⟨by norm_num, by norm_num⟩) (by norm_num)
      (abs_lt.mpr ⟨by norm_num, by norm_num⟩)]
    norm_num
  have e4 : round64 ((9007199254740991 / 2 ^ 53) * (9675702324429 / 2 ^ 43)) = 4953959590107647 / 2 ^ 52 := by
    rw [round64_eq _ (0) (4953959590107647) (le_abs.mpr (Or.inl (by norm_num)))
      (abs_lt.mpr ⟨by norm_num, by norm_num⟩) (by norm_num)
      (abs_lt.mpr ⟨by norm_num, by norm_num⟩)]
    norm_num
  have e5 : round64 (4953959590107647 / 2 ^ 52 - 2476979795053773 / 2 ^ 51) = 101 / 2 ^ 52 := by
    rw [round64_eq _ (-46) (7107243161944064) (le_abs.mpr (Or.inl (by norm_num)))
      (abs_lt.mpr ⟨by norm_num, by norm_num⟩) (by norm_num)
      (abs_lt.mpr ⟨by norm_num, by norm_num⟩)]
    norm_num
  have s0 := Rounded.snapshot_New (T := String) round64
  have s1 := Rounded.snapshot_AddItem round64 _ _ _ _ _ "a" (2476979795053773 / 2 ^ 51)
    (2476979795053773 / 2 ^ 51) s0 (AList.lookup_empty _) (by norm_num)
  rw [e1] at s1
  have s2 := Rounded.snapshot_AddItem round64 _ _ _ _ _ "d" 1000 1000 s1
    ((AList.lookup_insert_ne (by decide)).trans (AList.lookup_empty _)) (by norm_num)
  rw [e2] at s2
  have s3 := Rounded.snapshot_RemoveItem round64 _ _ _ _ _ "d" 1000 s2 (AList.lookup_insert _)
  have hd : "d" ∉ (AList.insert "a" (2476979795053773 / 2 ^ 51 : ℚ) ∅ :
      AList (fun _ : String => ℚ)) := by
    intro h
    rcases (AList.mem_insert _).mp h with h | h
    · exact absurd h (by decide)
    · exact AList.not_mem_empty _ h
  rw [e3, erase_insert_of_not_mem _ _ _ hd] at s3
  refine ⟨s3, ?_⟩
  rw [e4]
  unfold Rounded.scan
  rw [e5, if_neg (by norm_num)]
  rfl

/-- The default system in float64 after adding five items: the total is the
exact sum of the five weights, and with the largest draw below 1 the first
loop of `GetItem`, iterating in the order of insertion, runs to its end. -/
theorem scan_falls_through_five :
    Snapshot
        (Rounded.reach round64 []
          [Call.addItem "a" [WithWeight (3273369261191463 / 2 ^ 42)],
            Call.addItem "b" [WithWeight (2288413550890189 / 2 ^ 42)],
            Call.addItem "c" [WithWeight (8686449722686177 / 2 ^ 43)],
            Call.addItem "d" [WithWeight (5302822320356253 / 2 ^ 43)],
            Call.addItem "e" [WithWeight (2830402241669901 / 2 ^ 42)]] : WeightSystem String)
        (AList.insert "e" (2830402241669901 / 2 ^ 42)
          (AList.insert "d" (5302822320356253 / 2 ^ 43)
          (AList.insert "c" (8686449722686177 / 2 ^ 43)
          (AList.insert "b" (2288413550890189 / 2 ^ 42)
          (AList.insert "a" (3273369261191463 / 2 ^ 42)
          (∅)))))) 1 1000
        (240419079301137 / 2 ^ 36)
      ∧ (240419079301137 / 2 ^ 36 : ℚ)
          = 3273369261191463 / 2 ^ 42 + 2288413550890189 / 2 ^ 42 + 8686449722686177 / 2 ^ 43
            + 5302822320356253 / 2 ^ 43 + 2830402241669901 / 2 ^ 42
      ∧ Rounded.scan round64
          (round64 ((9007199254740991 / 2 ^ 53) * (240419079301137 / 2 ^ 36)))
          ([⟨"a", 3273369261191463 / 2 ^ 42⟩,
            ⟨"b", 2288413550890189 / 2 ^ 42⟩,
            ⟨"c", 8686449722686177 / 2 ^ 43⟩,
            ⟨"d", 5302822320356253 / 2 ^ 43⟩,
            ⟨"e", 2830402241669901 / 2 ^ 42⟩] :
            List (Sigma fun _ : String => ℚ)) = none := by
  have t1 : round64 (0 + 3273369261191463 / 2 ^ 42) = 3273369261191463 / 2 ^ 42 := by
    rw [round64_eq _ (9) (6546738522382926) (le_abs.mpr (Or.inl (by norm_num)))
      (abs_lt.mpr ⟨by norm_num, by norm_num⟩) (by norm_num)
      (abs_lt.mpr ⟨by norm_num, by norm_num⟩)]
    norm_num
  have t2 : round64 (3273369261191463 / 2 ^ 42 + 2288413550890189 / 2 ^ 42) = 1390445703020413 / 2 ^ 40 := by
    rw [round64_eq _ (10) (5561782812081652) (le_abs.mpr (Or.inl (by norm_num)))
      (abs_lt.mpr ⟨by norm_num, by norm_num⟩) (by norm_num)
      (abs_lt.mpr ⟨by norm_num, by norm_num⟩)]
    norm_num
  have t3 : round64 (1390445703020413 / 2 ^ 40 + 8686449722686177 / 2 ^ 43) = 2476251918356185 / 2 ^ 40 := by
    rw [round64_eq _ (11) (4952503836712370) (le_abs.mpr (Or.inl (by norm_num)))
      (abs_lt.mpr ⟨by norm_num, by norm_num⟩) (by norm_num)
      (abs_lt.mpr ⟨by norm_num, by norm_num⟩)]
    norm_num
  have t4 : round64 (2476251918356185 / 2 ^ 40 + 5302822320356253 / 2 ^ 43) = 6278209416801433 / 2 ^ 41 := by
    rw [round64_eq _ (11) (6278209416801433) (le_abs.mpr (Or.inl (by norm_num)))
      (abs_lt.mpr ⟨by norm_num, by norm_num⟩) (by norm_num)
      (abs_lt.mpr ⟨by norm_num, by norm_num⟩)]
    norm_num
  have t5 : round64 (6278209416801433 / 2 ^ 41 + 2830402241669901 / 2 ^ 42) = 240419079301137 / 2 ^ 36 := by
    rw [round64_eq_tie_odd _ (11) (7693410537636383) (le_abs.mpr (Or.inl (by norm_num)))
      (abs_lt.mpr ⟨by norm_num, by norm_num⟩) (by norm_num) (by norm_num) (by norm_num)]
    norm_num
  have r0 : round64 ((9007199254740991 / 2 ^ 53) * (240419079301137 / 2 ^ 36)) = 7693410537636383 / 2 ^ 41 := by
    rw [round64_eq _ (11) (7693410537636383) (le_abs.mpr (Or.inl (by norm_num)))
      (abs_lt.mpr ⟨by norm_num, by norm_num⟩) (by norm_num)
      (abs_lt.mpr ⟨by norm_num, by norm_num⟩)]
    norm_num
  have r1 : round64 (7693410537636383 / 2 ^ 41 - 3273369261191463 / 2 ^ 42) = 1514181476760163 / 2 ^ 39 := by
    rw [round64_eq_tie_odd _ (11) (6056725907040651) (le_abs.mpr (Or.inl (by norm_num)))
      (abs_lt.mpr ⟨by norm_num, by norm_num⟩) (by norm_num) (by norm_num) (by norm_num)]
    norm_num
  have r2 : round64 (1514181476760163 / 2 ^ 39 - 2288413550890189 / 2 ^ 42) = 2456259565797779 / 2 ^ 40 := by
    rw [round64_eq_tie_odd _ (11) (4912519131595557) (le_abs.mpr (Or.inl (by norm_num)))
      (abs_lt.mpr ⟨by norm_num, by norm_num⟩) (by norm_num) (by norm_num) (by norm_num)]
    norm_num
  have r3 : round64 (2456259565797779 / 2 ^ 40 - 8686449722686177 / 2 ^ 43) = 1370453350462007 / 2 ^ 40 := by
    rw [round64_eq_tie_odd _ (10) (5481813401848027) (le_abs.mpr (Or.inl (by norm_num)))
      (abs_lt.mpr ⟨by norm_num, by norm_num⟩) (by norm_num) (by norm_num) (by norm_num)]
    norm_num
  have r4 : round64 (1370453350462007 / 2 ^ 40 - 5302822320356253 / 2 ^ 43) = 5660804483339803 / 2 ^ 43 := by
    rw [round64_eq _ (9) (5660804483339803) (le_abs.mpr (Or.inl (by norm_num)))
      (abs_lt.mpr ⟨by norm_num, by norm_num⟩) (by norm_num)
      (abs_lt.mpr ⟨by norm_num, by norm_num⟩)]
    norm_num
  have r5 : round64 (5660804483339803 / 2 ^ 43 - 2830402241669901 / 2 ^ 42) = 1 / 2 ^ 43 := by
    rw [round64_eq _ (-43) (4503599627370496) (le_abs.mpr (Or.inl (by norm_num)))
      (abs_lt.mpr ⟨by norm_num, by norm_num⟩) (by norm_num)
      (abs_lt.mpr ⟨by norm_num, by norm_num⟩)]
    norm_num
  have s0 := Rounded.snapshot_New (T := String) round64
  have s1 := Rounded.snapshot_AddItem round64 _ _ _ _ _ "a" (3273369261191463 / 2 ^ 42)
    (3273369261191463 / 2 ^ 42) s0
    (AList.lookup_empty _) (by norm_num)
  rw [t1] at s1
  have s2 := Rounded.snapshot_AddItem round64 _ _ _ _ _ "b" (2288413550890189 / 2 ^ 42)
    (2288413550890189 / 2 ^ 42) s1
    (lookup_insert_none _ _ _ _ (by decide) (AList.lookup_empty _)) (by norm_num)
  rw [t2] at s2
  have s3 := Rounded.snapshot_AddItem round64 _ _ _ _ _ "c" (8686449722686177 / 2 ^ 43)
    (8686449722686177 / 2 ^ 43) s2
    (lookup_insert_none _ _ _ _ (by decide) (lookup_insert_none _ _ _ _ (by decide) (AList.lookup_empty _))) (by norm_num)
  rw [t3] at s3
  have s4 := Rounded.snapshot_AddItem round64 _ _ _ _ _ "d" (5302822320356253 / 2 ^ 43)
    (5302822320356253 / 2 ^ 43) s3
    (lookup_insert_none _ _ _ _ (by decide) (lookup_insert_none _ _ _ _ (by decide) (lookup_insert_none _ _ _ _ (by decide) (AList.lookup_empty _)))) (by norm_num)
  rw [t4] at s4
  have s5 := Rounded.snapshot_AddItem round64 _ _ _ _ _ "e" (2830402241669901 / 2 ^ 42)
    (2830402241669901 / 2 ^ 42) s4
    (lookup_insert_none _ _ _ _ (by decide) (lookup_insert_none _ _ _ _ (by decide) (lookup_insert_none _ _ _ _ (by decide) (lookup_insert_none _ _ _ _ (by decide) (AList.lookup_empty _))))) (by norm_num)
  rw [t5] at s5
  refine ⟨s5, by norm_num, ?_⟩
  rw [r0]
  unfold Rounded.scan
  rw [r1, if_neg (by norm_num)]
  unfold Rounded.scan
  rw [r2, if_neg (by norm_num)]
  unfold Rounded.scan
  rw [r3, if_neg (by norm_num)]
  unfold Rounded.scan
  rw [r4, if_neg (by norm_num)]
  unfold Rounded.scan
  rw [r5, if_neg (by norm_num)]
  rfl

/-- The entries of the map of the five items. -/
theorem five_entries :
    (AList.insert "e" (2830402241669901 / 2 ^ 42)
          (AList.insert "d" (5302822320356253 / 2 ^ 43)
          (AList.insert "c" (8686449722686177 / 2 ^ 43)
          (AList.insert "b" (2288413550890189 / 2 ^ 42)
          (AList.insert "a" (3273369261191463 / 2 ^ 42)
          (∅))))) : AList (fun _ : String => ℚ)).entries
      = [⟨"e", 2830402241669901 / 2 ^ 42⟩,
          ⟨"d", 5302822320356253 / 2 ^ 43⟩,
          ⟨"c", 8686449722686177 / 2 ^ 43⟩,
          ⟨"b", 2288413550890189 / 2 ^ 42⟩,
          ⟨"a", 3273369261191463 / 2 ^ 42⟩] := by
  rw [entries_insert_of_lookup_none _ _ _ (lookup_insert_none _ _ _ _ (by decide) (lookup_insert_none _ _ _ _ (by decide) (lookup_insert_none _ _ _ _ (by decide) (lookup_insert_none _ _ _ _ (by decide) (AList.lookup_empty _))))),
    entries_insert_of_lookup_none _ _ _ (lookup_insert_none _ _ _ _ (by decide) (lookup_insert_none _ _ _ _ (by decide) (lookup_insert_none _ _ _ _ (by decide) (AList.lookup_empty _)))),
    entries_insert_of_lookup_none _ _ _ (lookup_insert_none _ _ _ _ (by decide) (lookup_insert_none _ _ _ _ (by decide) (AList.lookup_empty _))),
    entries_insert_of_lookup_none _ _ _ (lookup_insert_none _ _ _ _ (by decide) (AList.lookup_empty _)),
    entries_insert_of_lookup_none _ _ _ (AList.lookup_empty _)]
  rfl

/-- The default system in float64 after adding `"a"` at 1 and `"b"` at 2: the
total is 3, and for the draw `3002399751580331 / 2^53` the rounded product
`u * totalWeight` is 1, so that the scan returns `"a"`, although the exact
product is above 1, the weight of `"a"`. -/
theorem scan_at_boundary_of_product :
    Snapshot
        (Rounded.reach round64 []
          [Call.addItem "a" [WithWeight (1)],
            Call.addItem "b" [WithWeight (2)]] : WeightSystem String)
        (AList.insert "b" (2)
          (AList.insert "a" (1)
          (∅))) 1 1000
        (3)
      ∧ (3 : ℚ) = 1 + 2
      ∧ Rounded.scan round64
          (round64 ((3002399751580331 / 2 ^ 53) * (3)))
          ([⟨"a", 1⟩,
            ⟨"b", 2⟩] :
            List (Sigma fun _ : String => ℚ)) = some "a"
      ∧ ¬ ((3002399751580331 / 2 ^ 53 : ℚ) * 3 ≤ 1) := by
  have t1 : round64 (0 + 1) = 1 := by
    rw [round64_eq _ (0) (4503599627370496) (le_abs.mpr (Or.inl (by norm_num)))
      (abs_lt.mpr ⟨by norm_num, by norm_num⟩) (by norm_num)
      (abs_lt.mpr ⟨by norm_num, by norm_num⟩)]
    norm_num
  have t2 : round64 (1 + 2) = 3 := by
    rw [round64_eq _ (1) (6755399441055744) (le_abs.mpr (Or.inl (by norm_num)))
      (abs_lt.mpr ⟨by norm_num, by norm_num⟩) (by norm_num)
      (abs_lt.mpr ⟨by norm_num, by norm_num⟩)]
    norm_num
  have r0 : round64 ((3002399751580331 / 2 ^ 53) * (3)) = 1 := by
    rw [round64_eq_tie_even _ (0) (4503599627370496) (le_abs.mpr (Or.inl (by norm_num)))
      (abs_lt.mpr ⟨by norm_num, by norm_num⟩) (by norm_num) (by norm_num) (by norm_num)]
    norm_num
  have r1 : round64 (1 - 1) = 0 := by
    have hz : (1 - 1 : ℚ) = 0 := by norm_num
    rw [hz, round64_zero]
  have s0 := Rounded.snapshot_New (T := String) round64
  have s1 := Rounded.snapshot_AddItem round64 _ _ _ _ _ "a" (1)
    (1) s0
    (AList.lookup_empty _) (by norm_num)
  rw [t1] at s1
  have s2 := Rounded.snapshot_AddItem round64 _ _ _ _ _ "b" (2)
    (2) s1
    (lookup_insert_none _ _ _ _ (by decide) (AList.lookup_empty _)) (by norm_num)
  rw [t2] at s2
  refine ⟨s2, by norm_num, ?_, ?_⟩
  · rw [r0]
    unfold Rounded.scan
    rw [r1, if_pos (by norm_num)]
  · norm_num

/-- The default system in float64 after adding `"a"`, `"b"`, `"c"` at the
float64 values `1.7`, `2.2`, `1.3`: the total is their exact sum, and for the
draw 3/4 the scan returns `"b"`, although the rounded product
`u * totalWeight` is above the sum of the weights of `"a"` and `"b"`. -/
theorem scan_at_boundary_of_difference :
    Snapshot
        (Rounded.reach round64 []
          [Call.addItem "a" [WithWeight (7656119366529843 / 2 ^ 52)],
            Call.addItem "b" [WithWeight (2476979795053773 / 2 ^ 50)],
            Call.addItem "c" [WithWeight (5854679515581645 / 2 ^ 52)]] : WeightSystem String)
        (AList.insert "c" (5854679515581645 / 2 ^ 52)
          (AList.insert "b" (2476979795053773 / 2 ^ 50)
          (AList.insert "a" (7656119366529843 / 2 ^ 52)
          (∅)))) 1 1000
        (5854679515581645 / 2 ^ 50)
      ∧ (5854679515581645 / 2 ^ 50 : ℚ) = 7656119366529843 / 2 ^ 52 + 2476979795053773 / 2 ^ 50 + 5854679515581645 / 2 ^ 52
      ∧ Rounded.scan round64
          (round64 ((3 / 2 ^ 2) * (5854679515581645 / 2 ^ 50)))
          ([⟨"a", 7656119366529843 / 2 ^ 52⟩,
            ⟨"b", 2476979795053773 / 2 ^ 50⟩,
            ⟨"c", 5854679515581645 / 2 ^ 52⟩] :
            List (Sigma fun _ : String => ℚ)) = some "b"
      ∧ round64 ((3 / 2 ^ 2) * (5854679515581645 / 2 ^ 50)) = 2195504818343117 / 2 ^ 49
      ∧ ¬ ((2195504818343117 / 2 ^ 49 : ℚ) ≤ 7656119366529843 / 2 ^ 52 + 2476979795053773 / 2 ^ 50) := by
  have t1 : round64 (0 + 7656119366529843 / 2 ^ 52) = 7656119366529843 / 2 ^ 52 := by
    rw [round64_eq _ (0) (7656119366529843) (le_abs.mpr (Or.inl (by norm_num)))
      (abs_lt.mpr ⟨by norm_num, by norm_num⟩) (by norm_num)
      (abs_lt.mpr ⟨by norm_num, by norm_num⟩)]
    norm_num
  have t2 : round64 (7656119366529843 / 2 ^ 52 + 2476979795053773 / 2 ^ 50) = 2195504818343117 / 2 ^ 49 := by
    rw [round64_eq_tie_odd _ (1) (8782019273372467) (le_abs.mpr (Or.inl (by norm_num)))
      (abs_lt.mpr ⟨by norm_num, by norm_num⟩) (by norm_num) (by norm_num) (by norm_num)]
    norm_num
  have t3 : round64 (2195504818343117 / 2 ^ 49 + 5854679515581645 / 2 ^ 52) = 5854679515581645 / 2 ^ 50 := by
    rw [round64_eq _ (2) (5854679515581645) (le_abs.mpr (Or.inl (by norm_num)))
      (abs_lt.mpr ⟨by norm_num, by norm_num⟩) (by norm_num)
      (abs_lt.mpr ⟨by norm_num, by norm_num⟩)]
    norm_num
  have r0 : round64 ((3 / 2 ^ 2) * (5854679515581645 / 2 ^ 50)) = 2195504818343117 / 2 ^ 49 := by
    rw [round64_eq_tie_odd _ (1) (8782019273372467) (le_abs.mpr (Or.inl (by norm_num)))
      (abs_lt.mpr ⟨by norm_num, by norm_num⟩) (by norm_num) (by norm_num) (by norm_num)]
    norm_num
  have r1 : round64 (2195504818343117 / 2 ^ 49 - 7656119366529843 / 2 ^ 52) = 2476979795053773 / 2 ^ 50 := by
    rw [round64_eq_tie_even _ (1) (4953959590107546) (le_abs.mpr (Or.inl (by norm_num)))
      (abs_lt.mpr ⟨by norm_num, by norm_num⟩) (by norm_num) (by norm_num) (by norm_num)]
    norm_num
  have r2 : round64 (2476979795053773 / 2 ^ 50 - 2476979795053773 / 2 ^ 50) = 0 := by
    have hz : (2476979795053773 / 2 ^ 50 - 2476979795053773 / 2 ^ 50 : ℚ) = 0 := by norm_num
    rw [hz, round64_zero]
  have s0 := Rounded.snapshot_New (T := String) round64
  have s1 := Rounded.snapshot_AddItem round64 _ _ _ _ _ "a" (7656119366529843 / 2 ^ 52)
    (7656119366529843 / 2 ^ 52) s0
    (AList.lookup_empty _) (by norm_num)
  rw [t1] at s1
  have s2 := Rounded.snapshot_AddItem round64 _ _ _ _ _ "b" (2476979795053773 / 2 ^ 50)
    (2476979795053773 / 2 ^ 50) s1
    (lookup_insert_none _ _ _ _ (by decide) (AList.lookup_empty _)) (by norm_num)
  rw [t2] at s2
  have s3 := Rounded.snapshot_AddItem round64 _ _ _ _ _ "c" (5854679515581645 / 2 ^ 52)
    (5854679515581645 / 2 ^ 52) s2
    (lookup_insert_none _ _ _ _ (by decide) (lookup_insert_none _ _ _ _ (by decide) (AList.lookup_empty _))) (by norm_num)
  rw [t3] at s3
  refine ⟨s3, by norm_num, ?_, ?_⟩
  · rw [r0]
    unfold Rounded.scan
    rw [r1, if_neg (by norm_num)]
    unfold Rounded.scan
    rw [r2, if_pos (by norm_num)]
  · exact ⟨r0, by norm_num⟩

namespace Rounded

theorem state_New_default (rnd : ℚ → ℚ) :
    (New rnd [] : WeightSystem T) = ⟨∅, 1, 1000, 0, rnd (rnd (1 + 1000) / 2)⟩ := by
  unfold New updateAvgWeight
  simp

theorem state_New_max (rnd : ℚ → ℚ) (mx0 mx : ℚ) (hmx : max 1 mx0 = mx) :
    (New rnd [WithMaxWeight mx0] : WeightSystem T)
      = ⟨∅, 1, mx, 0, rnd (rnd (1 + mx) / 2)⟩ := by
  unfold New updateAvgWeight
  simp [WithMaxWeight, hmx]

/-- The state after `AddItem` without options on an absent item, from the
five fields of the state before. -/
theorem state_AddItem_default (rnd : ℚ → ℚ) (m : AList (fun _ : T => ℚ))
    (mn mx t a : ℚ) (item : T) (c : ℚ) (n : ℕ) (k : ℚ) (habs : m.lookup item = none)
    (hc : max (min a mx) mn = c) (hn : m.entries.length = n) (hk : (n : ℚ) + 1 = k) :
    AddItem rnd ⟨m, mn, mx, t, a⟩ item []
      = ⟨m.insert item c, mn, mx, rnd (t + c), rnd (rnd (t + c) / k)⟩ := by
  have hlen : (m.insert item c).entries.length = n + 1 := by
    rw [length_insert_of_not_mem _ _ _ habs, hn]
  unfold AddItem updateAvgWeight
  simp only [habs, Option.isSome_none, Bool.false_eq_true, if_false, List.foldl_nil, hc,
    AList.lookup_insert, Option.getD_some, hlen, gt_iff_lt, Nat.succ_pos, if_true]
  rw [← hk]
  push_cast
  rfl

end Rounded

/-- In float64, `AddItems` of `"a"`, `"b"`, `"c"`, `"d"` on the system built with
the upper bound `1.7` (as a float64): the state reached. -/
theorem addItems_drift :
    Rounded.AddItems round64 (Rounded.New round64 [WithMaxWeight (7656119366529843 / 2 ^ 52)] : WeightSystem String)
        ["a", "b", "c", "d"] []
      = (⟨AList.insert "d" (6079859496950171 / 2 ^ 52)
          (AList.insert "c" (3039929748475085 / 2 ^ 51)
          (AList.insert "b" (3039929748475085 / 2 ^ 51)
          (AList.insert "a" (3039929748475085 / 2 ^ 51)
          (∅)))),
          1, 7656119366529843 / 2 ^ 52, 6079859496950171 / 2 ^ 50,
          6079859496950171 / 2 ^ 52⟩ : WeightSystem String) := by
  have a0s : round64 (1 + 7656119366529843 / 2 ^ 52) = 3039929748475085 / 2 ^ 50 := by
    rw [round64_eq_tie_odd _ (1) (6079859496950169) (le_abs.mpr (Or.inl (by norm_num)))
      (abs_lt.mpr ⟨by norm_num, by norm_num⟩) (by norm_num) (by norm_num) (by norm_num)]
    norm_num
  have a0 : round64 (3039929748475085 / 2 ^ 50 / 2) = 3039929748475085 / 2 ^ 51 := by
    rw [round64_eq _ (0) (6079859496950170) (le_abs.mpr (Or.inl (by norm_num)))
      (abs_lt.mpr ⟨by norm_num, by norm_num⟩) (by norm_num)
      (abs_lt.mpr ⟨by norm_num, by norm_num⟩)]
    norm_num
  have t1 : round64 (0 + 3039929748475085 / 2 ^ 51) = 3039929748475085 / 2 ^ 51 := by
    rw [round64_eq _ (0) (6079859496950170) (le_abs.mpr (Or.inl (by norm_num)))
      (abs_lt.mpr ⟨by norm_num, by norm_num⟩) (by norm_num)
      (abs_lt.mpr ⟨by norm_num, by norm_num⟩)]
    norm_num
  have a1 : round64 (3039929748475085 / 2 ^ 51 / 1) = 3039929748475085 / 2 ^ 51 := by
    rw [round64_eq _ (0) (6079859496950170) (le_abs.mpr (Or.inl (by norm_num)))
      (abs_lt.mpr ⟨by norm_num, by norm_num⟩) (by norm_num)
      (abs_lt.mpr ⟨by norm_num, by norm_num⟩)]
    norm_num
  have t2 : round64 (3039929748475085 / 2 ^ 51 + 3039929748475085 / 2 ^ 51) = 3039929748475085 / 2 ^ 50 := by
    rw [round64_eq _ (1) (6079859496950170) (le_abs.mpr (Or.inl (by norm_num)))
      (abs_lt.mpr ⟨by norm_num, by norm_num⟩) (by norm_num)
      (abs_lt.mpr ⟨by norm_num, by norm_num⟩)]
    norm_num
  have a2 : round64 (3039929748475085 / 2 ^ 50 / 2) = 3039929748475085 / 2 ^ 51 := by
    rw [round64_eq _ (0) (6079859496950170) (le_abs.mpr (Or.inl (by norm_num)))
      (abs_lt.mpr ⟨by norm_num, by norm_num⟩) (by norm_num)
      (abs_lt.mpr ⟨by norm_num, by norm_num⟩)]
    norm_num
  have t3 : round64 (3039929748475085 / 2 ^ 50 + 3039929748475085 / 2 ^ 51) = 1139973655678157 / 2 ^ 48 := by
    rw [round64_eq_tie_odd _ (2) (4559894622712627) (le_abs.mpr (Or.inl (by norm_num)))
      (abs_lt.mpr ⟨by norm_num, by norm_num⟩) (by norm_num) (by norm_num) (by norm_num)]
    norm_num
  have a3 : round64 (1139973655678157 / 2 ^ 48 / 3) = 6079859496950171 / 2 ^ 52 := by
    rw [round64_eq _ (0) (6079859496950171) (le_abs.mpr (Or.inl (by norm_num)))
      (abs_lt.mpr ⟨by norm_num, by norm_num⟩) (by norm_num)
      (abs_lt.mpr ⟨by norm_num, by norm_num⟩)]
    norm_num
  have t4 : round64 (1139973655678157 / 2 ^ 48 + 6079859496950171 / 2 ^ 52) = 6079859496950171 / 2 ^ 50 := by
    rw [round64_eq _ (2) (6079859496950171) (le_abs.mpr (Or.inl (by norm_num)))
      (abs_lt.mpr ⟨by norm_num, by norm_num⟩) (by norm_num)
      (abs_lt.mpr ⟨by norm_num, by norm_num⟩)]
    norm_num
  have a4 : round64 (6079859496950171 / 2 ^ 50 / 4) = 6079859496950171 / 2 ^ 52 := by
    rw [round64_eq _ (0) (6079859496950171) (le_abs.mpr (Or.inl (by norm_num)))
      (abs_lt.mpr ⟨by norm_num, by norm_num⟩) (by norm_num)
      (abs_lt.mpr ⟨by norm_num, by norm_num⟩)]
    norm_num
  have st0 : (Rounded.New round64 [WithMaxWeight (7656119366529843 / 2 ^ 52)] : WeightSystem String)
      = ⟨∅, 1, 7656119366529843 / 2 ^ 52, 0, 3039929748475085 / 2 ^ 51⟩ := by
    rw [Rounded.state_New_max round64 _ (7656119366529843 / 2 ^ 52) (by norm_num), a0s, a0]
  have st1 : (Rounded.AddItem round64 ((Rounded.New round64 [WithMaxWeight (7656119366529843 / 2 ^ 52)] : WeightSystem String)) "a" [])
      = (⟨AList.insert "a" (3039929748475085 / 2 ^ 51)
          (∅),
          1, 7656119366529843 / 2 ^ 52, 3039929748475085 / 2 ^ 51,
          3039929748475085 / 2 ^ 51⟩ : WeightSystem String) := by
    rw [st0, Rounded.state_AddItem_default round64 _ _ _ _ _ "a" (3039929748475085 / 2 ^ 51) 0 1
      (AList.lookup_empty _) (by norm_num) rfl (by norm_num), t1, a1]
  have len1 : (AList.insert "a" (3039929748475085 / 2 ^ 51)
          (∅) : AList (fun _ : String => ℚ)).entries.length = 1 := by
    rw [length_insert_of_not_mem _ _ _ (AList.lookup_empty _)]
    rfl
  have st2 : (Rounded.AddItem round64 (Rounded.AddItem round64 ((Rounded.New round64 [WithMaxWeight (7656119366529843 / 2 ^ 52)] : WeightSystem String)) "a" []) "b" [])
      = (⟨AList.insert "b" (3039929748475085 / 2 ^ 51)
          (AList.insert "a" (3039929748475085 / 2 ^ 51)
          (∅)),
          1, 7656119366529843 / 2 ^ 52, 3039929748475085 / 2 ^ 50,
          3039929748475085 / 2 ^ 51⟩ : WeightSystem String) := by
    rw [st1, Rounded.state_AddItem_default round64 _ _ _ _ _ "b" (3039929748475085 / 2 ^ 51) 1 2
      (lookup_insert_none _ _ _ _ (by decide) (AList.lookup_empty _)) (by norm_num) len1 (by norm_num), t2, a2]
  have len2 : (AList.insert "b" (3039929748475085 / 2 ^ 51)
          (AList.insert "a" (3039929748475085 / 2 ^ 51)
          (∅)) : AList (fun _ : String => ℚ)).entries.length = 2 := by
    rw [length_insert_of_not_mem _ _ _ (lookup_insert_none _ _ _ _ (by decide) (AList.lookup_empty _)), len1]
  have st3 : (Rounded.AddItem round64 (Rounded.AddItem round64 (Rounded.AddItem round64 ((Rounded.New round64 [WithMaxWeight (7656119366529843 / 2 ^ 52)] : WeightSystem String)) "a" []) "b" []) "c" [])
      = (⟨AList.insert "c" (3039929748475085 / 2 ^ 51)
          (AList.insert "b" (3039929748475085 / 2 ^ 51)
          (AList.insert "a" (3039929748475085 / 2 ^ 51)
          (∅))),
          1, 7656119366529843 / 2 ^ 52, 1139973655678157 / 2 ^ 48,
          6079859496950171 / 2 ^ 52⟩ : WeightSystem String) := by
    rw [st2, Rounded.state_AddItem_default round64 _ _ _ _ _ "c" (3039929748475085 / 2 ^ 51) 2 3
      (lookup_insert_none _ _ _ _ (by decide) (lookup_insert_none _ _ _ _ (by decide) (AList.lookup_empty _))) (by norm_num) len2 (by norm_num), t3, a3]
  have len3 : (AList.insert "c" (3039929748475085 / 2 ^ 51)
          (AList.insert "b" (3039929748475085 / 2 ^ 51)
          (AList.insert "a" (3039929748475085 / 2 ^ 51)
          (∅))) : AList (fun _ : String => ℚ)).entries.length = 3 := by
    rw [length_insert_of_not_mem _ _ _ (lookup_insert_none _ _ _ _ (by decide) (lookup_insert_none _ _ _ _ (by decide) (AList.lookup_empty _))), len2]
  have st4 : (Rounded.AddItem round64 (Rounded.AddItem round64 (Rounded.AddItem round64 (Rounded.AddItem round64 ((Rounded.New round64 [WithMaxWeight (7656119366529843 / 2 ^ 52)] : WeightSystem String)) "a" []) "b" []) "c" []) "d" [])
      = (⟨AList.insert "d" (6079859496950171 / 2 ^ 52)
          (AList.insert "c" (3039929748475085 / 2 ^ 51)
          (AList.insert "b" (3039929748475085 / 2 ^ 51)
          (AList.insert "a" (3039929748475085 / 2 ^ 51)
          (∅)))),
          1, 7656119366529843 / 2 ^ 52, 6079859496950171 / 2 ^ 50,
          6079859496950171 / 2 ^ 52⟩ : WeightSystem String) := by
    rw [st3, Rounded.state_AddItem_default round64 _ _ _ _ _ "d" (6079859496950171 / 2 ^ 52) 3 4
      (lookup_insert_none _ _ _ _ (by decide) (lookup_insert_none _ _ _ _ (by decide) (lookup_insert_none _ _ _ _ (by decide) (AList.lookup_empty _)))) (by norm_num) len3 (by norm_num), t4, a4]
  have len4 : (AList.insert "d" (6079859496950171 / 2 ^ 52)
          (AList.insert "c" (3039929748475085 / 2 ^ 51)
          (AList.insert "b" (3039929748475085 / 2 ^ 51)
          (AList.insert "a" (3039929748475085 / 2 ^ 51)
          (∅)))) : AList (fun _ : String => ℚ)).entries.length = 4 := by
    rw [length_insert_of_not_mem _ _ _ (lookup_insert_none _ _ _ _ (by decide) (lookup_insert_none _ _ _ _ (by decide) (lookup_insert_none _ _ _ _ (by decide) (AList.lookup_empty _)))), len3]
  exact st4

/-- In float64, `AddItems` of `"a"`, `"b"`, `"c"` on the default system: the
state reached. -/
theorem addItems_default_float64 :
    Rounded.AddItems round64 (Rounded.New round64 [] : WeightSystem String)
        ["a", "b", "c"] []
      = (⟨AList.insert "c" (1001 / 2)
          (AList.insert "b" (1001 / 2)
          (AList.insert "a" (1001 / 2)
          (∅))),
          1, 1000, 3003 / 2,
          1001 / 2⟩ : WeightSystem String) := by
  have a0s : round64 (1 + 1000) = 1001 := by
    rw [round64_eq _ (9) (8804889115230208) (le_abs.mpr (Or.inl (by norm_num)))
      (abs_lt.mpr ⟨by norm_num, by norm_num⟩) (by norm_num)
      (abs_lt.mpr ⟨by norm_num, by norm_num⟩)]
    norm_num
  have a0 : round64 (1001 / 2) = 1001 / 2 := by
    rw [round64_eq _ (8) (8804889115230208) (le_abs.mpr (Or.inl (by norm_num)))
      (abs_lt.mpr ⟨by norm_num, by norm_num⟩) (by norm_num)
      (abs_lt.mpr ⟨by norm_num, by norm_num⟩)]
    norm_num
  have t1 : round64 (0 + 1001 / 2) = 1001 / 2 := by
    rw [round64_eq _ (8) (8804889115230208) (le_abs.mpr (Or.inl (by norm_num)))
      (abs_lt.mpr ⟨by norm_num, by norm_num⟩) (by norm_num)
      (abs_lt.mpr ⟨by norm_num, by norm_num⟩)]
    norm_num
  have a1 : round64 (1001 / 2 / 1) = 1001 / 2 := by
    rw [round64_eq _ (8) (8804889115230208) (le_abs.mpr (Or.inl (by norm_num)))
      (abs_lt.mpr ⟨by norm_num, by norm_num⟩) (by norm_num)
      (abs_lt.mpr ⟨by norm_num, by norm_num⟩)]
    norm_num
  have t2 : round64 (1001 / 2 + 1001 / 2) = 1001 := by
    rw [round64_eq _ (9) (8804889115230208) (le_abs.mpr (Or.inl (by norm_num)))
      (abs_lt.mpr ⟨by norm_num, by norm_num⟩) (by norm_num)
      (abs_lt.mpr ⟨by norm_num, by norm_num⟩)]
    norm_num
  have a2 : round64 (1001 / 2) = 1001 / 2 := by
    rw [round64_eq _ (8) (8804889115230208) (le_abs.mpr (Or.inl (by norm_num)))
      (abs_lt.mpr ⟨by norm_num, by norm_num⟩) (by norm_num)
      (abs_lt.mpr ⟨by norm_num, by norm_num⟩)]
    norm_num
  have t3 : round64 (1001 + 1001 / 2) = 3003 / 2 := by
    rw [round64_eq _ (10) (6603666836422656) (le_abs.mpr (Or.inl (by norm_num)))
      (abs_lt.mpr ⟨by norm_num, by norm_num⟩) (by norm_num)
      (abs_lt.mpr ⟨by norm_num, by norm_num⟩)]
    norm_num
  have a3 : round64 (3003 / 2 / 3) = 1001 / 2 := by
    rw [round64_eq _ (8) (8804889115230208) (le_abs.mpr (Or.inl (by norm_num)))
      (abs_lt.mpr ⟨by norm_num, by norm_num⟩) (by norm_num)
      (abs_lt.mpr ⟨by norm_num, by norm_num⟩)]
    norm_num
  have st0 : (Rounded.New round64 [] : WeightSystem String)
      = ⟨∅, 1, 1000, 0, 1001 / 2⟩ := by
    rw [Rounded.state_New_default round64, a0s, a0]
  have st1 : (Rounded.AddItem round64 ((Rounded.New round64 [] : WeightSystem String)) "a" [])
      = (⟨AList.insert "a" (1001 / 2)
          (∅),
          1, 1000, 1001 / 2,
          1001 / 2⟩ : WeightSystem String) := by
    rw [st0, Rounded.state_AddItem_default round64 _ _ _ _ _ "a" (1001 / 2) 0 1
      (AList.lookup_empty _) (by norm_num) rfl (by norm_num), t1, a1]
  have len1 : (AList.insert "a" (1001 / 2)
          (∅) : AList (fun _ : String => ℚ)).entries.length = 1 := by
    rw [length_insert_of_not_mem _ _ _ (AList.lookup_empty _)]
    rfl
  have st2 : (Rounded.AddItem round64 (Rounded.AddItem round64 ((Rounded.New round64 [] : WeightSystem String)) "a" []) "b" [])
      = (⟨AList.insert "b" (1001 / 2)
          (AList.insert "a" (1001 / 2)
          (∅)),
          1, 1000, 1001,
          1001 / 2⟩ : WeightSystem String) := by
    rw [st1, Rounded.state_AddItem_default round64 _ _ _ _ _ "b" (1001 / 2) 1 2
      (lookup_insert_none _ _ _ _ (by decide) (AList.lookup_empty _)) (by norm_num) len1 (by norm_num), t2, a2]
  have len2 : (AList.insert "b" (1001 / 2)
          (AList.insert "a" (1001 / 2)
          (∅)) : AList (fun _ : String => ℚ)).entries.length = 2 := by
    rw [length_insert_of_not_mem _ _ _ (lookup_insert_none _ _ _ _ (by decide) (AList.lookup_empty _)), len1]
  have st3 : (Rounded.AddItem round64 (Rounded.AddItem round64 (Rounded.AddItem round64 ((Rounded.New round64 [] : WeightSystem String)) "a" []) "b" []) "c" [])
      = (⟨AList.insert "c" (1001 / 2)
          (AList.insert "b" (1001 / 2)
          (AList.insert "a" (1001 / 2)
          (∅))),
          1, 1000, 3003 / 2,
          1001 / 2⟩ : WeightSystem String) := by
    rw [st2, Rounded.state_AddItem_default round64 _ _ _ _ _ "c" (1001 / 2) 2 3
      (lookup_insert_none _ _ _ _ (by decide) (lookup_insert_none _ _ _ _ (by decide) (AList.lookup_empty _))) (by norm_num) len2 (by norm_num), t3, a3]
  have len3 : (AList.insert "c" (1001 / 2)
          (AList.insert "b" (1001 / 2)
          (AList.insert "a" (1001 / 2)
          (∅))) : AList (fun _ : String => ℚ)).entries.length = 3 := by
    rw [length_insert_of_not_mem _ _ _ (lookup_insert_none _ _ _ _ (by decide) (lookup_insert_none _ _ _ _ (by decide) (AList.lookup_empty _))), len2]
  exact st3

/-! ## The claims that rounding decides

In float64 the total is maintained by rounded additions and subtractions and
the scan of `GetItem` subtracts with rounding.  The four theorems that follow
evaluate the rounded model at concrete inputs; the amended claims are proved
after them. -/

/-- The middle of the bounds 1 and `1.7`, computed in float64, is the float64
`1.35`. -/
theorem round64_middle_of_bounds :
    round64 (round64 (1 + 7656119366529843 / 2 ^ 52) / 2) = 3039929748475085 / 2 ^ 51 := by
  have h1 : round64 (1 + 7656119366529843 / 2 ^ 52) = 3039929748475085 / 2 ^ 50 := by
    rw [round64_eq_tie_odd _ (1) (6079859496950169) (le_abs.mpr (Or.inl (by norm_num)))
      (abs_lt.mpr ⟨by norm_num, by norm_num⟩) (by norm_num) (by norm_num) (by norm_num)]
    norm_num
  have h2 : round64 (3039929748475085 / 2 ^ 50 / 2) = 3039929748475085 / 2 ^ 51 := by
    rw [round64_eq _ (0) (6079859496950170) (le_abs.mpr (Or.inl (by norm_num)))
      (abs_lt.mpr ⟨by norm_num, by norm_num⟩) (by norm_num)
      (abs_lt.mpr ⟨by norm_num, by norm_num⟩)]
    norm_num
  rw [h1, h2]

/-- The entries of a state whose snapshot is known. -/
theorem entries_of_snapshot (ws : WeightSystem T) (m : AList (fun _ : T => ℚ))
    (mn mx t : ℚ) (l : List (Sigma fun _ : T => ℚ)) (hs : Snapshot ws m mn mx t)
    (hl : m.entries = l) :
    ws.weights.entries = l ∧ ws.count = l.length ∧ ws.totalWeight = t
      ∧ (t = (l.map (fun e => e.2)).sum → TotalOk ws) := by
  obtain ⟨h1, _, _, h4⟩ := hs
  subst h1 h4
  refine ⟨hl, by unfold count; rw [hl], rfl, fun h => ?_⟩
  unfold TotalOk sumWeights
  rw [hl]
  exact h

/-- C12 (as stated, fails in float64): two reachable systems with positive
weights whose total is the exact sum of the weights.  With `"a"` at 1 and
`"b"` at 2 and the draw `3002399751580331 / 2^53`, `GetItem` returns the
first item `"a"` although the exact product `u * totalWeight` is above its
weight.  With `"a"`, `"b"`, `"c"` at the float64 values `1.7`, `2.2`, `1.3` and
the draw 3/4, `GetItem` returns the second item `"b"` although the product it
computes is above the sum of the first two weights. -/
theorem C12_GetItem_float64_boundary :
    ((∀ e ∈ oneAndTwo.weights.entries, 0 < e.2) ∧ TotalOk oneAndTwo
        ∧ List.Perm [⟨"a", 1⟩, ⟨"b", 2⟩] oneAndTwo.weights.entries
        ∧ ¬ (Rounded.GetItem round64 oneAndTwo [⟨"a", 1⟩, ⟨"b", 2⟩] [⟨"a", 1⟩, ⟨"b", 2⟩]
                (3002399751580331 / 2 ^ 53) = "a"
              ↔ 0 ≤ (3002399751580331 / 2 ^ 53) * oneAndTwo.totalWeight
                ∧ (3002399751580331 / 2 ^ 53) * oneAndTwo.totalWeight
                  ≤ prefixSum ([⟨"a", 1⟩, ⟨"b", 2⟩] :
                      List (Sigma fun _ : String => ℚ)) 1))
      ∧ ((∀ e ∈ threeItems.weights.entries, 0 < e.2) ∧ TotalOk threeItems
        ∧ List.Perm
            [⟨"a", 7656119366529843 / 2 ^ 52⟩, ⟨"b", 2476979795053773 / 2 ^ 50⟩, ⟨"c", 5854679515581645 / 2 ^ 52⟩]
            threeItems.weights.entries
        ∧ ¬ (Rounded.GetItem round64 threeItems
                [⟨"a", 7656119366529843 / 2 ^ 52⟩, ⟨"b", 2476979795053773 / 2 ^ 50⟩, ⟨"c", 5854679515581645 / 2 ^ 52⟩]
                [⟨"a", 7656119366529843 / 2 ^ 52⟩, ⟨"b", 2476979795053773 / 2 ^ 50⟩, ⟨"c", 5854679515581645 / 2 ^ 52⟩]
                (3 / 2 ^ 2) = "b"
              ↔ prefixSum
                    ([⟨"a", 7656119366529843 / 2 ^ 52⟩, ⟨"b", 2476979795053773 / 2 ^ 50⟩, ⟨"c", 5854679515581645 / 2 ^ 52⟩] :
                      List (Sigma fun _ : String => ℚ)) 1
                  < round64 ((3 / 2 ^ 2) * threeItems.totalWeight)
                ∧ round64 ((3 / 2 ^ 2) * threeItems.totalWeight)
                  ≤ prefixSum
                    ([⟨"a", 7656119366529843 / 2 ^ 52⟩, ⟨"b", 2476979795053773 / 2 ^ 50⟩, ⟨"c", 5854679515581645 / 2 ^ 52⟩] :
                      List (Sigma fun _ : String => ℚ)) 2)) := by
  constructor
  · obtain ⟨sA, hsum, hscan, hnot⟩ := scan_at_boundary_of_product
    have hent : (AList.insert "b" (2) (AList.insert "a" (1) (∅)) :
        AList (fun _ : String => ℚ)).entries = [⟨"b", 2⟩, ⟨"a", 1⟩] := by
      rw [entries_insert_of_lookup_none _ _ _ (lookup_insert_none _ _ _ _ (by decide) (AList.lookup_empty _)), entries_insert_of_lookup_none _ _ _ (AList.lookup_empty _)]
      rfl
    obtain ⟨he, _, ht, hT⟩ := entries_of_snapshot oneAndTwo _ _ _ _ _ sA hent
    refine ⟨?_, hT (by norm_num), ?_, ?_⟩
    · rw [he]
      intro e hm
      simp only [List.mem_cons, List.mem_singleton, List.not_mem_nil, or_false] at hm
      rcases hm with rfl | rfl <;> norm_num
    · rw [he]
      exact List.Perm.swap _ _ _
    · intro h
      have hG : Rounded.GetItem round64 oneAndTwo [⟨"a", 1⟩, ⟨"b", 2⟩] [⟨"a", 1⟩, ⟨"b", 2⟩]
          (3002399751580331 / 2 ^ 53) = "a" :=
        Rounded.GetItem_of_scan_rnd round64 _ _ _ _ _ (by rw [ht]; exact hscan)
      have h2 := (h.mp hG).2
      rw [ht] at h2
      have hp : prefixSum ([⟨"a", 1⟩, ⟨"b", 2⟩] : List (Sigma fun _ : String => ℚ)) 1 = 1 := by
        simp [prefixSum]
      rw [hp] at h2
      exact hnot h2
  · obtain ⟨sB, hsum, hscan, hr0, hnot⟩ := scan_at_boundary_of_difference
    have hent : (AList.insert "c" (5854679515581645 / 2 ^ 52) (AList.insert "b" (2476979795053773 / 2 ^ 50) (AList.insert "a" (7656119366529843 / 2 ^ 52) (∅))) :
        AList (fun _ : String => ℚ)).entries
        = [⟨"c", 5854679515581645 / 2 ^ 52⟩, ⟨"b", 2476979795053773 / 2 ^ 50⟩, ⟨"a", 7656119366529843 / 2 ^ 52⟩] := by
      rw [entries_insert_of_lookup_none _ _ _ (lookup_insert_none _ _ _ _ (by decide) (lookup_insert_none _ _ _ _ (by decide) (AList.lookup_empty _))), entries_insert_of_lookup_none _ _ _ (lookup_insert_none _ _ _ _ (by decide) (AList.lookup_empty _)), entries_insert_of_lookup_none _ _ _ (AList.lookup_empty _)]
      rfl
    obtain ⟨he, _, ht, hT⟩ := entries_of_snapshot threeItems _ _ _ _ _ sB hent
    refine ⟨?_, hT (by norm_num), ?_, ?_⟩
    · rw [he]
      intro e hm
      simp only [List.mem_cons, List.mem_singleton, List.not_mem_nil, or_false] at hm
      rcases hm with rfl | rfl | rfl <;> norm_num
    · rw [he]
      exact List.reverse_perm
        ([⟨"c", 5854679515581645 / 2 ^ 52⟩, ⟨"b", 2476979795053773 / 2 ^ 50⟩, ⟨"a", 7656119366529843 / 2 ^ 52⟩] :
          List (Sigma fun _ : String => ℚ))
    · intro h
      have hG : Rounded.GetItem round64 threeItems
          [⟨"a", 7656119366529843 / 2 ^ 52⟩, ⟨"b", 2476979795053773 / 2 ^ 50⟩, ⟨"c", 5854679515581645 / 2 ^ 52⟩]
          [⟨"a", 7656119366529843 / 2 ^ 52⟩, ⟨"b", 2476979795053773 / 2 ^ 50⟩, ⟨"c", 5854679515581645 / 2 ^ 52⟩]
          (3 / 2 ^ 2) = "b" :=
        Rounded.GetItem_of_scan_rnd round64 _ _ _ _ _ (by rw [ht]; exact hscan)
      have h2 := (h.mp hG).2
      rw [ht, hr0] at h2
      have hp : prefixSum ([⟨"a", 7656119366529843 / 2 ^ 52⟩, ⟨"b", 2476979795053773 / 2 ^ 50⟩, ⟨"c", 5854679515581645 / 2 ^ 52⟩] :
          List (Sigma fun _ : String => ℚ)) 2
          = 7656119366529843 / 2 ^ 52 + 2476979795053773 / 2 ^ 50 := by
        simp [prefixSum]
      rw [hp] at h2
      exact hnot h2

/-- C13 (as stated, fails in float64): in the reachable system that holds
`"a"` alone, and in the reachable system of five items whose total is the
exact sum of its weights, the first loop of `GetItem` with the largest draw
below 1 runs to its end without returning, so that the code after the loop
runs. -/
theorem C13_GetItem_float64_fallback :
    ((0 : ℚ) ≤ 9007199254740991 / 2 ^ 53 ∧ (9007199254740991 / 2 ^ 53 : ℚ) < 1)
      ∧ (0 < oneItemDrifted.count ∧ NonnegOk oneItemDrifted
        ∧ List.Perm [⟨"a", 2476979795053773 / 2 ^ 51⟩] oneItemDrifted.weights.entries
        ∧ Rounded.scan round64
            (round64 ((9007199254740991 / 2 ^ 53) * oneItemDrifted.totalWeight))
            ([⟨"a", 2476979795053773 / 2 ^ 51⟩] : List (Sigma fun _ : String => ℚ)) = none)
      ∧ (0 < fiveItems.count ∧ NonnegOk fiveItems ∧ TotalOk fiveItems
        ∧ List.Perm
            [⟨"a", 3273369261191463 / 2 ^ 42⟩,
          ⟨"b", 2288413550890189 / 2 ^ 42⟩,
          ⟨"c", 8686449722686177 / 2 ^ 43⟩,
          ⟨"d", 5302822320356253 / 2 ^ 43⟩,
          ⟨"e", 2830402241669901 / 2 ^ 42⟩]
            fiveItems.weights.entries
        ∧ Rounded.scan round64
            (round64 ((9007199254740991 / 2 ^ 53) * fiveItems.totalWeight))
            ([⟨"a", 3273369261191463 / 2 ^ 42⟩,
          ⟨"b", 2288413550890189 / 2 ^ 42⟩,
          ⟨"c", 8686449722686177 / 2 ^ 43⟩,
          ⟨"d", 5302822320356253 / 2 ^ 43⟩,
          ⟨"e", 2830402241669901 / 2 ^ 42⟩] :
              List (Sigma fun _ : String => ℚ)) = none) := by
  refine ⟨⟨by norm_num, by norm_num⟩, ?_, ?_⟩
  · obtain ⟨s1, hscan⟩ := scan_falls_through
    have hent : (AList.insert "a" (2476979795053773 / 2 ^ 51) (∅) :
        AList (fun _ : String => ℚ)).entries = [⟨"a", 2476979795053773 / 2 ^ 51⟩] := by
      rw [entries_insert_of_lookup_none _ _ _ (AList.lookup_empty _)]
      rfl
    obtain ⟨he, hc, ht, _⟩ := entries_of_snapshot oneItemDrifted _ _ _ _ _ s1 hent
    refine ⟨by rw [hc]; simp, Rounded.nonnegOk_reach_rnd round64 round64_nonneg _ _, ?_, ?_⟩
    · rw [he]
    · rw [ht]
      exact hscan
  · obtain ⟨s5, hsum, hscan⟩ := scan_falls_through_five
    obtain ⟨he, hc, ht, hT⟩ := entries_of_snapshot fiveItems _ _ _ _ _ s5 five_entries
    refine ⟨by rw [hc]; simp, Rounded.nonnegOk_reach_rnd round64 round64_nonneg _ _,
      hT (by norm_num), ?_, ?_⟩
    · rw [he]
      exact List.reverse_perm
        ([⟨"e", 2830402241669901 / 2 ^ 42⟩,
          ⟨"d", 5302822320356253 / 2 ^ 43⟩,
          ⟨"c", 8686449722686177 / 2 ^ 43⟩,
          ⟨"b", 2288413550890189 / 2 ^ 42⟩,
          ⟨"a", 3273369261191463 / 2 ^ 42⟩] :
          List (Sigma fun _ : String => ℚ))
    · rw [ht]
      exact hscan

/-- C13 (amended): on a non-empty map, for all iteration orders of its two
loops and every draw, `GetItem` returns a key of the map, with any rounding
(float64 included) and without, from the first loop or from the code after
it; over exact arithmetic, when no weight is negative, the total is the sum
of the weights and the draw is below 1, the first loop returns, so that the
code after it is not reached; a total of 0 is included. -/
theorem C13_GetItem_returns_in_loop [Inhabited T] (rnd : ℚ → ℚ) (ws : WeightSystem T)
    (order order2 : List (Sigma fun _ : T => ℚ)) (u : ℚ)
    (hperm : order.Perm ws.weights.entries) (hperm2 : order2.Perm ws.weights.entries)
    (hne : 0 < ws.count) :
    Rounded.GetItem rnd ws order order2 u ∈ ws.weights
      ∧ GetItem ws order order2 u ∈ ws.weights
      ∧ (NonnegOk ws → TotalOk ws → u < 1 →
          ∃ x : T, scan (u * ws.totalWeight) order = some x
            ∧ GetItem ws order order2 u = x ∧ x ∈ ws.weights) := by
  refine ⟨Rounded.GetItem_mem rnd ws order order2 u hperm hperm2 hne, ?_, ?_⟩
  · rw [← Rounded.GetItem_id]
    exact Rounded.GetItem_mem id ws order order2 u hperm hperm2 hne
  · intro hnn htot hu1
    obtain ⟨_, hsum0, hkeys, hlen⟩ := order_facts ws order hperm
    have hsum : (order.map (fun e => e.2)).sum = ws.totalWeight := by
      rw [hsum0]; exact htot.symm
    have ht0 : 0 ≤ ws.totalWeight := by
      rw [← hsum]
      apply List.sum_nonneg
      intro x hx
      obtain ⟨e, he, rfl⟩ := List.mem_map.mp hx
      exact hnn e (hperm.subset he)
    have hne2 : order ≠ [] := by
      rintro rfl
      simp at hlen
      omega
    obtain ⟨x, hx⟩ := scan_returns ws order u hsum ht0 hne2 hu1
    exact ⟨x, hx, GetItem_of_scan ws order order2 u x hx,
      hkeys x (scan_mem_keys order _ _ hx)⟩

/-- C13 (amended) at a concrete input: the system whose only item `"x"` has
weight 0, so that the total is 0; the draw 1/2 returns `"x"` from the first
loop. -/
theorem C13_GetItem_returns_in_loop_witness :
    zeroItem.totalWeight = 0
      ∧ 0 < zeroItem.count
      ∧ Rounded.GetItem round64 zeroItem [⟨"x", 0⟩] [⟨"x", 0⟩] (1 / 2) ∈ zeroItem.weights
      ∧ ∃ x : String, scan (1 / 2 * zeroItem.totalWeight) [⟨"x", 0⟩] = some x
          ∧ GetItem zeroItem [⟨"x", 0⟩] [⟨"x", 0⟩] (1 / 2) = x ∧ x ∈ zeroItem.weights := by
  have hperm : List.Perm [⟨"x", 0⟩] zeroItem.weights.entries := by
    rw [zeroItem_entries]
  have hc : 0 < zeroItem.count := by
    unfold count
    rw [zeroItem_entries]
    simp
  have hnn : NonnegOk zeroItem := by
    rw [zeroItem_eq_reach]; exact nonnegOk_reach _ _
  have htot : TotalOk zeroItem := by
    rw [zeroItem_eq_reach]; exact totalOk_reach _ _
  have t := C13_GetItem_returns_in_loop round64 zeroItem [⟨"x", 0⟩] [⟨"x", 0⟩] (1 / 2)
    hperm hperm hc
  exact ⟨zeroItem_totalWeight, hc, t.1, t.2.2 hnn htot (by norm_num)⟩

/-- C15 (as stated, fails in float64): in the system built with the upper
bound `1.7`, `AddItems` of `"a"`, `"b"`, `"c"`, `"d"` without a weight option
stores `"a"` at the float64 `1.35` but `"d"` at the next float64 above it; the
weight of `"d"` and the average are neither the exact middle of the bounds
nor the middle computed in float64, and the total is not 4 times either. -/
theorem C15_AddItems_float64_drift :
    fourAtAverage.weights.lookup "a" = some (3039929748475085 / 2 ^ 51)
      ∧ fourAtAverage.weights.lookup "d" = some (6079859496950171 / 2 ^ 52)
      ∧ fourAtAverage.weights.lookup "d"
          ≠ some ((fourAtAverage.minWeight + fourAtAverage.maxWeight) / 2)
      ∧ fourAtAverage.weights.lookup "d"
          ≠ some (round64 (round64 (fourAtAverage.minWeight + fourAtAverage.maxWeight) / 2))
      ∧ fourAtAverage.avgWeight ≠ (fourAtAverage.minWeight + fourAtAverage.maxWeight) / 2
      ∧ fourAtAverage.avgWeight
          ≠ round64 (round64 (fourAtAverage.minWeight + fourAtAverage.maxWeight) / 2)
      ∧ fourAtAverage.totalWeight
          ≠ 4 * ((fourAtAverage.minWeight + fourAtAverage.maxWeight) / 2)
      ∧ fourAtAverage.totalWeight
          ≠ 4 * round64 (round64 (fourAtAverage.minWeight + fourAtAverage.maxWeight) / 2) := by
  have hs : fourAtAverage
      = (⟨AList.insert "d" (6079859496950171 / 2 ^ 52) (AList.insert "c" (3039929748475085 / 2 ^ 51) (AList.insert "b" (3039929748475085 / 2 ^ 51) (AList.insert "a" (3039929748475085 / 2 ^ 51) (∅)))),
          1, 7656119366529843 / 2 ^ 52, 6079859496950171 / 2 ^ 50,
          6079859496950171 / 2 ^ 52⟩ : WeightSystem String) := addItems_drift
  have ha : fourAtAverage.weights.lookup "a" = some (3039929748475085 / 2 ^ 51) := by
    rw [hs]
    exact (AList.lookup_insert_ne (by decide)).trans ((AList.lookup_insert_ne (by decide)).trans
      ((AList.lookup_insert_ne (by decide)).trans (AList.lookup_insert _)))
  have hd : fourAtAverage.weights.lookup "d" = some (6079859496950171 / 2 ^ 52) := by
    rw [hs]
    exact AList.lookup_insert _
  have hmin : fourAtAverage.minWeight = 1 := by rw [hs]
  have hmax : fourAtAverage.maxWeight = 7656119366529843 / 2 ^ 52 := by rw [hs]
  have hav : fourAtAverage.avgWeight = 6079859496950171 / 2 ^ 52 := by rw [hs]
  have htt : fourAtAverage.totalWeight = 6079859496950171 / 2 ^ 50 := by rw [hs]
  rw [hd, hav, htt, hmin, hmax, round64_middle_of_bounds]
  refine ⟨ha, rfl, ?_, ?_, ?_, ?_, ?_, ?_⟩
  · intro h
    have := Option.some.inj h
    norm_num at this
  · intro h
    have := Option.some.inj h
    norm_num at this
  · norm_num
  · norm_num
  · norm_num
  · norm_num

/-- C15 (amended): over exact arithmetic, for a system built by `New` with any
options and a list of `k` pairwise distinct items, `AddItems` without a
weight option on the empty system stores every item at
`(minWeight + maxWeight) / 2`, makes the total `k * (minWeight + maxWeight) / 2`
and leaves the average at `(minWeight + maxWeight) / 2`; with the default
bounds and the items `"a"`, `"b"`, `"c"` the weights 500.5, the total 1501.5
and the average 500.5 are also what float64 arithmetic gives. -/
theorem C15_AddItems_on_empty (opts : List NewOption) (items : List T) (hnd : items.Nodup) :
    (∀ x ∈ items, (AddItems (New opts : WeightSystem T) items []).weights.lookup x
        = some (((New opts : WeightSystem T).minWeight
            + (New opts : WeightSystem T).maxWeight) / 2))
      ∧ (AddItems (New opts : WeightSystem T) items []).count = items.length
      ∧ (AddItems (New opts : WeightSystem T) items []).totalWeight
          = (items.length : ℚ) * (((New opts : WeightSystem T).minWeight
              + (New opts : WeightSystem T).maxWeight) / 2)
      ∧ (AddItems (New opts : WeightSystem T) items []).avgWeight
          = ((New opts : WeightSystem T).minWeight
              + (New opts : WeightSystem T).maxWeight) / 2
      ∧ (∀ x ∈ ["a", "b", "c"],
          (Rounded.AddItems round64 (Rounded.New round64 [] : WeightSystem String)
            ["a", "b", "c"] []).weights.lookup x = some (1001 / 2))
      ∧ (Rounded.AddItems round64 (Rounded.New round64 [] : WeightSystem String)
          ["a", "b", "c"] []).totalWeight = 3003 / 2
      ∧ (Rounded.AddItems round64 (Rounded.New round64 [] : WeightSystem String)
          ["a", "b", "c"] []).avgWeight = 1001 / 2 := by
  have hb : BoundsOk (New opts : WeightSystem T) := boundsOk_New opts
  have hc : (New opts : WeightSystem T).count = 0 := by simp [New, count]
  have hA : AvgOk (New opts : WeightSystem T) := avgOk_updateAvgWeight _
  have havg : (New opts : WeightSystem T).avgWeight
      = ((New opts : WeightSystem T).minWeight + (New opts : WeightSystem T).maxWeight) / 2 := by
    unfold AvgOk at hA
    rw [hA, hc, if_neg (by omega)]
  have htot : (New opts : WeightSystem T).totalWeight
      = ((New opts : WeightSystem T).count : ℚ)
        * (((New opts : WeightSystem T).minWeight
            + (New opts : WeightSystem T).maxWeight) / 2) := by
    rw [hc]
    simp [New]
  have habs : ∀ x ∈ items, (New opts : WeightSystem T).weights.lookup x = none := by
    intro x _
    simp [New]
  obtain ⟨h1, _, h3, h4, h5⟩ := AddItems_uniform _ items (New opts : WeightSystem T) hnd habs
    (by linarith [hb.2]) (by linarith [hb.2]) havg htot
  refine ⟨h1, ?_, ?_, h3, ?_, ?_, ?_⟩
  · rw [h4, hc]; omega
  · rw [h5, hc]
    simp
  · intro x hx
    rw [addItems_default_float64]
    simp only [List.mem_cons, List.mem_singleton, List.not_mem_nil, or_false] at hx
    rcases hx with rfl | rfl | rfl
    · exact (AList.lookup_insert_ne (by decide)).trans
        ((AList.lookup_insert_ne (by decide)).trans (AList.lookup_insert _))
    · exact (AList.lookup_insert_ne (by decide)).trans (AList.lookup_insert _)
    · exact AList.lookup_insert _
  · rw [addItems_default_float64]
  · rw [addItems_default_float64]

/-- C15 (amended) at a concrete input: the items `"a"`, `"b"`, `"c"` added to
the default system get 500.5 each, the total is 1501.5 and the average
500.5. -/
theorem C15_AddItems_on_empty_witness :
    (["a", "b", "c"] : List String).Nodup
      ∧ (AddItems (New [] : WeightSystem String) ["a", "b", "c"] []).weights.lookup "a"
          = some (1001 / 2)
      ∧ (AddItems (New [] : WeightSystem String) ["a", "b", "c"] []).weights.lookup "b"
          = some (1001 / 2)
      ∧ (AddItems (New [] : WeightSystem String) ["a", "b", "c"] []).weights.lookup "c"
          = some (1001 / 2)
      ∧ (AddItems (New [] : WeightSystem String) ["a", "b", "c"] []).totalWeight = 3003 / 2
      ∧ (AddItems (New [] : WeightSystem String) ["a", "b", "c"] []).avgWeight = 1001 / 2 := by
  have hnd : (["a", "b", "c"] : List String).Nodup := by simp
  have t := C15_AddItems_on_empty ([] : List NewOption) (["a", "b", "c"] : List String) hnd
  have hm : ((New [] : WeightSystem String).minWeight
      + (New [] : WeightSystem String).maxWeight) / 2 = 1001 / 2 := by
    simp [New]
    norm_num
  rw [hm] at t
  refine ⟨hnd, t.1 "a" (by simp), t.1 "b" (by simp), t.1 "c" (by simp), ?_, t.2.2.2.1⟩
  rw [t.2.2.1]
  norm_num

/-- C17 (as stated, fails in float64): in the reachable state obtained from
the default system by adding `"a"` at 1000 and `"b"` at the float64 `1.3` and
removing both, `totalWeight` is `-205 / 2^52`, a negative number. -/
theorem C17_totalWeight_negative_in_float64 :
    addedAndRemoved.totalWeight = -205 / 2 ^ 52
      ∧ addedAndRemoved.totalWeight < 0
      ∧ ¬ ∀ (opts : List NewOption) (calls : List (Call String)),
          (∀ (item : String) (w : ℚ),
              (Rounded.reach round64 opts calls).weights.lookup item = some w → 0 ≤ w)
            ∧ 0 ≤ (Rounded.reach round64 opts calls : WeightSystem String).totalWeight := by
  have h : addedAndRemoved.totalWeight = -205 / 2 ^ 52 := total_after_add_remove
  have hneg : addedAndRemoved.totalWeight < 0 := by rw [h]; norm_num
  refine ⟨h, hneg, fun hall => ?_⟩
  have h0 := (hall []
    [Call.addItem "a" [WithWeight 1000],
      Call.addItem "b" [WithWeight (5854679515581645 / 2 ^ 52)],
      Call.removeItem "a", Call.removeItem "b"]).2
  exact absurd hneg (not_lt.mpr h0)

/-- C17 (amended): in every state reachable from `New opts` by a finite
sequence of `AddItem` (with any options, negative weights included),
`AddItems`, `RemoveItem` and `AdjustWeight` calls, no stored weight is
negative, in float64 arithmetic and in exact arithmetic alike; and over exact
arithmetic `totalWeight` is not negative. -/
theorem C17_no_negative_weight (opts : List NewOption) (calls : List (Call T)) :
    (∀ (item : T) (w : ℚ),
        (Rounded.reach round64 opts calls).weights.lookup item = some w → 0 ≤ w)
      ∧ (∀ (item : T) (w : ℚ), (reach opts calls).weights.lookup item = some w → 0 ≤ w)
      ∧ 0 ≤ (reach opts calls : WeightSystem T).totalWeight := by
  have hnnR : NonnegOk (Rounded.reach round64 opts calls : WeightSystem T) :=
    Rounded.nonnegOk_reach_rnd round64 round64_nonneg opts calls
  have hnn : NonnegOk (reach opts calls : WeightSystem T) := nonnegOk_reach opts calls
  have htot : TotalOk (reach opts calls : WeightSystem T) := totalOk_reach opts calls
  refine ⟨fun item w h => ?_, fun item w h => ?_, ?_⟩
  · exact hnnR _ (AList.mem_lookup_iff.mp h)
  · exact hnn _ (AList.mem_lookup_iff.mp h)
  · rw [htot]
    unfold sumWeights
    apply List.sum_nonneg
    intro x hx
    obtain ⟨e, he, rfl⟩ := List.mem_map.mp hx
    exact hnn e he

end WeightSystem
